import Mathlib

/-!
Database datasource: planner, engine registry and request sanitising.

A shallow embedding of `pkg/datasources/database/datasource.go`.

* Byte slices (`[]byte`) are lists of natural numbers (one number per byte).
* Go `int` indices are `Int`, so that the `-1` of `bytes.Index` and
  `bytes.LastIndex` is kept as it is in the source.
* Code that can panic in Go (an index out of range) returns `Option`.
-/

namespace Database

/-! ## Byte strings -/

/-- The bytes of a string constant (its UTF-8 encoding), as in `[]byte("...")`. -/
def bytesOf (s : String) : List Nat :=
  s.toUTF8.data.toList.map UInt8.toNat

/-- All indices `i` at which `sep` occurs in `s`, in increasing order. -/
def occurrences (s sep : List Nat) : List Nat :=
  (List.range (s.length + 1)).filter (fun i => sep.isPrefixOf (s.drop i))

/-- Go `bytes.Index(s, sep)`: the index of the first instance of `sep` in `s`,
or `-1` if `sep` is not present in `s`. -/
def bytesIndex (s sep : List Nat) : Int :=
  match (occurrences s sep).head? with
  | some i => (i : Int)
  | none => -1

/-- Go `bytes.LastIndex(s, sep)`: the index of the last instance of `sep` in
`s`, or `-1` if `sep` is not present in `s`. -/
def bytesLastIndex (s sep : List Nat) : Int :=
  match (occurrences s sep).getLast? with
  | some i => (i : Int)
  | none => -1

/-- Go `bytes.Contains(s, sep)`, as a proposition: `sep` occurs in `s`. -/
def containsBytes (s sep : List Nat) : Prop := sep <:+: s

instance (s sep : List Nat) : Decidable (containsBytes s sep) :=
  inferInstanceAs (Decidable (sep <:+: s))

/-! ## `Source.unNullRequest` -/

/-- The function `max` of the source: the highest of its four arguments. -/
def max (start1 start2 start3 start4 : Int) : Int :=
  if start1 > start2 then
    if start1 > start3 then
      if start1 > start4 then start1 else start4
    else if start3 > start4 then start3 else start4
  else if start2 > start3 then
    if start2 > start4 then start2 else start4
  else if start3 > start4 then start3 else start4

/-- The literal `[]byte(": null")`. -/
def nullLiteral : List Nat := bytesOf ": null"

/-- The index `start` that `unNullRequest` computes for an occurrence at
`end_`: the greatest of the four `bytes.LastIndex` results on `request[:end]`. -/
def unNullStart (request : List Nat) (end_ : Int) : Int :=
  let start1 := bytesLastIndex (request.take end_.toNat) (bytesOf "\x7b")
  let start2 := bytesLastIndex (request.take end_.toNat) (bytesOf "(")
  let start3 := bytesLastIndex (request.take end_.toNat) (bytesOf ",")
  let start4 := bytesLastIndex (request.take end_.toNat) (bytesOf " ")
  max start1 start2 start3 start4

/-- One pass through the body of `unNullRequest`: `none` when the request has
no `: null` (the function returns its argument), and otherwise the request
`append(request[:start+1], request[end+6:]...)` of the recursive call. -/
def unNullStep (request : List Nat) : Option (List Nat) :=
  let end_ := bytesIndex request nullLiteral
  if end_ ≠ -1 then
    let start := unNullStart request end_
    some (request.take (start + 1).toNat ++ request.drop (end_ + 6).toNat)
  else
    none

/-- The recursion of `unNullRequest`, with a bound on the number of recursive
calls. -/
def unNullRequestFuel : Nat → List Nat → List Nat
  | 0, request => request
  | fuel + 1, request =>
    match unNullStep request with
    | some request' => unNullRequestFuel fuel request'
    | none => request

/-- The method `Source.unNullRequest`. Every recursive call is on a shorter
request, so `request.length` calls are enough (see `unNullRequest_eq`). -/
def unNullRequest (request : List Nat) : List Nat :=
  unNullRequestFuel request.length request

/-- The request text of scenario S4. -/
def s4Request : List Nat := bytesOf "filter: \x7bname: \x7bcontains: null\x7d\x7d"


/-! ## GraphQL documents (library package `ast`)

The planner works on `ast.Document` values: arenas in which operation
definitions, selection sets, selections, fields, inline fragments, arguments,
variable definitions and types are addressed by integer refs. Names
(`ByteSliceReference` into the input buffer) are resolved to strings, and
`ast.Value` handles are resolved to the value they denote. -/

/-- Go indexing `xs[i]` with an `int` index; `none` is the panic on an index out
of range. -/
def index {α : Type} (xs : List α) (i : Int) : Option α :=
  if i < 0 then none else xs[i.toNat]?

/-- Go `xs[i] = f(xs[i])`; `none` is the panic on an index out of range. -/
def modifyAt {α : Type} (xs : List α) (i : Int) (f : α → α) : Option (List α) :=
  match index xs i with
  | some x => some (xs.set i.toNat (f x))
  | none => none

/-- Go `xs = xs[:len(xs)-1]`; `none` is the panic on an empty slice. -/
def dropLast? {α : Type} (xs : List α) : Option (List α) :=
  if xs.length = 0 then none else some xs.dropLast

inductive OperationType where
  | Unknown
  | Query
  | Mutation
  | Subscription
  deriving DecidableEq, Repr

inductive NodeKind where
  | Unknown
  | OperationDefinition
  | SelectionSet
  | Field
  | InlineFragment
  | ObjectTypeDefinition
  | InterfaceTypeDefinition
  deriving DecidableEq, Repr

structure Node where
  Kind : NodeKind
  Ref : Int
  deriving DecidableEq, Repr

inductive SelectionKind where
  | Unknown
  | Field
  | FragmentSpread
  | InlineFragment
  deriving DecidableEq, Repr

structure Selection where
  Kind : SelectionKind
  Ref : Int
  deriving DecidableEq, Repr

structure SelectionSet where
  SelectionRefs : List Int := []
  deriving DecidableEq, Repr

/-- A GraphQL value (`ast.Value` with its `Ref` resolved). `Scalar` stands for
every kind other than variable, object and list. -/
inductive Value where
  | Variable (name : String)
  | Object (fields : List (String × Value))
  | List (values : List Value)
  | Scalar (raw : String)
  deriving Repr

structure Alias where
  IsDefined : Bool := false
  Name : String := ""
  deriving DecidableEq, Repr

structure Field where
  Alias : Alias := {}
  Name : String
  HasArguments : Bool := false
  Arguments : List Int := []
  HasSelections : Bool := false
  SelectionSet : Int := 0
  deriving DecidableEq, Repr

structure TypeCondition where
  Type_ : Int
  deriving DecidableEq, Repr

structure InlineFragment where
  TypeCondition : TypeCondition
  HasSelections : Bool := false
  SelectionSet : Int := 0
  deriving DecidableEq, Repr

structure OperationDefinition where
  OperationType : OperationType
  HasVariableDefinitions : Bool := false
  VariableDefinitions : List Int := []
  HasSelections : Bool := false
  SelectionSet : Int := 0
  deriving DecidableEq, Repr

structure Argument where
  Name : String
  Value : Value
  deriving Repr

/-- A variable definition: the name of its variable value and the ref of its type. -/
structure VariableDefinition where
  VariableValue : String
  Type_ : Int
  deriving DecidableEq, Repr

inductive TypeKind where
  | Unknown
  | Named
  | List
  | NonNull
  deriving DecidableEq, Repr

structure GraphQLType where
  TypeKind : TypeKind
  Name : String := ""
  OfType : Int := 0
  deriving DecidableEq, Repr

structure ObjectTypeDefinition where
  Name : String
  FieldsDefinition : List Int := []
  deriving DecidableEq, Repr

structure FieldDefinition where
  Name : String
  deriving DecidableEq, Repr

/-- The index of a definition document: the name of the query type and the nodes
by name. -/
structure Index where
  QueryTypeName : String := ""
  nodes : List (String × Node) := []
  deriving DecidableEq, Repr

structure Document where
  RootNodes : List Node := []
  OperationDefinitions : List OperationDefinition := []
  SelectionSets : List SelectionSet := []
  Selections : List Selection := []
  Fields : List Field := []
  InlineFragments : List InlineFragment := []
  Arguments : List Argument := []
  VariableDefinitions : List VariableDefinition := []
  Types : List GraphQLType := []
  ObjectTypeDefinitions : List ObjectTypeDefinition := []
  FieldDefinitions : List FieldDefinition := []
  Index : Index := {}
  deriving Repr

/-- Library `ast.NewDocument()` and the state after `Document.Reset()`. -/
def Document.empty : Document := {}

/-- Library `Document.AddOperationDefinitionToRootNodes`. -/
def Document.AddOperationDefinitionToRootNodes (d : Document) (definition : OperationDefinition) :
    Document × Node :=
  let node : Node := { Kind := NodeKind.OperationDefinition, Ref := d.OperationDefinitions.length }
  ({ d with OperationDefinitions := d.OperationDefinitions ++ [definition],
            RootNodes := d.RootNodes ++ [node] }, node)

/-- Library `Document.AddSelectionSet`. -/
def Document.AddSelectionSet (d : Document) : Document × Node :=
  ({ d with SelectionSets := d.SelectionSets ++ [{}] },
   { Kind := NodeKind.SelectionSet, Ref := d.SelectionSets.length })

/-- Library `Document.AddField`. -/
def Document.AddField (d : Document) (field : Field) : Document × Node :=
  ({ d with Fields := d.Fields ++ [field] }, { Kind := NodeKind.Field, Ref := d.Fields.length })

/-- Library `Document.AddSelection`: the selection is appended to the document and
its ref to `SelectionSets[set]`. -/
def Document.AddSelection (d : Document) (set : Int) (selection : Selection) : Option Document :=
  match modifyAt d.SelectionSets set
      (fun s => { s with SelectionRefs := s.SelectionRefs ++ [(d.Selections.length : Int)] }) with
  | some sets => some { d with Selections := d.Selections ++ [selection], SelectionSets := sets }
  | none => none

/-- Library `Document.AddInlineFragment`. -/
def Document.AddInlineFragment (d : Document) (fragment : InlineFragment) : Document × Int :=
  ({ d with InlineFragments := d.InlineFragments ++ [fragment] }, d.InlineFragments.length)

/-- Library `Document.AddNamedType`. -/
def Document.AddNamedType (d : Document) (name : String) : Document × Int :=
  ({ d with Types := d.Types ++ [{ TypeKind := TypeKind.Named, Name := name }] }, d.Types.length)

/-- Library `Document.AddArgument`. -/
def Document.AddArgument (d : Document) (argument : Argument) : Document × Int :=
  ({ d with Arguments := d.Arguments ++ [argument] }, d.Arguments.length)

/-- Library `Document.AddVariableValueArgument`: an argument `argName: $variableName`.
Returns the variable value (its name) and the ref of the argument. -/
def Document.AddVariableValueArgument (d : Document) (argName variableName : String) :
    Document × String × Int :=
  ({ d with Arguments := d.Arguments ++ [{ Name := argName, Value := Value.Variable variableName }] },
   variableName, d.Arguments.length)

/-- Library `Document.AddArgumentToField`. -/
def Document.AddArgumentToField (d : Document) (fieldRef argRef : Int) : Option Document :=
  match modifyAt d.Fields fieldRef
      (fun f => { f with HasArguments := true, Arguments := f.Arguments ++ [argRef] }) with
  | some fields => some { d with Fields := fields }
  | none => none

/-- Library `Document.AddVariableDefinitionToOperationDefinition`. -/
def Document.AddVariableDefinitionToOperationDefinition (d : Document)
    (operationDefinitionRef : Int) (variableValue : String) (typeRef : Int) : Option Document :=
  match modifyAt d.OperationDefinitions operationDefinitionRef
      (fun o => { o with HasVariableDefinitions := true,
                         VariableDefinitions :=
                           o.VariableDefinitions ++ [(d.VariableDefinitions.length : Int)] }) with
  | some ops =>
    some { d with VariableDefinitions :=
                    d.VariableDefinitions ++ [{ VariableValue := variableValue, Type_ := typeRef }],
                  OperationDefinitions := ops }
  | none => none

/-- Library `Document.FieldNameString` (and `FieldNameUnsafeString`, `FieldNameBytes`). -/
def Document.FieldNameString (d : Document) (ref : Int) : Option String :=
  (index d.Fields ref).map (fun f => f.Name)

/-- Library `Document.FieldAliasIsDefined`. -/
def Document.FieldAliasIsDefined (d : Document) (ref : Int) : Option Bool :=
  (index d.Fields ref).map (fun f => f.Alias.IsDefined)

/-- Library `Document.InlineFragmentTypeConditionName`: `nil` (the inner `none`)
when the fragment has no type condition (`TypeCondition.Type == -1`). -/
def Document.InlineFragmentTypeConditionName (d : Document) (ref : Int) : Option (Option String) :=
  match index d.InlineFragments ref with
  | none => none
  | some fragment =>
    if fragment.TypeCondition.Type_ ≠ -1 then
      (index d.Types fragment.TypeCondition.Type_).map (fun t => some t.Name)
    else
      some none

/-- The loop of `Document.FieldArgument` over the argument refs of a field. -/
def Document.findArgument (d : Document) (name : String) : List Int → Option (Int × Bool)
  | [] => some (-1, false)
  | i :: rest =>
    match index d.Arguments i with
    | none => none
    | some argument => if argument.Name = name then some (i, true) else d.findArgument name rest

/-- Library `Document.FieldArgument`: the ref of the argument `name` of the field,
or `(-1, false)`. -/
def Document.FieldArgument (d : Document) (field : Int) (name : String) : Option (Int × Bool) :=
  match index d.Fields field with
  | none => none
  | some f => d.findArgument name f.Arguments

/-- Library `Document.ArgumentValue`. -/
def Document.ArgumentValue (d : Document) (ref : Int) : Option Value :=
  (index d.Arguments ref).map (fun a => a.Value)

/-- The loop of `Document.VariableDefinitionByNameAndOperation`. -/
def Document.findVariableDefinition (d : Document) (name : String) :
    List Int → Option (Int × Bool)
  | [] => some (-1, false)
  | i :: rest =>
    match index d.VariableDefinitions i with
    | none => none
    | some definition =>
      if name = definition.VariableValue then some (i, true)
      else d.findVariableDefinition name rest

/-- Library `Document.VariableDefinitionByNameAndOperation`: the ref of the
definition of variable `name` on the operation, or `(-1, false)`. -/
def Document.VariableDefinitionByNameAndOperation (d : Document) (operationDefinition : Int)
    (name : String) : Option (Int × Bool) :=
  match index d.OperationDefinitions operationDefinition with
  | none => none
  | some o =>
    if !o.HasVariableDefinitions then some (-1, false)
    else d.findVariableDefinition name o.VariableDefinitions

/-- The loop of `Document.ResolveTypeNameString`, bounded by the number of types. -/
def Document.resolveTypeName (d : Document) : Nat → Int → Option String
  | 0, _ => none
  | fuel + 1, ref =>
    match index d.Types ref with
    | none => none
    | some t => if t.TypeKind = TypeKind.Named then some t.Name else d.resolveTypeName fuel t.OfType

/-- Library `Document.ResolveTypeNameString`: the name of the named type under the
list and non-null wrappers of the type. -/
def Document.ResolveTypeNameString (d : Document) (ref : Int) : Option String :=
  d.resolveTypeName (d.Types.length + 1) ref

/-- Library `NodeIndex.FirstNodeByNameBytes`. -/
def Index.FirstNodeByNameBytes (i : Index) (name : String) : Node × Bool :=
  match i.nodes.find? (fun entry => entry.1 = name) with
  | some entry => (entry.2, true)
  | none => ({ Kind := NodeKind.Unknown, Ref := -1 }, false)

/-- Library `Document.FieldDefinitionsContainField`, on refs of the document. -/
def Document.FieldDefinitionsContainField (d : Document) (definitions : List Int)
    (field : String) : Bool :=
  definitions.any (fun i =>
    match index d.FieldDefinitions i with
    | some definition => definition.Name = field
    | none => false)

/-! ## The planning framework (library packages `plan` and `resolve`) -/

inductive SourceType where
  | ObjectFieldSource
  | FieldArgumentSource
  deriving DecidableEq, Repr

structure ArgumentConfiguration where
  Name : String
  SourceType : SourceType
  SourcePath : List String := []
  deriving DecidableEq, Repr

structure FieldConfiguration where
  TypeName : String
  FieldName : String
  Path : List String := []
  Arguments : List ArgumentConfiguration := []
  deriving DecidableEq, Repr

/-- Library `FieldConfigurations.ForTypeField`: the first configuration of the
type and field, or `nil`. -/
def ForTypeField (fields : List FieldConfiguration) (typeName fieldName : String) :
    Option FieldConfiguration :=
  fields.find? (fun f => f.TypeName = typeName ∧ f.FieldName = fieldName)

/-- The part of the walker the planner reads and writes: the name of the enclosing
type definition (`EnclosingTypeDefinition.NameString(Definition)`), the ancestors, and
the errors it was stopped with (`StopWithInternalErr`). -/
structure Walker where
  EnclosingTypeDefinition : String := ""
  Ancestors : List Node := []
  stopped : List String := []
  deriving DecidableEq, Repr

/-- Library `Walker.StopWithInternalErr`. -/
def Walker.StopWithInternalErr (w : Walker) (err : String) : Walker :=
  { w with stopped := w.stopped ++ [err] }

/-- The planning visitor (`plan.Visitor`): the downstream operation, the schema
definition, the field configurations (`Config.Fields`) and the walker. -/
structure Visitor where
  Operation : Document := {}
  Definition : Document := {}
  Fields : List FieldConfiguration := []
  Walker : Walker := {}

/-- A variable renderer, identified by the JSON schema it renders with. -/
structure VariableRenderer where
  schema : String
  deriving DecidableEq, Repr

inductive VariableKind where
  | ContextVariable
  | ObjectVariable
  deriving DecidableEq, Repr

/-- Library `resolve.ContextVariable` and `resolve.ObjectVariable`. -/
structure Variable where
  Kind : VariableKind
  Path : List String
  Renderer : VariableRenderer
  deriving DecidableEq, Repr

/-- Library `Variable.Equals`: the same kind and the same path. -/
def Variable.Equals (a b : Variable) : Bool :=
  decide (a.Kind = b.Kind) && decide (a.Path = b.Path)

/-- The placeholder of the variable at `i`: two dollar signs, the index, two dollar signs. -/
def variablePlaceholder (i : Nat) : String :=
  "$$" ++ toString i ++ "$$"

/-- Library `Variables.AddVariable`: the placeholder of the variable, and whether an
equal variable was already in the list. -/
def AddVariable (vars : List Variable) (x : Variable) : List Variable × String × Bool :=
  match vars.findIdx? (fun y => y.Equals x) with
  | some i => (vars, variablePlaceholder i, true)
  | none => (vars ++ [x], variablePlaceholder vars.length, false)

/-- The functions of other packages that the planner calls and that are taken as
given: type import, name generation, renderers, JSON editing, printing, parsing,
schema merging and rewriting, normalization. A missing result (`none`) is the error
return of the function. -/
structure Library where
  /-- Library `Document.NodeFieldDefinitionArgumentDefinitionByName`, `-1` if absent. -/
  NodeFieldDefinitionArgumentDefinitionByName : Document → Node → String → String → Int
  /-- Library `Document.InputValueDefinitionType`. -/
  InputValueDefinitionType : Document → Int → Int
  /-- Library `Document.GenerateUnusedVariableDefinitionName`. -/
  GenerateUnusedVariableDefinitionName : Document → Int → String
  /-- Library `Importer.ImportType`, from a definition into the upstream document. -/
  ImportType : Int → Document → Document → Document × Int
  /-- Library `resolve.NewGraphQLVariableRendererFromTypeRef`. -/
  NewGraphQLVariableRendererFromTypeRef : Document → Document → Int → Option VariableRenderer
  /-- Library `resolve.NewGraphQLVariableRendererFromTypeRefWithoutValidation`. -/
  NewGraphQLVariableRendererFromTypeRefWithoutValidation :
    Document → Document → Int → Option VariableRenderer
  /-- Library `sjson.SetRawBytes`. -/
  SetRawBytes : String → String → String → String
  /-- Library `astprinter.Print` of an operation, with or without a definition. -/
  Print : Document → Option Document → Option String
  /-- Library `astparser.Parser.Parse` of a document given by its input text. -/
  Parse : String → Option Document
  /-- Library `asttransform.MergeDefinitionWithBaseSchema`. -/
  MergeDefinitionWithBaseSchema : Document → Option Document
  /-- Library `Document.RemoveObjectTypeDefinition`. -/
  RemoveObjectTypeDefinition : Document → String → Document
  /-- Library `Document.ReplaceRootOperationTypeDefinition`. -/
  ReplaceRootOperationTypeDefinition : Document → String → OperationType → Document
  /-- Library `OperationNormalizer.NormalizeOperation`: the normalized operation, or
  `none` when the report has errors. -/
  NormalizeOperation : Document → Document → Option Document
  /-- Library `json.Marshal` of the fetch input (query and variables); the error
  message on failure. -/
  Marshal : String → String → Except String String
  /-- Library `strings.Replace(s, old, new, -1)`. -/
  Replace : String → String → String → String

/-! ## The planner -/

structure SingleTypeField where
  TypeName : String
  FieldName : String
  deriving DecidableEq, Repr

structure Configuration where
  DatabaseURL : String := ""
  PrismaSchema : String := ""
  GraphqlSchema : String := ""
  CloseTimeoutSeconds : Int := 0
  JsonTypeFields : List SingleTypeField := []
  JsonInputVariables : List String := []
  WunderGraphDir : String := ""
  deriving DecidableEq, Repr

structure inlinedVariable where
  name : String
  typeRef : Int
  isJSON : Bool
  deriving DecidableEq, Repr

/-- The state of a `Planner`. The visitor it points to is passed to each method;
`upstreamOperation` is `none` while the pointer is `nil`; `variables_` is the field
`variables`. -/
structure Planner where
  config : Configuration := {}
  upstreamOperation : Option Document := none
  upstreamVariables : String := ""
  nodes : List Node := []
  variables_ : List Variable := []
  lastFieldEnclosingTypeName : String := ""
  disallowSingleFlight : Bool := false
  isNested : Bool := false
  rootTypeName : String := ""
  rootFieldName : String := ""
  rootFieldRef : Int := 0
  inlinedVariables : List inlinedVariable := []
  insideJsonField : Bool := false
  jsonFieldRef : Int := 0

/-- The loop of `DownstreamResponseFieldAlias` over `Config.Fields`: at the first
configuration of the type and field with a one-element path, the alias is the field
name if the path element differs from it; the loop ends there (`break`). -/
def aliasLoop (typeName fieldName : String) : List FieldConfiguration → String × Bool
  | [] => ("", false)
  | c :: rest =>
    if c.TypeName = typeName ∧ c.FieldName = fieldName ∧ c.Path.length = 1 then
      if c.Path[0]? ≠ some fieldName then (fieldName, true) else ("", false)
    else aliasLoop typeName fieldName rest

/-- The method `Planner.DownstreamResponseFieldAlias`. -/
def Planner.DownstreamResponseFieldAlias (_p : Planner) (v : Visitor) (downstreamFieldRef : Int) :
    Option (String × Bool) := do
  let fieldName ← v.Operation.FieldNameString downstreamFieldRef
  let aliasIsDefined ← v.Operation.FieldAliasIsDefined downstreamFieldRef
  if aliasIsDefined then
    some ("", false)
  else
    let typeName := v.Walker.EnclosingTypeDefinition
    some (aliasLoop typeName fieldName v.Fields)

/-- The method `Planner.EnterOperationDefinition`. -/
def Planner.EnterOperationDefinition (p : Planner) (v : Visitor) (ref : Int) : Option Planner := do
  let downstream ← index v.Operation.OperationDefinitions ref
  let operationType := downstream.OperationType
  let operationType := if p.isNested then OperationType.Query else operationType
  let upstream ← p.upstreamOperation
  let (upstream, definition) :=
    upstream.AddOperationDefinitionToRootNodes { OperationType := operationType }
  some { p with upstreamOperation := some upstream,
                disallowSingleFlight := decide (operationType = OperationType.Mutation),
                nodes := p.nodes ++ [definition] }

/-- The method `Planner.LeaveOperationDefinition`. -/
def Planner.LeaveOperationDefinition (p : Planner) (_ref : Int) : Option Planner := do
  let nodes ← dropLast? p.nodes
  some { p with nodes := nodes }

/-- The loop of `EnterSelectionSet` over the selections of the downstream set: every
field selection named `__typename` is added to the upstream set. -/
def addTypenameFields (operation : Document) (set : Int) :
    Document → List Int → Option Document
  | upstream, [] => some upstream
  | upstream, selectionRef :: rest => do
    let selection ← index operation.Selections selectionRef
    if selection.Kind = SelectionKind.Field then
      let name ← operation.FieldNameString selection.Ref
      if name = "__typename" then
        let (upstream, field) := upstream.AddField { Name := "__typename" }
        let upstream ← upstream.AddSelection set { Ref := field.Ref, Kind := SelectionKind.Field }
        addTypenameFields operation set upstream rest
      else addTypenameFields operation set upstream rest
    else addTypenameFields operation set upstream rest

/-- The `switch parent.Kind` of `EnterSelectionSet`: the new set becomes the selection
set of the parent, an operation definition, a field or an inline fragment. -/
def attachSelectionSet (upstream : Document) (parent set : Node) : Option Document :=
  match parent.Kind with
  | NodeKind.OperationDefinition =>
    (modifyAt upstream.OperationDefinitions parent.Ref
      (fun o => { o with HasSelections := true, SelectionSet := set.Ref })).map
      (fun ops => { upstream with OperationDefinitions := ops })
  | NodeKind.Field =>
    (modifyAt upstream.Fields parent.Ref
      (fun f => { f with HasSelections := true, SelectionSet := set.Ref })).map
      (fun fields => { upstream with Fields := fields })
  | NodeKind.InlineFragment =>
    (modifyAt upstream.InlineFragments parent.Ref
      (fun f => { f with HasSelections := true, SelectionSet := set.Ref })).map
      (fun fragments => { upstream with InlineFragments := fragments })
  | _ => some upstream

/-- The method `Planner.EnterSelectionSet`. -/
def Planner.EnterSelectionSet (p : Planner) (v : Visitor) (ref : Int) : Option Planner :=
  if p.insideJsonField then some p
  else do
    let parent ← p.nodes.getLast?
    let upstream ← p.upstreamOperation
    let (upstream, set) := upstream.AddSelectionSet
    let upstream ← attachSelectionSet upstream parent set
    let nodes := p.nodes ++ [set]
    let downstream ← index v.Operation.SelectionSets ref
    let upstream ← addTypenameFields v.Operation set.Ref upstream downstream.SelectionRefs
    some { p with upstreamOperation := some upstream, nodes := nodes }

/-- The method `Planner.LeaveSelectionSet`. -/
def Planner.LeaveSelectionSet (p : Planner) (_ref : Int) : Option Planner :=
  if p.insideJsonField then some p
  else do
    let nodes ← dropLast? p.nodes
    some { p with nodes := nodes }

/-- The method `Planner.EnterInlineFragment`. -/
def Planner.EnterInlineFragment (p : Planner) (v : Visitor) (ref : Int) : Option Planner :=
  if p.insideJsonField then some p
  else do
    let typeCondition ← v.Operation.InlineFragmentTypeConditionName ref
    match typeCondition with
    | none => some p
    | some typeCondition =>
      let upstream ← p.upstreamOperation
      let (upstream, namedType) := upstream.AddNamedType typeCondition
      let (upstream, inlineFragment) :=
        upstream.AddInlineFragment { TypeCondition := { Type_ := namedType } }
      let selection : Selection := { Kind := SelectionKind.InlineFragment, Ref := inlineFragment }
      let (upstream, typeNameField) := upstream.AddField { Name := "__typename" }
      let top ← p.nodes.getLast?
      let upstream ← upstream.AddSelection top.Ref
        { Kind := SelectionKind.Field, Ref := typeNameField.Ref }
      let upstream ← upstream.AddSelection top.Ref selection
      some { p with upstreamOperation := some upstream,
                    nodes := p.nodes ++ [{ Kind := NodeKind.InlineFragment, Ref := inlineFragment }] }

/-- The method `Planner.LeaveInlineFragment`. -/
def Planner.LeaveInlineFragment (p : Planner) (_ref : Int) : Option Planner :=
  if p.insideJsonField then some p
  else do
    let top ← p.nodes.getLast?
    if top.Kind ≠ NodeKind.InlineFragment then some p
    else
      let nodes ← dropLast? p.nodes
      some { p with nodes := nodes }

/-- The loop `for i := range p.config.JsonInputVariables` that sets `isJSON`. -/
def Planner.isJSONInput (p : Planner) (typeName : String) : Bool :=
  p.config.JsonInputVariables.any (fun name => decide (typeName = name))

mutual
/-- The method `Planner.addVariableDefinitionsRecursively`: an inlined-variable entry
is appended for every variable met in the value. -/
def Planner.addVariableDefinitionsRecursively (v : Visitor) (argumentName : String)
    (sourcePath : List String) : Planner → Value → Option Planner
  | p, Value.Object fields => Planner.addVariableDefinitionsFields v argumentName sourcePath p fields
  | p, Value.List values => Planner.addVariableDefinitionsValues v argumentName sourcePath p values
  | p, Value.Variable variableNameStr => do
    let operation ← index v.Walker.Ancestors 0
    let (variableDefinition, _) ←
      v.Operation.VariableDefinitionByNameAndOperation operation.Ref variableNameStr
    let definition ← index v.Operation.VariableDefinitions variableDefinition
    let variableDefinitionType := definition.Type_
    let typeName ← v.Operation.ResolveTypeNameString variableDefinitionType
    let isJSON := p.isJSONInput typeName
    some { p with inlinedVariables := p.inlinedVariables ++
      [{ name := variableNameStr, typeRef := variableDefinitionType, isJSON := isJSON }] }
  | p, Value.Scalar _ => some p
/-- The loop over the fields of an object value. -/
def Planner.addVariableDefinitionsFields (v : Visitor) (argumentName : String)
    (sourcePath : List String) : Planner → List (String × Value) → Option Planner
  | p, [] => some p
  | p, (_, value) :: rest =>
    match Planner.addVariableDefinitionsRecursively v argumentName sourcePath p value with
    | some p' => Planner.addVariableDefinitionsFields v argumentName sourcePath p' rest
    | none => none
/-- The loop over the values of a list value. -/
def Planner.addVariableDefinitionsValues (v : Visitor) (argumentName : String)
    (sourcePath : List String) : Planner → List Value → Option Planner
  | p, [] => some p
  | p, value :: rest =>
    match Planner.addVariableDefinitionsRecursively v argumentName sourcePath p value with
    | some p' => Planner.addVariableDefinitionsValues v argumentName sourcePath p' rest
    | none => none
end

/-- The method `Planner.applyInlineFieldArgument`. The imported value
(`Importer.ImportValue`) is the value itself. -/
def Planner.applyInlineFieldArgument (p : Planner) (v : Visitor) (upstreamField downstreamField : Int)
    (argumentName : String) (sourcePath : List String) : Option Planner := do
  let (fieldArgument, ok) ← v.Operation.FieldArgument downstreamField argumentName
  if !ok then
    some p
  else
    let value ← v.Operation.ArgumentValue fieldArgument
    let importedValue := value
    let upstream ← p.upstreamOperation
    let (upstream, argRef) := upstream.AddArgument { Name := argumentName, Value := importedValue }
    let upstream ← upstream.AddArgumentToField upstreamField argRef
    Planner.addVariableDefinitionsRecursively v argumentName sourcePath
      { p with upstreamOperation := some upstream } value

/-- The method `Planner.configureFieldArgumentSource`. -/
def Planner.configureFieldArgumentSource (p : Planner) (v : Visitor)
    (upstreamFieldRef downstreamFieldRef : Int) (argumentName : String)
    (sourcePath : List String) : Option Planner := do
  let (fieldArgument, ok) ← v.Operation.FieldArgument downstreamFieldRef argumentName
  if !ok then
    some p
  else
    let value ← v.Operation.ArgumentValue fieldArgument
    match value with
    | Value.Variable variableNameStr =>
      let operation ← index v.Walker.Ancestors 0
      let (variableDefinition, ok) ←
        v.Operation.VariableDefinitionByNameAndOperation operation.Ref variableNameStr
      if !ok then
        some p
      else
        let definition ← index v.Operation.VariableDefinitions variableDefinition
        let variableDefinitionType := definition.Type_
        let upstream ← p.upstreamOperation
        let (upstream, _, argRef) := upstream.AddVariableValueArgument argumentName variableNameStr
        let upstream ← upstream.AddArgumentToField upstreamFieldRef argRef
        let typeName ← v.Operation.ResolveTypeNameString variableDefinitionType
        let isJSON := p.isJSONInput typeName
        some { p with upstreamOperation := some upstream,
                      inlinedVariables := p.inlinedVariables ++
                        [{ name := variableNameStr, typeRef := variableDefinitionType,
                           isJSON := isJSON }] }
    | _ => p.applyInlineFieldArgument v upstreamFieldRef downstreamFieldRef argumentName sourcePath

/-- The method `Planner.configureObjectFieldSource`. -/
def Planner.configureObjectFieldSource (lib : Library) (p : Planner) (v : Visitor)
    (upstreamFieldRef downstreamFieldRef : Int) (fieldConfiguration : FieldConfiguration)
    (argumentConfiguration : ArgumentConfiguration) : Option Planner :=
  if argumentConfiguration.SourcePath.length < 1 then some p
  else do
    let fieldName ← v.Operation.FieldNameString downstreamFieldRef
    let fieldName :=
      match fieldConfiguration.Path with
      | [element] => element
      | _ => fieldName
    let (queryTypeDefinition, found) :=
      v.Definition.Index.FirstNodeByNameBytes v.Definition.Index.QueryTypeName
    if !found then
      some p
    else
      let argumentDefinition := lib.NodeFieldDefinitionArgumentDefinitionByName v.Definition
        queryTypeDefinition fieldName argumentConfiguration.Name
      if argumentDefinition = -1 then
        some p
      else
        let argumentType := lib.InputValueDefinitionType v.Definition argumentDefinition
        let first ← index p.nodes 0
        let upstream ← p.upstreamOperation
        let variableName := lib.GenerateUnusedVariableDefinitionName upstream first.Ref
        let (upstream, variableValue, argument) :=
          upstream.AddVariableValueArgument argumentConfiguration.Name variableName
        let upstream ← upstream.AddArgumentToField upstreamFieldRef argument
        let (upstream, importedType) := lib.ImportType argumentType v.Definition upstream
        let upstream ←
          upstream.AddVariableDefinitionToOperationDefinition first.Ref variableValue importedType
        let p := { p with upstreamOperation := some upstream }
        match lib.NewGraphQLVariableRendererFromTypeRef v.Operation v.Definition argumentType with
        | none => some p
        | some renderer =>
          let (vars, objectVariableName, duplicate) := AddVariable p.variables_
            { Kind := VariableKind.ObjectVariable, Path := argumentConfiguration.SourcePath,
              Renderer := renderer }
          let p := { p with variables_ := vars }
          if !duplicate then
            some { p with upstreamVariables :=
              lib.SetRawBytes p.upstreamVariables variableName objectVariableName }
          else
            some p

/-- The method `Planner.configureArgument`. -/
def Planner.configureArgument (lib : Library) (p : Planner) (v : Visitor)
    (upstreamFieldRef downstreamFieldRef : Int) (fieldConfig : FieldConfiguration)
    (argumentConfiguration : ArgumentConfiguration) : Option Planner :=
  match argumentConfiguration.SourceType with
  | SourceType.FieldArgumentSource =>
    p.configureFieldArgumentSource v upstreamFieldRef downstreamFieldRef
      argumentConfiguration.Name argumentConfiguration.SourcePath
  | SourceType.ObjectFieldSource =>
    p.configureObjectFieldSource lib v upstreamFieldRef downstreamFieldRef fieldConfig
      argumentConfiguration

/-- The loop of `EnterField` over the argument configurations of the field. -/
def Planner.configureArguments (lib : Library) (v : Visitor)
    (upstreamFieldRef downstreamFieldRef : Int) (fieldConfig : FieldConfiguration) :
    Planner → List ArgumentConfiguration → Option Planner
  | p, [] => some p
  | p, argumentConfiguration :: rest =>
    match p.configureArgument lib v upstreamFieldRef downstreamFieldRef fieldConfig
        argumentConfiguration with
    | some p' => Planner.configureArguments lib v upstreamFieldRef downstreamFieldRef fieldConfig p' rest
    | none => none

/-- The method `Planner.addField`: the field is added to the upstream operation, under
the name of the one-element path of its first configuration that has one, selected in
the set on top of the stack, and pushed. -/
def Planner.addField (p : Planner) (v : Visitor) (ref : Int) : Option Planner := do
  let fieldName ← v.Operation.FieldNameString ref
  let typeName := v.Walker.EnclosingTypeDefinition
  let (p, fieldName) :=
    match v.Fields.find? (fun c =>
        decide (c.TypeName = typeName ∧ c.FieldName = fieldName ∧ c.Path.length = 1)) with
    | some c =>
      let fieldName := (c.Path[0]?).getD fieldName
      (if ref = p.rootFieldRef then { p with rootFieldName := fieldName } else p, fieldName)
    | none => (p, fieldName)
  let upstream ← p.upstreamOperation
  let (upstream, field) := upstream.AddField { Name := fieldName }
  let selection : Selection := { Kind := SelectionKind.Field, Ref := field.Ref }
  let top ← p.nodes.getLast?
  let upstream ← upstream.AddSelection top.Ref selection
  some { p with upstreamOperation := some upstream, nodes := p.nodes ++ [field] }

/-- The method `Planner.addJsonField`: a field with a name only, selected in the set
on top of the stack. -/
def Planner.addJsonField (p : Planner) (v : Visitor) (ref : Int) : Option Planner := do
  let fieldName ← v.Operation.FieldNameString ref
  let upstream ← p.upstreamOperation
  let (upstream, field) := upstream.AddField { Name := fieldName }
  let selection : Selection := { Kind := SelectionKind.Field, Ref := field.Ref }
  let top ← p.nodes.getLast?
  let upstream ← upstream.AddSelection top.Ref selection
  some { p with upstreamOperation := some upstream }

/-- The loop of `EnterField` over `p.config.JsonTypeFields`: whether one of them is
the field of the enclosing type. -/
def Planner.isJsonTypeField (p : Planner) (enclosingTypeName fieldName : String) : Bool :=
  p.config.JsonTypeFields.any (fun f =>
    decide (f.TypeName = enclosingTypeName ∧ f.FieldName = fieldName))

/-- The lines of `EnterField` that store the root field name and ref and the root type
name, where they are not set yet, and the enclosing type name of the field. -/
def Planner.storeRoot (p : Planner) (v : Visitor) (fieldName : String) (ref : Int) : Planner :=
  let p := if p.rootFieldName = "" then { p with rootFieldName := fieldName, rootFieldRef := ref }
           else p
  let p := if p.rootTypeName = "" then { p with rootTypeName := v.Walker.EnclosingTypeDefinition }
           else p
  { p with lastFieldEnclosingTypeName := v.Walker.EnclosingTypeDefinition }

/-- The method `Planner.EnterField`. -/
def Planner.EnterField (lib : Library) (p : Planner) (v : Visitor) (ref : Int) : Option Planner :=
  if p.insideJsonField then some p
  else do
    let fieldName ← v.Operation.FieldNameString ref
    let enclosingTypeName := v.Walker.EnclosingTypeDefinition
    if p.isJsonTypeField enclosingTypeName fieldName then
      Planner.addJsonField { p with insideJsonField := true, jsonFieldRef := ref } v ref
    else
      let p := p.storeRoot v fieldName ref
      let p ← p.addField v ref
      let top ← p.nodes.getLast?
      let upstreamFieldRef := top.Ref
      let typeName := p.lastFieldEnclosingTypeName
      match ForTypeField v.Fields typeName fieldName with
      | none => some p
      | some fieldConfiguration =>
        Planner.configureArguments lib v upstreamFieldRef ref fieldConfiguration p
          fieldConfiguration.Arguments

/-- The method `Planner.LeaveField`. -/
def Planner.LeaveField (p : Planner) (ref : Int) : Option Planner :=
  if p.insideJsonField then
    if p.jsonFieldRef = ref then some { p with insideJsonField := false, jsonFieldRef := 0 }
    else some p
  else do
    let nodes ← dropLast? p.nodes
    some { p with nodes := nodes }

/-- The method `Planner.EnterArgument`. -/
def Planner.EnterArgument (p : Planner) (_ref : Int) : Option Planner :=
  if p.insideJsonField then some p else some p

/-- The method `Planner.EnterDocument`. -/
def Planner.EnterDocument (p : Planner) : Planner :=
  { p with upstreamOperation := some Document.empty,
           nodes := [],
           upstreamVariables := "",
           variables_ := [],
           disallowSingleFlight := false,
           rootTypeName := "",
           rootFieldName := "",
           rootFieldRef := -1 }

/-- The method `Planner.LeaveDocument`. -/
def Planner.LeaveDocument (p : Planner) : Planner := p

/-! ## Registration, printing and fetch configuration -/

/-- The members that `json.Unmarshal` finds in a configuration object; `none` for a
member that is absent, which leaves the field of the target as it was. -/
structure ConfigurationJSON where
  DatabaseURL : Option String := none
  PrismaSchema : Option String := none
  GraphqlSchema : Option String := none
  CloseTimeoutSeconds : Option Int := none
  JsonTypeFields : Option (List SingleTypeField) := none
  JsonInputVariables : Option (List String) := none
  WunderGraphDir : Option String := none
  deriving DecidableEq, Repr

/-- Library `json.Unmarshal(data, &config)`, over a decoder of the blob that either
rejects it (malformed JSON) or gives the members it holds. -/
def Unmarshal (decode : List Nat → Except String ConfigurationJSON) (data : List Nat)
    (config : Configuration) : Except String Configuration :=
  match decode data with
  | Except.error err => Except.error err
  | Except.ok members =>
    Except.ok
      { DatabaseURL := members.DatabaseURL.getD config.DatabaseURL,
        PrismaSchema := members.PrismaSchema.getD config.PrismaSchema,
        GraphqlSchema := members.GraphqlSchema.getD config.GraphqlSchema,
        CloseTimeoutSeconds := members.CloseTimeoutSeconds.getD config.CloseTimeoutSeconds,
        JsonTypeFields := members.JsonTypeFields.getD config.JsonTypeFields,
        JsonInputVariables := members.JsonInputVariables.getD config.JsonInputVariables,
        WunderGraphDir := members.WunderGraphDir.getD config.WunderGraphDir }

/-- The planner that `Factory.Planner` returns: every field of the state modelled here
has its zero value. -/
def Factory.Planner : Planner := {}

/-- The method `Planner.Register`, on the custom configuration blob
(`configuration.Custom`); the registration of the visitor callbacks on the walker has
no effect on the planner state. -/
def Planner.Register (decode : List Nat → Except String ConfigurationJSON) (p : Planner)
    (custom : List Nat) (isNested : Bool) : Except String Planner :=
  match Unmarshal decode custom p.config with
  | Except.error err => Except.error err
  | Except.ok config =>
    let config :=
      if config.CloseTimeoutSeconds = 0 then { config with CloseTimeoutSeconds := 10 } else config
    Except.ok { p with config := config, isNested := isNested }

/-- The method `Planner.replaceQueryType`. -/
def Planner.replaceQueryType (lib : Library) (p : Planner) (definition : Document) : Document :=
  if !p.isNested then definition
  else
    let queryTypeName := definition.Index.QueryTypeName
    let (queryNode, found) := definition.Index.FirstNodeByNameBytes queryTypeName
    if !found || decide (queryNode.Kind ≠ NodeKind.ObjectTypeDefinition) then definition
    else
      match index definition.ObjectTypeDefinitions queryNode.Ref with
      | none => definition
      | some queryType =>
        let hasField :=
          definition.FieldDefinitionsContainField queryType.FieldsDefinition p.rootFieldName
        if hasField then definition
        else
          let definition := lib.RemoveObjectTypeDefinition definition definition.Index.QueryTypeName
          lib.ReplaceRootOperationTypeDefinition definition p.rootTypeName OperationType.Query

/-- The method `Planner.normalizeOperation`: the normalized operation, or `none` when
the report has errors. -/
def Planner.normalizeOperation (lib : Library) (operation definition : Document) :
    Option Document :=
  lib.NormalizeOperation operation definition

/-- The method `Planner.stopWithError`, with the formatted message. -/
def stopWithError (w : Walker) (msg : String) : Walker :=
  w.StopWithInternalErr msg

/-- The method `Planner.printOperation`: the walker after the call and the printed
query, `none` for the `nil` result. The first print is taken to fail when there is no
upstream operation yet. -/
def Planner.printOperation (lib : Library) (p : Planner) (v : Visitor) :
    Walker × Option String :=
  match p.upstreamOperation.bind (fun upstream => lib.Print upstream none) with
  | none => (v.Walker, none)
  | some rawQuery =>
    match lib.Parse rawQuery with
    | none => (stopWithError v.Walker "printOperation: parse operation failed", none)
    | some operation =>
      match lib.Parse p.config.GraphqlSchema with
      | none => (stopWithError v.Walker "printOperation: parse definition failed", none)
      | some definition =>
        match lib.MergeDefinitionWithBaseSchema definition with
        | none =>
          (stopWithError v.Walker "merging upstream schema with base schema failed", none)
        | some definition =>
          let definition := p.replaceQueryType lib definition
          match Planner.normalizeOperation lib operation definition with
          | none => (stopWithError v.Walker "printOperation: normalization failed", none)
          | some operation =>
            match lib.Print operation (some v.Definition) with
            | none => (stopWithError v.Walker "printOperation: normalization failed", none)
            | some query => (v.Walker, some query)

/-! ## The engine registry -/

/-- The fields of a `LazyEngine` that its construction sets; `running` stands for a
live subprocess handle in `engine`. -/
structure LazyEngine where
  prismaSchema : String
  wundergraphDir : String
  closeTimeoutSeconds : Int
  running : Bool := false
  closed : Bool := false
  deriving DecidableEq, Repr

/-- A `LazyEngineFactory` with the objects it has made: `engines` is the map from
schema to engine pointer (`none` while the map is `nil`), `heap` holds the `LazyEngine`
objects allocated so far (a pointer is an index into it), and `supervisors` lists the
pointers for which `go engine.Start(f.closer)` was launched. -/
structure LazyEngineFactory where
  engines : Option (List (String × Nat)) := none
  heap : List LazyEngine := []
  supervisors : List Nat := []
  deriving DecidableEq, Repr

/-- The method `LazyEngineFactory.Engine`: the factory after the call and the pointer
returned. -/
def LazyEngineFactory.Engine (f : LazyEngineFactory) (prismaSchema wundergraphDir : String)
    (closeTimeoutSeconds : Int) : LazyEngineFactory × Nat :=
  let f := if f.engines.isNone then { f with engines := some [] } else f
  let engines := f.engines.getD []
  match engines.lookup prismaSchema with
  | some engine => (f, engine)
  | none =>
    let engine := f.heap.length
    ({ engines := some ((prismaSchema, engine) :: engines),
       heap := f.heap ++ [{ prismaSchema := prismaSchema, wundergraphDir := wundergraphDir,
                            closeTimeoutSeconds := closeTimeoutSeconds }],
       supervisors := f.supervisors ++ [engine] }, engine)

/-- A sequence of `Engine` calls, each given by its three arguments: the factory after
the calls and the pointers returned, in order. -/
def LazyEngineFactory.EngineCalls :
    LazyEngineFactory → List (String × String × Int) → LazyEngineFactory × List Nat
  | f, [] => (f, [])
  | f, (prismaSchema, wundergraphDir, closeTimeoutSeconds) :: rest =>
    let (f', engine) := f.Engine prismaSchema wundergraphDir closeTimeoutSeconds
    let (f'', engines) := LazyEngineFactory.EngineCalls f' rest
    (f'', engine :: engines)

/-- The data source of a fetch: the pointer to its engine. -/
structure Source where
  engine : Nat
  deriving DecidableEq, Repr

structure FetchConfiguration where
  Input : String
  DataSource : Source
  Variables : List Variable
  DisallowSingleFlight : Bool
  ExtractGraphqlResponse : Bool
  deriving DecidableEq, Repr

/-- The loop of `ConfigureFetch` over the inlined variables: each one is added to the
variable list as a context variable, and its `$name` is replaced in the query by the
placeholder. A variable whose renderer cannot be made is skipped (`continue`). -/
def replaceInlinedVariables (lib : Library) (v : Visitor) :
    List Variable → String → List inlinedVariable → List Variable × String
  | vars, query, [] => (vars, query)
  | vars, query, inlined :: rest =>
    let currentName := "$" ++ inlined.name
    let renderer : Option VariableRenderer :=
      if inlined.isJSON then some { schema := "\x7b\"type\":\"string\"\x7d" }
      else lib.NewGraphQLVariableRendererFromTypeRefWithoutValidation v.Operation v.Definition
        inlined.typeRef
    match renderer with
    | none => replaceInlinedVariables lib v vars query rest
    | some renderer =>
      let (vars, replacement, _) := AddVariable vars
        { Kind := VariableKind.ContextVariable, Path := [inlined.name], Renderer := renderer }
      replaceInlinedVariables lib v vars (lib.Replace query currentName replacement) rest

/-- The method `Planner.ConfigureFetch`: the fetch configuration, and the planner, the
walker and the engine factory after the call. -/
def Planner.ConfigureFetch (lib : Library) (p : Planner) (v : Visitor) (f : LazyEngineFactory) :
    FetchConfiguration × Planner × Walker × LazyEngineFactory :=
  let (walker, printed) := p.printOperation lib v
  let operation := printed.getD ""
  let (vars, query) := replaceInlinedVariables lib v p.variables_ operation p.inlinedVariables
  let p := { p with variables_ := vars }
  let rawInput :=
    match lib.Marshal query p.upstreamVariables with
    | Except.ok raw => raw
    | Except.error err => "\x7b\"error\":" ++ err ++ "\x7d"
  let (f, engine) :=
    f.Engine p.config.PrismaSchema p.config.WunderGraphDir p.config.CloseTimeoutSeconds
  ({ Input := rawInput,
     DataSource := { engine := engine },
     Variables := p.variables_,
     DisallowSingleFlight := p.disallowSingleFlight,
     ExtractGraphqlResponse := true }, p, walker, f)

/-! ## The walk: sequences of visitor callbacks -/

/-- The visitor callbacks the planner is registered for, with the ref they are called
with. -/
inductive Callback where
  | EnterDocument
  | LeaveDocument
  | EnterOperationDefinition (ref : Int)
  | LeaveOperationDefinition (ref : Int)
  | EnterSelectionSet (ref : Int)
  | LeaveSelectionSet (ref : Int)
  | EnterInlineFragment (ref : Int)
  | LeaveInlineFragment (ref : Int)
  | EnterField (ref : Int)
  | LeaveField (ref : Int)
  | EnterArgument (ref : Int)
  deriving DecidableEq, Repr

/-- One callback of the walker on the planner; `w` is the state of the walker at the
call. `none` is a panic of the callback. -/
def Planner.visit (lib : Library) (v : Visitor) (p : Planner) (w : Walker) :
    Callback → Option Planner
  | Callback.EnterDocument => some p.EnterDocument
  | Callback.LeaveDocument => some p.LeaveDocument
  | Callback.EnterOperationDefinition ref => p.EnterOperationDefinition { v with Walker := w } ref
  | Callback.LeaveOperationDefinition ref => p.LeaveOperationDefinition ref
  | Callback.EnterSelectionSet ref => p.EnterSelectionSet { v with Walker := w } ref
  | Callback.LeaveSelectionSet ref => p.LeaveSelectionSet ref
  | Callback.EnterInlineFragment ref => p.EnterInlineFragment { v with Walker := w } ref
  | Callback.LeaveInlineFragment ref => p.LeaveInlineFragment ref
  | Callback.EnterField ref => p.EnterField lib { v with Walker := w } ref
  | Callback.LeaveField ref => p.LeaveField ref
  | Callback.EnterArgument ref => p.EnterArgument ref

/-- A sequence of callbacks, each with the state of the walker at the call. -/
def Planner.walk (lib : Library) (v : Visitor) : Planner → List (Walker × Callback) → Option Planner
  | p, [] => some p
  | p, (w, callback) :: rest =>
    match p.visit lib v w callback with
    | some p' => Planner.walk lib v p' rest
    | none => none

/-- The callbacks that a walk can make between the `EnterField` of the field `ref` and
its `LeaveField`: those of the arguments, selection sets, inline fragments and fields
below it, which are other fields than `ref`. -/
def Callback.below (ref : Int) : Callback → Bool
  | Callback.EnterSelectionSet _ => true
  | Callback.LeaveSelectionSet _ => true
  | Callback.EnterInlineFragment _ => true
  | Callback.LeaveInlineFragment _ => true
  | Callback.EnterField r => decide (r ≠ ref)
  | Callback.LeaveField r => decide (r ≠ ref)
  | Callback.EnterArgument _ => true
  | _ => false

/-- The callbacks that reset or set `disallowSingleFlight`: `EnterDocument` and
`EnterOperationDefinition`. -/
def Callback.startsOperation : Callback → Bool
  | Callback.EnterDocument => true
  | Callback.EnterOperationDefinition _ => true
  | _ => false

mutual
/-- The variables that occur in a value, one entry per occurrence, in order. -/
def variablesOf : Value → List String
  | Value.Variable name => [name]
  | Value.Object fields => variablesOfFields fields
  | Value.List values => variablesOfValues values
  | Value.Scalar _ => []
/-- The variables that occur in the fields of an object value. -/
def variablesOfFields : List (String × Value) → List String
  | [] => []
  | (_, value) :: rest => variablesOf value ++ variablesOfFields rest
/-- The variables that occur in the values of a list value. -/
def variablesOfValues : List Value → List String
  | [] => []
  | value :: rest => variablesOf value ++ variablesOfValues rest
end

/-- The inlined-variable entry that the planner makes for the variable `name`: the
type of its definition on the operation `Walker.Ancestors[0]`, and whether the name of
that type is a configured JSON input type. `none` if a lookup fails. -/
def Planner.inlinedEntry (p : Planner) (v : Visitor) (name : String) : Option inlinedVariable := do
  let operation ← index v.Walker.Ancestors 0
  let (variableDefinition, _) ← v.Operation.VariableDefinitionByNameAndOperation operation.Ref name
  let definition ← index v.Operation.VariableDefinitions variableDefinition
  let typeName ← v.Operation.ResolveTypeNameString definition.Type_
  some { name := name, typeRef := definition.Type_, isJSON := p.isJSONInput typeName }

/-- The part of the planner state that the handling of the field arguments does not
write: everything but the upstream operation, the upstream variables, the variable
list and the inlined variables. -/
def Planner.control (p : Planner) :
    Configuration × List Node × String × Bool × Bool × String × String × Int × Bool × Int :=
  (p.config, p.nodes, p.lastFieldEnclosingTypeName, p.disallowSingleFlight, p.isNested,
   p.rootTypeName, p.rootFieldName, p.rootFieldRef, p.insideJsonField, p.jsonFieldRef)

/-- The engine that the map of the factory holds for a schema (`f.engines[prismaSchema]`). -/
def LazyEngineFactory.lookup (f : LazyEngineFactory) (prismaSchema : String) : Option Nat :=
  (f.engines.getD []).lookup prismaSchema

/-- The schema of the `LazyEngine` object behind a pointer. -/
def LazyEngineFactory.schemaOf (f : LazyEngineFactory) (engine : Nat) : Option String :=
  (f.heap[engine]?).map (fun e => e.prismaSchema)

/-- The invariant of the registry: a supervisor was started for every engine object,
once; the map sends a schema to an engine of that schema; and every engine object is
the entry of its schema. -/
def LazyEngineFactory.WellFormed (f : LazyEngineFactory) : Prop :=
  f.supervisors = List.range f.heap.length ∧
  (∀ s e, f.lookup s = some e → f.schemaOf e = some s) ∧
  (∀ e, e < f.heap.length → ∃ s, f.schemaOf e = some s ∧ f.lookup s = some e)

/-! ## Example operations -/

/-- A library for the examples: nothing is printed, parsed or normalized by it, and no
argument definition is found on the query type. -/
def exampleLibrary : Library where
  NodeFieldDefinitionArgumentDefinitionByName := fun _ _ _ _ => -1
  InputValueDefinitionType := fun _ _ => 0
  GenerateUnusedVariableDefinitionName := fun _ _ => "a"
  ImportType := fun _ _ upstream => (upstream, 0)
  NewGraphQLVariableRendererFromTypeRef := fun _ _ _ => none
  NewGraphQLVariableRendererFromTypeRefWithoutValidation := fun _ _ _ => none
  SetRawBytes := fun json _ _ => json
  Print := fun _ _ => none
  Parse := fun _ => none
  MergeDefinitionWithBaseSchema := fun _ => none
  RemoveObjectTypeDefinition := fun definition _ => definition
  ReplaceRootOperationTypeDefinition := fun definition _ _ => definition
  NormalizeOperation := fun _ _ => none
  Marshal := fun query _ => Except.ok query
  Replace := fun s _ _ => s

/-- The downstream operation of scenario S3, `mutation { createUser(input: ...) { id } }`. -/
def mutationOperation : Document where
  RootNodes := [{ Kind := NodeKind.OperationDefinition, Ref := 0 }]
  OperationDefinitions := [{ OperationType := OperationType.Mutation, HasSelections := true }]
  SelectionSets := [{ SelectionRefs := [0] }, { SelectionRefs := [1] }]
  Selections := [{ Kind := SelectionKind.Field, Ref := 0 }, { Kind := SelectionKind.Field, Ref := 1 }]
  Fields := [{ Name := "createUser", HasArguments := true, Arguments := [0], HasSelections := true,
               SelectionSet := 1 },
             { Name := "id" }]
  Arguments := [{ Name := "input", Value := Value.Object [("name", Value.Scalar "\"x\"")] }]

/-- The visitor on the operation of scenario S3. -/
def mutationVisitor : Visitor where
  Operation := mutationOperation

/-- The downstream operation of scenario S2 with a selection below the JSON field,
`query($id: Int!) { user(id: $id) { name meta { a } } }`. -/
def userOperation : Document where
  RootNodes := [{ Kind := NodeKind.OperationDefinition, Ref := 0 }]
  OperationDefinitions :=
    [{ OperationType := OperationType.Query, HasVariableDefinitions := true,
       VariableDefinitions := [0], HasSelections := true }]
  VariableDefinitions := [{ VariableValue := "id", Type_ := 1 }]
  Types := [{ TypeKind := TypeKind.Named, Name := "Int" }, { TypeKind := TypeKind.NonNull, OfType := 0 }]
  SelectionSets := [{ SelectionRefs := [0] }, { SelectionRefs := [1, 2] }, { SelectionRefs := [3] }]
  Selections := [{ Kind := SelectionKind.Field, Ref := 0 }, { Kind := SelectionKind.Field, Ref := 1 },
                 { Kind := SelectionKind.Field, Ref := 2 }, { Kind := SelectionKind.Field, Ref := 3 }]
  Fields := [{ Name := "user", HasArguments := true, Arguments := [0], HasSelections := true,
               SelectionSet := 1 },
             { Name := "name" },
             { Name := "meta", HasSelections := true, SelectionSet := 2 },
             { Name := "a" }]
  Arguments := [{ Name := "id", Value := Value.Variable "id" }]

/-- The visitor on the operation of scenario S2: the argument `id` of `Query.user`
comes from the field argument. -/
def userVisitor : Visitor where
  Operation := userOperation
  Fields := [{ TypeName := "Query", FieldName := "user",
               Arguments := [{ Name := "id", SourceType := SourceType.FieldArgumentSource }] }]

/-- The planner of scenario S2: `User.meta` is a JSON type field, and so is `Meta.a`
below it. -/
def userPlanner : Planner :=
  { Factory.Planner with
    config := { JsonTypeFields := [{ TypeName := "User", FieldName := "meta" },
                                   { TypeName := "Meta", FieldName := "a" }] } }

/-- The walker inside the selection set of the operation, on the type `Query`. -/
def atQuery : Walker where
  EnclosingTypeDefinition := "Query"
  Ancestors := [{ Kind := NodeKind.OperationDefinition, Ref := 0 },
                { Kind := NodeKind.SelectionSet, Ref := 0 }]

/-- The walker inside the selection set of the field `user`, on the type `User`. -/
def atUser : Walker where
  EnclosingTypeDefinition := "User"
  Ancestors := [{ Kind := NodeKind.OperationDefinition, Ref := 0 },
                { Kind := NodeKind.SelectionSet, Ref := 0 },
                { Kind := NodeKind.Field, Ref := 0 },
                { Kind := NodeKind.SelectionSet, Ref := 1 }]

/-- The walker inside the selection set of the field `meta`, on the type `Meta`. -/
def atMeta : Walker where
  EnclosingTypeDefinition := "Meta"
  Ancestors := [{ Kind := NodeKind.OperationDefinition, Ref := 0 },
                { Kind := NodeKind.SelectionSet, Ref := 0 },
                { Kind := NodeKind.Field, Ref := 0 },
                { Kind := NodeKind.SelectionSet, Ref := 1 },
                { Kind := NodeKind.Field, Ref := 2 },
                { Kind := NodeKind.SelectionSet, Ref := 2 }]

/-- The callbacks of the walk of the S2 operation before the field `meta` is entered. -/
def walkToMeta : List (Walker × Callback) :=
  [({}, Callback.EnterDocument),
   ({}, Callback.EnterOperationDefinition 0),
   ({ EnclosingTypeDefinition := "Query",
      Ancestors := [{ Kind := NodeKind.OperationDefinition, Ref := 0 }] },
    Callback.EnterSelectionSet 0),
   (atQuery, Callback.EnterField 0),
   ({ EnclosingTypeDefinition := "User", Ancestors := atQuery.Ancestors ++
        [{ Kind := NodeKind.Field, Ref := 0 }] }, Callback.EnterSelectionSet 1),
   (atUser, Callback.EnterField 1),
   (atUser, Callback.LeaveField 1)]

/-- The callbacks of the walk of the S2 operation below the field `meta`. -/
def walkBelowMeta : List (Walker × Callback) :=
  [({ EnclosingTypeDefinition := "Meta", Ancestors := atUser.Ancestors ++
        [{ Kind := NodeKind.Field, Ref := 2 }] }, Callback.EnterSelectionSet 2),
   (atMeta, Callback.EnterField 3),
   (atMeta, Callback.LeaveField 3),
   ({ EnclosingTypeDefinition := "Meta", Ancestors := atUser.Ancestors ++
        [{ Kind := NodeKind.Field, Ref := 2 }] }, Callback.LeaveSelectionSet 2)]

/-- The planner of scenario S2 when the walk reaches the field `meta`. -/
def plannerAtMeta : Planner :=
  (userPlanner.walk exampleLibrary userVisitor walkToMeta).getD userPlanner

/-- The planner of scenario S2 inside the selection set of the JSON field `meta`, when
the walk reaches the field `a`. -/
def plannerInsideMeta : Planner :=
  (plannerAtMeta.walk exampleLibrary userVisitor
    [(atUser, Callback.EnterField 2),
     ({ EnclosingTypeDefinition := "Meta", Ancestors := atUser.Ancestors ++
          [{ Kind := NodeKind.Field, Ref := 2 }] }, Callback.EnterSelectionSet 2)]).getD userPlanner

/-- A downstream operation that uses one variable three times,
`query($id: Int!) { users(first: $id, ids: [$id, $id]) }`. -/
def repeatedOperation : Document where
  RootNodes := [{ Kind := NodeKind.OperationDefinition, Ref := 0 }]
  OperationDefinitions :=
    [{ OperationType := OperationType.Query, HasVariableDefinitions := true,
       VariableDefinitions := [0], HasSelections := true }]
  VariableDefinitions := [{ VariableValue := "id", Type_ := 1 }]
  Types := [{ TypeKind := TypeKind.Named, Name := "Int" }, { TypeKind := TypeKind.NonNull, OfType := 0 }]
  SelectionSets := [{ SelectionRefs := [0] }]
  Selections := [{ Kind := SelectionKind.Field, Ref := 0 }]
  Fields := [{ Name := "users", HasArguments := true, Arguments := [0, 1] }]
  Arguments := [{ Name := "first", Value := Value.Variable "id" },
                { Name := "ids", Value := Value.List [Value.Variable "id", Value.Variable "id"] }]

/-- The visitor on the operation with the repeated variable: both arguments of
`Query.users` come from the field arguments. -/
def repeatedVisitor : Visitor where
  Operation := repeatedOperation
  Fields := [{ TypeName := "Query", FieldName := "users",
               Arguments := [{ Name := "first", SourceType := SourceType.FieldArgumentSource },
                             { Name := "ids", SourceType := SourceType.FieldArgumentSource }] }]

/-- The callbacks of the walk of the operation with the repeated variable, up to its
field `users`. -/
def repeatedWalk : List (Walker × Callback) :=
  [({}, Callback.EnterDocument),
   ({}, Callback.EnterOperationDefinition 0),
   ({ EnclosingTypeDefinition := "Query",
      Ancestors := [{ Kind := NodeKind.OperationDefinition, Ref := 0 }] },
    Callback.EnterSelectionSet 0),
   (atQuery, Callback.EnterField 0)]

/-- The planner in the selection set of the operation with the repeated variable, before
its field `users` is entered. -/
def plannerAtUsers : Planner :=
  (Factory.Planner.walk exampleLibrary repeatedVisitor repeatedWalk.dropLast).getD Factory.Planner

/-- The planner after the field `users` was added to the upstream operation, before its
arguments are configured. -/
def plannerInUsers : Planner :=
  ((plannerAtUsers.storeRoot { repeatedVisitor with Walker := atQuery } "users" 0).addField
    { repeatedVisitor with Walker := atQuery } 0).getD Factory.Planner

/-- The visitor on the operation `query { user }` with the path of `Query.user`
configured as `findFirstUser`. -/
def aliasVisitor : Visitor where
  Operation := { Fields := [{ Name := "user" }] }
  Fields := [{ TypeName := "Query", FieldName := "user", Path := ["findFirstUser"] }]
  Walker := atQuery

/-- The visitor on the operation with the repeated variable, with the walker in the
selection set of the operation. -/
def repeatedVisitorAtQuery : Visitor :=
  { repeatedVisitor with Walker := atQuery }

/-- A decoder for the examples: it knows two configuration objects and rejects every
other blob. -/
def exampleDecode (data : List Nat) : Except String ConfigurationJSON :=
  if data = bytesOf "\x7b\x7d" then Except.ok {}
  else if data = bytesOf "\x7b\"CloseTimeoutSeconds\":30\x7d" then
    Except.ok { CloseTimeoutSeconds := some 30 }
  else Except.error "invalid character"

/-- Three calls of `Engine`, the third with the schema of the first and other arguments. -/
def exampleCalls : List (String × String × Int) :=
  [("schema a", "dir 1", 10), ("schema b", "dir 1", 10), ("schema a", "dir 2", 20)]

/-! ## One stripping step, in the words of the specification -/

/-- The four delimiters of null stripping: opening brace, opening parenthesis, comma
and space. -/
def delimiters : List Nat := bytesOf "\x7b(, "

/-- The byte at index `i` of the request is one of the four delimiters. -/
def delimiterAt (request : List Nat) (i : Nat) : Prop :=
  ∃ b, b ∈ delimiters ∧ request[i]? = some b

/-- The first occurrence of `: null` in the request starts at index `e`. -/
def firstNullAt (request : List Nat) (e : Nat) : Prop :=
  nullLiteral <+: request.drop e ∧ ∀ i, i < e → ¬ nullLiteral <+: request.drop i

/-- The index `s` is the greatest index below `e` that holds a delimiter, and `-1` when
there is none. -/
def greatestDelimiterBelow (request : List Nat) (e : Nat) (s : Int) : Prop :=
  (s = -1 ∨ ∃ i : Nat, s = (i : Int) ∧ i < e ∧ delimiterAt request i) ∧
  ∀ i : Nat, i < e → s < (i : Int) → ¬ delimiterAt request i

/-! ## The execution source -/

/-- Library `jsonparser.Set(data, setValue, key)`, on a JSON object given by its members
(key and raw value): the value of the first member `key` is replaced, and the member is
added when the object has none. -/
def jsonparserSet : List (String × List Nat) → List Nat → String → List (String × List Nat)
  | [], setValue, key => [(key, setValue)]
  | member :: rest, setValue, key =>
    if member.1 = key then (key, setValue) :: rest
    else member :: jsonparserSet rest setValue key

/-- The bytes of a JSON object given by its members. -/
def objectBytes (members : List (String × List Nat)) : List Nat :=
  bytesOf "\x7b" ++
    (bytesOf ",").intercalate
      (members.map (fun member => bytesOf "\"" ++ bytesOf member.1 ++ bytesOf "\":" ++ member.2)) ++
    bytesOf "\x7d"

/-- One call of `s.engine.Execute(ctx, request, buf)` as `Load` sees it: the bytes written
to the buffer, the error returned, and whether the context is done after the call
(`ctx.Err() != nil`). -/
structure Attempt where
  output : List Nat := []
  err : Option String := none
  ctxDone : Bool := false
  deriving DecidableEq, Repr

/-- What `Load` has done when it returns: the request it handed to `Engine.Execute`, the
number of calls of `Engine.Execute`, the error returned and the bytes written to the
writer. -/
structure LoadResult where
  request : List Nat
  calls : Nat
  err : Option String
  written : List Nat
  deriving DecidableEq, Repr

/-- The loop of `Source.Load` over the outcomes of its `Engine.Execute` calls, `calls`
of them made so far. A call without error ends the loop and the buffer is written out
(the writer takes the bytes); a call with an error returns the error if the context is
done, and otherwise the buffer is reset and, after the sleep, the loop goes on. `none`:
the outcomes given do not reach a return. -/
def Source.loadLoop (request : List Nat) : List Attempt → Nat → Option LoadResult
  | [], _ => none
  | attempt :: rest, calls =>
    match attempt.err with
    | some err =>
      if attempt.ctxDone then
        some { request := request, calls := calls + 1, err := some err, written := [] }
      else Source.loadLoop request rest (calls + 1)
    | none =>
      some { request := request, calls := calls + 1, err := none, written := attempt.output }

/-- The input of `Source.Load` as `jsonparser.Set` takes it: a JSON object, given by its
members, or bytes on which `jsonparser.Set` fails, as it does on every input whose first
token is not an opening brace. -/
inductive LoadInput where
  | object (members : List (String × List Nat))
  | other (bytes : List Nat)
  deriving DecidableEq, Repr

/-- Library `jsonparser.Set(input, setValue, key)` on the bytes of an input: the value
and the error returned. On an object the member is set; on another input the value is
`nil` and the error is `KeyPathNotFoundError`. -/
def LoadInput.Set (input : LoadInput) (setValue : List Nat) (key : String) :
    List Nat × Option String :=
  match input with
  | LoadInput.object members => (objectBytes (jsonparserSet members setValue key), none)
  | LoadInput.other _ => ([], some "Key path not found")

/-- The request that `Source.Load` hands to `Engine.Execute`: the value that
`jsonparser.Set` returns for `variables` set to `{}` (the error is dropped:
`request, _ := jsonparser.Set(...)`), then null stripping. -/
def Source.request (input : LoadInput) : List Nat :=
  unNullRequest (input.Set (bytesOf "\x7b\x7d") "variables").1

/-- The method `Source.Load`, on an input and the outcomes of the `Engine.Execute`
calls. -/
def Source.Load (input : LoadInput) (attempts : List Attempt) : Option LoadResult :=
  Source.loadLoop (Source.request input) attempts 0

/-- A fetch input that carries a value for `variables`. -/
def inputWithVariables : List (String × List Nat) :=
  [("query", bytesOf "\"query($a: Int)\x7buser(id: $a)\x7bname\x7d\x7d\""),
   ("variables", bytesOf "\x7b\"a\":1\x7d")]

/-- A fetch input that is no JSON object: the array `[1,2]`. -/
def arrayInput : LoadInput := LoadInput.other (bytesOf "[1,2]")

/-- Two calls of `Engine.Execute`: the first fails with `engine closed` while the context
is not done, the second succeeds. -/
def closedThenOk : List Attempt :=
  [{ err := some "engine closed" }, { output := bytesOf "\x7b\"data\":1\x7d" }]

/-- A library whose schema rewriting removes the node of the type from the index and
names the new query type. -/
def schemaLibrary : Library :=
  { exampleLibrary with
    RemoveObjectTypeDefinition := fun definition name =>
      { definition with
        Index := { definition.Index with
                   nodes := definition.Index.nodes.filter (fun entry => entry.1 ≠ name) } }
    ReplaceRootOperationTypeDefinition := fun definition name _ =>
      { definition with Index := { definition.Index with QueryTypeName := name } } }

/-- The schema of scenario S6: `Query` declares `serviceOne` and `serviceTwo`, and
`ServiceOneResponse` declares `fieldOne` and `countries`. -/
def nestedSchema : Document where
  ObjectTypeDefinitions := [{ Name := "Query", FieldsDefinition := [0, 1] },
                            { Name := "ServiceOneResponse", FieldsDefinition := [2, 3] }]
  FieldDefinitions := [{ Name := "serviceOne" }, { Name := "serviceTwo" },
                       { Name := "fieldOne" }, { Name := "countries" }]
  Index := { QueryTypeName := "Query",
             nodes := [("Query", { Kind := NodeKind.ObjectTypeDefinition, Ref := 0 }),
                       ("ServiceOneResponse", { Kind := NodeKind.ObjectTypeDefinition, Ref := 1 })] }

/-- The nested planner of scenario S6, with root field `countries` on the type
`ServiceOneResponse`. -/
def nestedPlanner : Planner :=
  { Factory.Planner with
    isNested := true, rootFieldName := "countries", rootTypeName := "ServiceOneResponse" }

/-! ## The lazy engine supervisor

One `LazyEngine` with its supervisor goroutine (`Start`) and the goroutines that call
`Execute`, as a transition system: a step is one atomic piece of one goroutine, between
two points where it can be held up (a lock, the send on `requestWasProcessed`, a call
of the subprocess) or where another goroutine can run. The lock `e.m` is the pair of the
number of readers and the writer flag. A subprocess is a handle, a number. -/

/-- Where the goroutine of `LazyEngine.Start` is. -/
inductive SupervisorPC where
  /-- Launched by `go engine.Start(f.closer)`; `requestWasProcessed` is not made yet. -/
  | created
  /-- In the `select` of the loop. -/
  | selecting
  /-- The case `<-stopEngine` was taken; before `e.m.Lock()`. -/
  | expiring
  /-- The case `<-closer` was taken; before `e.m.Lock()`. -/
  | closing
  /-- Returned from `Start`. -/
  | returned
  deriving DecidableEq, Repr

/-- Where a call of `LazyEngine.Execute` is. The flag `write` tells whether the call
holds the write lock (it came through `initEngineAndExecute`) or the read lock. -/
inductive RequestPC where
  /-- Before `e.m.RLock()`. -/
  | start
  /-- Holds the read lock; before `if e.closed`. -/
  | readLocked
  /-- Released the read lock on a cold engine; before `e.m.Lock()` in
  `initEngineAndExecute`. -/
  | cold
  /-- Holds the write lock; before `NewHybridEngine`. -/
  | writeLocked
  /-- Holds the write lock; in `e.engine.WaitUntilReady(ctx)`. -/
  | waiting
  /-- In `e.execute`, in the call `e.engine.Execute(ctx, request, out)`. -/
  | executing (write : Bool)
  /-- In the deferred `sendRequestProcessed`, held up on the send, with the error of the
  subprocess call to return. -/
  | sending (write : Bool) (err : Option String)
  /-- In the deferred `sendRequestProcessed`, on a `requestWasProcessed` that was still
  `nil` when the send began: held up forever. -/
  | sendingNil (write : Bool) (err : Option String)
  /-- The send is done; before the unlock. -/
  | sent (write : Bool) (err : Option String)
  /-- Returned, with the error or `nil`. -/
  | done (err : Option String)
  deriving DecidableEq, Repr

/-- The state of a `LazyEngine` and of the goroutines around it. -/
structure EngineState where
  /-- The field `engine`: the handle of the live subprocess, or `nil`. -/
  engine : Option Nat := none
  /-- The field `closed`. -/
  closed : Bool := false
  /-- The field `closeTimeoutSeconds`, an `int64`. -/
  closeTimeoutSeconds : Int := 10
  /-- The lock `m`: the number of holders of the read lock. -/
  readers : Nat := 0
  /-- The lock `m`: whether the write lock is held. -/
  writer : Bool := false
  /-- The timer `stopEngine`: armed with a duration in nanoseconds, or not armed. -/
  timer : Option Int := none
  /-- Whether the channel `closer` is closed (the planning context is done). -/
  closer : Bool := false
  supervisor : SupervisorPC := SupervisorPC.created
  /-- The calls of `Execute`, by number. -/
  requests : List RequestPC := []
  /-- The number of subprocesses constructed by `NewHybridEngine`. -/
  started : Nat := 0
  /-- The handles of the subprocesses constructed and not closed. -/
  live : List Nat := []
  /-- The number of signals received on `requestWasProcessed`. -/
  signals : Nat := 0
  /-- The number of calls of `Execute` on a subprocess. -/
  calls : Nat := 0
  deriving DecidableEq, Repr

/-- The steps of the goroutines and of their environment. -/
inductive Action where
  /-- A new call of `Execute` begins. -/
  | call
  /-- The supervisor makes the channel `requestWasProcessed` and enters the loop. -/
  | make
  /-- The planning context ends: the channel `closer` is closed. -/
  | cancel
  /-- The timer fires and the `select` takes the case `<-stopEngine`. -/
  | timerFires
  /-- The supervisor, in the timer case, takes the write lock, closes a live subprocess
  and releases the lock. -/
  | expire
  /-- The `select` takes the case `<-closer`. -/
  | takeClose
  /-- The supervisor, in the closer case, takes the write lock, closes a live subprocess,
  sets `closed`, releases the lock and returns. -/
  | close
  /-- Request `i` takes the read lock. -/
  | rlock (i : Nat)
  /-- Request `i` checks `closed` and `engine` under the read lock. -/
  | check (i : Nat)
  /-- Request `i` takes the write lock in `initEngineAndExecute`. -/
  | lock (i : Nat)
  /-- `NewHybridEngine` returns to request `i`, with a new subprocess or an error. -/
  | newEngine (i : Nat) (err : Option String)
  /-- `WaitUntilReady` returns to request `i`. -/
  | ready (i : Nat) (err : Option String)
  /-- The call of the subprocess returns to request `i`. -/
  | executed (i : Nat) (err : Option String)
  /-- The supervisor receives the signal that request `i` sends. -/
  | signal (i : Nat)
  /-- Request `i` releases its lock and returns. -/
  | unlock (i : Nat)
  deriving DecidableEq, Repr

/-- Go `int64` arithmetic: the result of an operation is wrapped into the range of
`int64`. -/
def wrapInt64 (x : Int) : Int :=
  (x + 9223372036854775808) % 18446744073709551616 - 9223372036854775808

/-- The duration `time.Second * time.Duration(e.closeTimeoutSeconds)` with which `Start`
arms the timer: nanoseconds, computed in `int64`. -/
def closeTimeout (closeTimeoutSeconds : Int) : Int :=
  wrapInt64 (1000000000 * closeTimeoutSeconds)

/-- The state with request `i` moved to `pc`. -/
def EngineState.goto (s : EngineState) (i : Nat) (pc : RequestPC) : EngineState :=
  { s with requests := s.requests.set i pc }

/-- The critical section of the timer and closer cases of `Start`: a live subprocess is
closed and the handle is set to `nil`. -/
def EngineState.closeEngine (s : EngineState) : EngineState :=
  match s.engine with
  | some handle => { s with engine := none, live := s.live.erase handle }
  | none => s

/-- Modelled from the spec: `NewHybridEngine`, which is not in the sources, constructs a
fresh subprocess: the call returns a new handle, or no handle and an error. -/
def EngineState.NewHybridEngine (s : EngineState) (err : Option String) : EngineState :=
  match err with
  | some _ => { s with engine := none }
  | none => { s with engine := some s.started, started := s.started + 1,
                     live := s.live ++ [s.started] }

/-- One step; `none` when the step cannot be taken in the state. -/
def EngineState.step (s : EngineState) : Action → Option EngineState
  | Action.call => some { s with requests := s.requests ++ [RequestPC.start] }
  | Action.make =>
    if s.supervisor = SupervisorPC.created then some { s with supervisor := SupervisorPC.selecting }
    else none
  | Action.cancel => some { s with closer := true }
  | Action.timerFires =>
    if s.supervisor = SupervisorPC.selecting ∧ s.timer.isSome then
      some { s with supervisor := SupervisorPC.expiring, timer := none }
    else none
  | Action.expire =>
    if s.supervisor = SupervisorPC.expiring ∧ s.writer = false ∧ s.readers = 0 then
      some { s.closeEngine with supervisor := SupervisorPC.selecting }
    else none
  | Action.takeClose =>
    if s.supervisor = SupervisorPC.selecting ∧ s.closer = true then
      some { s with supervisor := SupervisorPC.closing }
    else none
  | Action.close =>
    if s.supervisor = SupervisorPC.closing ∧ s.writer = false ∧ s.readers = 0 then
      some { s.closeEngine with closed := true, supervisor := SupervisorPC.returned }
    else none
  | Action.rlock i =>
    if s.requests[i]? = some RequestPC.start ∧ s.writer = false then
      some ({ s with readers := s.readers + 1 }.goto i RequestPC.readLocked)
    else none
  | Action.check i =>
    if s.requests[i]? = some RequestPC.readLocked then
      if s.closed then
        some ({ s with readers := s.readers - 1 }.goto i (RequestPC.done (some "engine closed")))
      else if s.engine = none then
        some ({ s with readers := s.readers - 1 }.goto i RequestPC.cold)
      else
        some (s.goto i (RequestPC.executing false))
    else none
  | Action.lock i =>
    if s.requests[i]? = some RequestPC.cold ∧ s.writer = false ∧ s.readers = 0 then
      some ({ s with writer := true }.goto i RequestPC.writeLocked)
    else none
  | Action.newEngine i err =>
    if s.requests[i]? = some RequestPC.writeLocked then
      match err with
      | some e => some ({ s.NewHybridEngine err with writer := false }.goto i (RequestPC.done (some e)))
      | none => some ((s.NewHybridEngine err).goto i RequestPC.waiting)
    else none
  | Action.ready i err =>
    if s.requests[i]? = some RequestPC.waiting then
      match err with
      | some e => some ({ s with writer := false }.goto i (RequestPC.done (some e)))
      | none => some (s.goto i (RequestPC.executing true))
    else none
  | Action.executed i err =>
    match s.requests[i]? with
    | some (RequestPC.executing write) =>
      if s.supervisor = SupervisorPC.created then
        some ({ s with calls := s.calls + 1 }.goto i (RequestPC.sendingNil write err))
      else
        some ({ s with calls := s.calls + 1 }.goto i (RequestPC.sending write err))
    | _ => none
  | Action.signal i =>
    match s.requests[i]? with
    | some (RequestPC.sending write err) =>
      if s.supervisor = SupervisorPC.selecting then
        some ({ s with timer := some (closeTimeout s.closeTimeoutSeconds),
                       signals := s.signals + 1 }.goto i
          (RequestPC.sent write err))
      else none
    | _ => none
  | Action.unlock i =>
    match s.requests[i]? with
    | some (RequestPC.sent write err) =>
      if write then some ({ s with writer := false }.goto i (RequestPC.done err))
      else some ({ s with readers := s.readers - 1 }.goto i (RequestPC.done err))
    | _ => none

/-- A run: the steps are taken one after the other. -/
def EngineState.run : EngineState → List Action → Option EngineState
  | s, [] => some s
  | s, action :: rest =>
    match s.step action with
    | some s' => EngineState.run s' rest
    | none => none

/-- The state of a `LazyEngine` that `LazyEngineFactory.Engine` has just constructed, with
its supervisor launched. -/
def EngineState.fresh (closeTimeoutSeconds : Int) : EngineState :=
  { closeTimeoutSeconds := closeTimeoutSeconds }

/-- The states that the goroutines can reach from a freshly constructed `LazyEngine`. -/
def EngineState.Reachable (s : EngineState) : Prop :=
  ∃ closeTimeoutSeconds actions,
    (EngineState.fresh closeTimeoutSeconds).run actions = some s

/-- Two calls of `Execute` find the engine cold; the first starts a subprocess, executes
and returns; then the second takes the write lock and starts another one. -/
def twoColdCalls : List Action :=
  [Action.make, Action.call, Action.call,
   Action.rlock 0, Action.rlock 1, Action.check 0, Action.check 1,
   Action.lock 0, Action.newEngine 0 none, Action.ready 0 none, Action.executed 0 none,
   Action.signal 0, Action.unlock 0,
   Action.lock 1, Action.newEngine 1 none]

/-- A call of `Execute` finds the engine cold and not closed and releases the read lock;
the planning context ends and the supervisor closes; then the call takes the write lock
and starts a subprocess. -/
def coldCallAfterClose : List Action :=
  [Action.make, Action.call, Action.rlock 0, Action.check 0,
   Action.cancel, Action.takeClose, Action.close,
   Action.lock 0, Action.newEngine 0 none]

/-- A call on a cold engine that starts a subprocess and returns; the idle timer fires
and the supervisor closes the subprocess; a second call starts a subprocess again. -/
def idleReapThenCall : List Action :=
  [Action.make, Action.call, Action.rlock 0, Action.check 0, Action.lock 0,
   Action.newEngine 0 none, Action.ready 0 none, Action.executed 0 none, Action.signal 0,
   Action.unlock 0,
   Action.timerFires, Action.expire,
   Action.call, Action.rlock 1, Action.check 1, Action.lock 1, Action.newEngine 1 none]

/-- Whether the step is the receipt of a signal on `requestWasProcessed`. -/
def Action.isSignal : Action → Bool
  | Action.signal _ => true
  | _ => false

/-- The state after the first call of `idleReapThenCall` has returned: subprocess 0 is
live, the timer is armed and the lock is free. -/
def warmIdleState : EngineState :=
  { engine := some 0, timer := some 10000000000, supervisor := SupervisorPC.selecting,
    requests := [RequestPC.done none], started := 1, live := [0], signals := 1, calls := 1 }

/-! ## Well-nested walks

The callbacks that a walk of a document makes, from the tree of the document: every
node gives its `Enter` callback, the callbacks of its children, and its `Leave` callback.
Every callback comes with the state of the walker at the call. -/

mutual
/-- A selection of a selection set: a field without or with a selection set, or an inline
fragment (with or without type condition, which the downstream operation tells). -/
inductive WalkSelection where
  | leaf (ref : Int) (enter leave : Walker) (arguments : List (Walker × Int))
  | field (ref : Int) (enter leave : Walker) (arguments : List (Walker × Int)) (set : WalkSet)
  | inlineFragment (ref : Int) (enter leave : Walker) (set : WalkSet)
/-- A selection set with its selections. -/
inductive WalkSet where
  | mk (ref : Int) (enter leave : Walker) (selections : WalkSelections)
/-- The selections of a selection set, in order. -/
inductive WalkSelections where
  | nil
  | cons (selection : WalkSelection) (rest : WalkSelections)
end

/-- An operation definition with its selection set. -/
structure WalkOperation where
  ref : Int
  enter : Walker
  leave : Walker
  set : WalkSet

/-- A document with its operation definitions. -/
structure WalkDocument where
  enter : Walker
  leave : Walker
  operations : List WalkOperation

/-- The `EnterArgument` callbacks of the arguments of a field. -/
def argumentCallbacks (arguments : List (Walker × Int)) : List (Walker × Callback) :=
  arguments.map (fun a => (a.1, Callback.EnterArgument a.2))

mutual
/-- The callbacks of the walk of a selection. -/
def WalkSelection.callbacks : WalkSelection → List (Walker × Callback)
  | WalkSelection.leaf ref enter leave arguments =>
    (enter, Callback.EnterField ref) :: (argumentCallbacks arguments ++
      [(leave, Callback.LeaveField ref)])
  | WalkSelection.field ref enter leave arguments set =>
    (enter, Callback.EnterField ref) :: (argumentCallbacks arguments ++
      (set.callbacks ++ [(leave, Callback.LeaveField ref)]))
  | WalkSelection.inlineFragment ref enter leave set =>
    (enter, Callback.EnterInlineFragment ref) ::
      (set.callbacks ++ [(leave, Callback.LeaveInlineFragment ref)])
/-- The callbacks of the walk of a selection set. -/
def WalkSet.callbacks : WalkSet → List (Walker × Callback)
  | WalkSet.mk ref enter leave selections =>
    (enter, Callback.EnterSelectionSet ref) ::
      (selections.callbacks ++ [(leave, Callback.LeaveSelectionSet ref)])
/-- The callbacks of the walk of the selections of a selection set. -/
def WalkSelections.callbacks : WalkSelections → List (Walker × Callback)
  | WalkSelections.nil => []
  | WalkSelections.cons selection rest => selection.callbacks ++ rest.callbacks
end

mutual
/-- The refs of the fields of a selection and below it. -/
def WalkSelection.fieldRefs : WalkSelection → List Int
  | WalkSelection.leaf ref _ _ _ => [ref]
  | WalkSelection.field ref _ _ _ set => ref :: set.fieldRefs
  | WalkSelection.inlineFragment _ _ _ set => set.fieldRefs
/-- The refs of the fields of a selection set. -/
def WalkSet.fieldRefs : WalkSet → List Int
  | WalkSet.mk _ _ _ selections => selections.fieldRefs
/-- The refs of the fields of the selections of a selection set. -/
def WalkSelections.fieldRefs : WalkSelections → List Int
  | WalkSelections.nil => []
  | WalkSelections.cons selection rest => selection.fieldRefs ++ rest.fieldRefs
end

mutual
/-- The fields below a field are other fields: none has the ref of the field. This holds
in the tree of a document, where every field has a ref of its own. -/
def WalkSelection.distinct : WalkSelection → Bool
  | WalkSelection.leaf _ _ _ _ => true
  | WalkSelection.field ref _ _ _ set => !(set.fieldRefs.contains ref) && set.distinct
  | WalkSelection.inlineFragment _ _ _ set => set.distinct
/-- The fields below every field of the selection set are other fields. -/
def WalkSet.distinct : WalkSet → Bool
  | WalkSet.mk _ _ _ selections => selections.distinct
/-- The fields below every field of the selections are other fields. -/
def WalkSelections.distinct : WalkSelections → Bool
  | WalkSelections.nil => true
  | WalkSelections.cons selection rest => selection.distinct && rest.distinct
end

/-- The callbacks of the walk of an operation definition. -/
def WalkOperation.callbacks (operation : WalkOperation) : List (Walker × Callback) :=
  (operation.enter, Callback.EnterOperationDefinition operation.ref) ::
    (operation.set.callbacks ++
      [(operation.leave, Callback.LeaveOperationDefinition operation.ref)])

/-- The callbacks of the walks of the operation definitions of a document. -/
def operationCallbacks : List WalkOperation → List (Walker × Callback)
  | [] => []
  | operation :: rest => operation.callbacks ++ operationCallbacks rest

/-- The callbacks of the walk of a document. -/
def WalkDocument.callbacks (document : WalkDocument) : List (Walker × Callback) :=
  (document.enter, Callback.EnterDocument) ::
    (operationCallbacks document.operations ++ [(document.leave, Callback.LeaveDocument)])

/-- In every operation of the document, the fields below a field are other fields. -/
def WalkDocument.distinct (document : WalkDocument) : Bool :=
  document.operations.all (fun operation => operation.set.distinct)

/-- The `Leave` callbacks that take a node from the stack. -/
def Callback.isLeave : Callback → Bool
  | Callback.LeaveOperationDefinition _ => true
  | Callback.LeaveSelectionSet _ => true
  | Callback.LeaveInlineFragment _ => true
  | Callback.LeaveField _ => true
  | _ => false

/-- The callback is `LeaveOperationDefinition`. -/
def Callback.isLeaveOperation : Callback → Bool
  | Callback.LeaveOperationDefinition _ => true
  | _ => false

/-- Along the callbacks, from the planner `p`: no `Leave` callback panics on an empty
stack (it returns a planner), and after `LeaveOperationDefinition` the node stack is
empty. Nothing is asked after a callback that panics. -/
def stackSafe (lib : Library) (v : Visitor) : Planner → List (Walker × Callback) → Prop
  | _, [] => True
  | p, (w, callback) :: rest =>
    (callback.isLeave = true → (p.visit lib v w callback).isSome = true) ∧
    ∀ q, p.visit lib v w callback = some q →
      (callback.isLeaveOperation = true → q.nodes = []) ∧ stackSafe lib v q rest

/-- The tree of the operation of scenario S2,
`query($id: Int!) { user(id: $id) { name meta { a } } }`. -/
def userDocument : WalkDocument where
  enter := {}
  leave := {}
  operations :=
    [{ ref := 0, enter := {}, leave := {},
       set := WalkSet.mk 0
         { EnclosingTypeDefinition := "Query",
           Ancestors := [{ Kind := NodeKind.OperationDefinition, Ref := 0 }] }
         { EnclosingTypeDefinition := "Query",
           Ancestors := [{ Kind := NodeKind.OperationDefinition, Ref := 0 }] }
         (WalkSelections.cons
           (WalkSelection.field 0 atQuery atQuery [(atQuery, 0)]
             (WalkSet.mk 1 atUser atUser
               (WalkSelections.cons (WalkSelection.leaf 1 atUser atUser [])
                 (WalkSelections.cons
                   (WalkSelection.field 2 atUser atUser []
                     (WalkSet.mk 2 atMeta atMeta
                       (WalkSelections.cons (WalkSelection.leaf 3 atMeta atMeta [])
                         WalkSelections.nil)))
                   WalkSelections.nil))))
           WalkSelections.nil) }]

/-! ## The recursive calls of `unNullRequest` -/

/-- The number of recursive calls that `unNullRequest` makes on a request, counted along
the recursion `unNullRequestFuel`: one for every pass that finds a `: null`. -/
def unNullRequestCallsFuel : Nat → List Nat → Nat
  | 0, _ => 0
  | fuel + 1, request =>
    match unNullStep request with
    | some request' => unNullRequestCallsFuel fuel request' + 1
    | none => 0

/-- The number of recursive calls of `unNullRequest` on a request. -/
def unNullRequestCalls (request : List Nat) : Nat :=
  unNullRequestCallsFuel request.length request

/-- A request in which no delimiter precedes the `: null`. -/
def bareRequest : List Nat := bytesOf "a: null"

/-! ## Completions and the supervisor -/

/-- Whether a call at this point holds the read lock of `e.m`. -/
def RequestPC.holdsRead : RequestPC → Bool
  | RequestPC.readLocked => true
  | RequestPC.executing write => !write
  | RequestPC.sending write _ => !write
  | RequestPC.sendingNil write _ => !write
  | RequestPC.sent write _ => !write
  | _ => false

/-- Whether a call at this point holds the write lock of `e.m`. -/
def RequestPC.holdsWrite : RequestPC → Bool
  | RequestPC.writeLocked => true
  | RequestPC.waiting => true
  | RequestPC.executing write => write
  | RequestPC.sending write _ => write
  | RequestPC.sendingNil write _ => write
  | RequestPC.sent write _ => write
  | _ => false

/-- Whether a call at this point is held up on its send on `requestWasProcessed`, with
its lock held. -/
def RequestPC.isSending : RequestPC → Bool
  | RequestPC.sending _ _ => true
  | _ => false

/-- Whether the supervisor is out of its `select`, either held up on `e.m.Lock()` in the
timer case or in the closer case, or returned. -/
def SupervisorPC.notSelecting : SupervisorPC → Bool
  | SupervisorPC.expiring => true
  | SupervisorPC.closing => true
  | SupervisorPC.returned => true
  | _ => false

/-- The lock `e.m` counts its holders: `readers` is the number of calls that hold the
read lock, and `writer` is set when a call holds the write lock. -/
def EngineState.Accounted (s : EngineState) : Prop :=
  s.readers = s.requests.countP RequestPC.holdsRead ∧
  s.writer.toNat = s.requests.countP RequestPC.holdsWrite

/-- Call `i` is held up on its send on `requestWasProcessed` while the supervisor is out
of its `select`. -/
def EngineState.blocked (s : EngineState) (i : Nat) : Bool :=
  (s.requests[i]?).any RequestPC.isSending && s.supervisor.notSelecting

/-- A first call starts the subprocess and returns, which arms the timer; a second call
is in the subprocess under the read lock when the timer fires; then its send begins. -/
def completionDuringExpiry : List Action :=
  [Action.make, Action.call, Action.rlock 0, Action.check 0, Action.lock 0,
   Action.newEngine 0 none, Action.ready 0 none, Action.executed 0 none, Action.signal 0,
   Action.unlock 0,
   Action.call, Action.rlock 1, Action.check 1,
   Action.timerFires, Action.executed 1 none]

/-- A first call starts the subprocess and returns; a second call is in the subprocess
under the read lock when the planning context ends and the supervisor takes the closer
case; then its send begins. -/
def completionDuringClose : List Action :=
  [Action.make, Action.call, Action.rlock 0, Action.check 0, Action.lock 0,
   Action.newEngine 0 none, Action.ready 0 none, Action.executed 0 none, Action.signal 0,
   Action.unlock 0,
   Action.call, Action.rlock 1, Action.check 1,
   Action.cancel, Action.takeClose, Action.executed 1 none]

/-- A call finds the engine cold and releases the read lock; the supervisor closes and
returns; the call starts a subprocess under the write lock, executes, and its send
begins. -/
def completionAfterClose : List Action :=
  coldCallAfterClose ++ [Action.ready 0 none, Action.executed 0 none]

/-! ## Calls on a supervisor that cannot finish -/

/-- A call finds the engine cold and releases the read lock; the supervisor closes and
returns; the call starts a subprocess under the write lock, executes, and its send
begins; then a second call of `Execute` begins, on the closed supervisor. -/
def callOnClosed : List Action :=
  completionAfterClose ++ [Action.call]

/-- A number of seconds for which `time.Second * time.Duration(closeTimeoutSeconds)` is
beyond the range of `int64`. -/
def longTimeoutSeconds : Int := 9223372037

/-! ## Lemmas on byte search -/

theorem mem_occurrences {s sep : List Nat} {i : Nat} :
    i ∈ occurrences s sep ↔ i ≤ s.length ∧ sep <+: s.drop i := by
  unfold occurrences
  rw [List.mem_filter, List.mem_range, List.isPrefixOf_iff_prefix]
  constructor
  · rintro ⟨h1, h2⟩
    exact ⟨by omega, h2⟩
  · rintro ⟨h1, h2⟩
    exact ⟨by omega, h2⟩

theorem infix_iff_occurs {s sep : List Nat} :
    sep <:+: s ↔ ∃ i, i ∈ occurrences s sep := by
  constructor
  · rintro ⟨a, b, rfl⟩
    refine ⟨a.length, mem_occurrences.2 ⟨?_, ?_⟩⟩
    · simp only [List.length_append]
      omega
    · rw [List.append_assoc, List.drop_left]
      exact List.prefix_append sep b
  · rintro ⟨i, hi⟩
    exact (mem_occurrences.1 hi).2.isInfix.trans (List.drop_suffix i s).isInfix

/-- An occurrence of `sep` at index `i` lies inside `s`. -/
theorem occurrence_bound {s sep : List Nat} {i : Nat} (h : i ∈ occurrences s sep) :
    i + sep.length ≤ s.length := by
  obtain ⟨h1, h2⟩ := mem_occurrences.1 h
  have := h2.length_le
  rw [List.length_drop] at this
  omega

theorem bytesIndex_eq_neg_one_iff {s sep : List Nat} :
    bytesIndex s sep = -1 ↔ ¬ sep <:+: s := by
  unfold bytesIndex
  rw [infix_iff_occurs]
  cases h : (occurrences s sep).head? with
  | none =>
    rw [List.head?_eq_none_iff] at h
    simp [h]
  | some i =>
    have hm : i ∈ occurrences s sep := List.mem_of_mem_head? h
    constructor
    · intro h1
      simp only at h1
      omega
    · intro h2
      exact absurd ⟨i, hm⟩ h2

theorem bytesIndex_spec {s sep : List Nat} (h : bytesIndex s sep ≠ -1) :
    ∃ i : Nat, bytesIndex s sep = (i : Int) ∧ i ∈ occurrences s sep := by
  unfold bytesIndex at h ⊢
  cases hh : (occurrences s sep).head? with
  | none => simp [hh] at h
  | some i => exact ⟨i, rfl, List.mem_of_mem_head? hh⟩

theorem bytesLastIndex_spec (s sep : List Nat) :
    bytesLastIndex s sep = -1 ∨
      ∃ i : Nat, bytesLastIndex s sep = (i : Int) ∧ i ∈ occurrences s sep := by
  unfold bytesLastIndex
  cases hh : (occurrences s sep).getLast? with
  | none => exact Or.inl rfl
  | some i => exact Or.inr ⟨i, rfl, List.mem_of_mem_getLast? hh⟩

/-- On a one-byte separator `bytes.LastIndex` is `-1` or an index inside `s`. -/
theorem bytesLastIndex_range (s : List Nat) (c : Nat) :
    -1 ≤ bytesLastIndex s [c] ∧ bytesLastIndex s [c] + 1 ≤ (s.length : Int) := by
  rcases bytesLastIndex_spec s [c] with h | ⟨i, h, hi⟩
  · rw [h]
    omega
  · have := occurrence_bound hi
    simp only [List.length_singleton] at this
    rw [h]
    omega

theorem max_cases (a b c d : Int) :
    max a b c d = a ∨ max a b c d = b ∨ max a b c d = c ∨ max a b c d = d := by
  unfold max
  split_ifs <;> simp

theorem bytesOf_brace : bytesOf "\x7b" = [123] := by decide
theorem bytesOf_paren : bytesOf "(" = [40] := by decide
theorem bytesOf_comma : bytesOf "," = [44] := by decide
theorem bytesOf_space : bytesOf " " = [32] := by decide
theorem nullLiteral_eq : nullLiteral = [58, 32, 110, 117, 108, 108] := by decide

/-- The index `start` is `-1` or an index of `request[:end]`. -/
theorem unNullStart_range (request : List Nat) (e : Nat) (he : e ≤ request.length) :
    -1 ≤ unNullStart request e ∧ unNullStart request e + 1 ≤ (e : Int) := by
  unfold unNullStart
  simp only [Int.toNat_ofNat, bytesOf_brace, bytesOf_paren, bytesOf_comma, bytesOf_space]
  have hl : (request.take e).length = e := by
    rw [List.length_take]
    omega
  have h1 := bytesLastIndex_range (request.take e) 123
  have h2 := bytesLastIndex_range (request.take e) 40
  have h3 := bytesLastIndex_range (request.take e) 44
  have h4 := bytesLastIndex_range (request.take e) 32
  rw [hl] at h1 h2 h3 h4
  rcases max_cases (bytesLastIndex (request.take e) [123]) (bytesLastIndex (request.take e) [40])
    (bytesLastIndex (request.take e) [44]) (bytesLastIndex (request.take e) [32])
    with h | h | h | h <;> rw [h] <;> assumption

/-- What one step does: the bytes `request[start+1 : end+6]` are cut out. -/
theorem unNullStep_some {request request' : List Nat} (h : unNullStep request = some request') :
    ∃ k e : Nat, k ≤ e ∧ e + 6 ≤ request.length ∧
      request' = request.take k ++ request.drop (e + 6) := by
  unfold unNullStep at h
  simp only at h
  split_ifs at h with hne
  obtain ⟨e, he, hocc⟩ := bytesIndex_spec hne
  have hb := occurrence_bound hocc
  rw [nullLiteral_eq] at hb
  simp only [List.length_cons, List.length_nil] at hb
  rw [he] at h
  have hr := unNullStart_range request e (by omega)
  refine ⟨(unNullStart request e + 1).toNat, e, by omega, by omega, ?_⟩
  have h6 : ((e : Int) + 6).toNat = e + 6 := by omega
  rw [h6] at h
  exact (Option.some.inj h).symm

theorem unNullStep_eq_none_iff {request : List Nat} :
    unNullStep request = none ↔ ¬ containsBytes request nullLiteral := by
  unfold unNullStep containsBytes
  simp only
  rw [← bytesIndex_eq_neg_one_iff]
  by_cases h : bytesIndex request nullLiteral = -1 <;> simp [h]

theorem unNullStep_length {request request' : List Nat}
    (h : unNullStep request = some request') : request'.length + 6 ≤ request.length := by
  obtain ⟨k, e, hk, he, rfl⟩ := unNullStep_some h
  simp only [List.length_append, List.length_take, List.length_drop]
  omega

theorem unNullStep_sublist {request request' : List Nat}
    (h : unNullStep request = some request') : request'.Sublist request := by
  obtain ⟨k, e, hk, he, rfl⟩ := unNullStep_some h
  have h1 : request.drop (e + 6) = (request.drop k).drop (e + 6 - k) := by
    rw [List.drop_drop]
    congr 1
    omega
  rw [h1]
  have h2 : (request.take k ++ (request.drop k).drop (e + 6 - k)).Sublist
      (request.take k ++ request.drop k) :=
    (List.Sublist.refl _).append (List.drop_sublist _ _)
  rwa [List.take_append_drop] at h2

/-- More fuel than the length of the request changes nothing. -/
theorem unNullRequestFuel_succ (fuel : Nat) :
    ∀ request : List Nat, request.length ≤ fuel →
      unNullRequestFuel (fuel + 1) request = unNullRequestFuel fuel request := by
  induction fuel with
  | zero =>
    intro request hlen
    show (match unNullStep request with
      | some request' => unNullRequestFuel 0 request'
      | none => request) = request
    cases h : unNullStep request with
    | none => rfl
    | some r' =>
      have := unNullStep_length h
      omega
  | succ n ih =>
    intro request hlen
    show (match unNullStep request with
      | some request' => unNullRequestFuel (n + 1) request'
      | none => request) = (match unNullStep request with
      | some request' => unNullRequestFuel n request'
      | none => request)
    cases h : unNullStep request with
    | none => rfl
    | some r' =>
      have := unNullStep_length h
      exact ih r' (by omega)

theorem unNullRequestFuel_enough (request : List Nat) (extra : Nat) :
    unNullRequestFuel (request.length + extra) request = unNullRequest request := by
  induction extra with
  | zero => rfl
  | succ n ih =>
    rw [← ih]
    exact unNullRequestFuel_succ (request.length + n) request (by omega)

/-- The defining equation of the Go function: return the request when it has no
`: null`, and otherwise recurse on the request with the bytes cut out. -/
theorem unNullRequest_eq (request : List Nat) :
    unNullRequest request =
      match unNullStep request with
      | some request' => unNullRequest request'
      | none => request := by
  cases h : unNullStep request with
  | none =>
    unfold unNullRequest
    cases hl : request.length with
    | zero => rfl
    | succ n =>
      show (match unNullStep request with
        | some request' => unNullRequestFuel n request'
        | none => request) = request
      rw [h]
  | some r' =>
    have hlen := unNullStep_length h
    obtain ⟨n, hn⟩ : ∃ n, request.length = n + 1 := ⟨request.length - 1, by omega⟩
    show unNullRequest request = unNullRequest r'
    have h1 : unNullRequest request = unNullRequestFuel n r' := by
      unfold unNullRequest
      rw [hn]
      show (match unNullStep request with
        | some request' => unNullRequestFuel n request'
        | none => request) = _
      rw [h]
    obtain ⟨x, hx⟩ : ∃ x, n = r'.length + x := ⟨n - r'.length, by omega⟩
    rw [h1, hx]
    exact unNullRequestFuel_enough r' x

/-- Induction along the recursion of `unNullRequest`. -/
theorem unNullRequest_induct (P : List Nat → List Nat → Prop)
    (hnone : ∀ r, unNullStep r = none → P r r)
    (hsome : ∀ r r', unNullStep r = some r' → P r' (unNullRequest r') → P r (unNullRequest r'))
    (request : List Nat) : P request (unNullRequest request) := by
  obtain ⟨n, hn⟩ : ∃ n, request.length = n := ⟨_, rfl⟩
  induction n using Nat.strong_induction_on generalizing request with
  | _ n ih =>
    rw [unNullRequest_eq]
    cases h : unNullStep request with
    | none => exact hnone request h
    | some r' =>
      have := unNullStep_length h
      exact hsome request r' h (ih r'.length (by omega) r' rfl)


/-- The output of `unNullRequest` has no `: null` left. -/
theorem unNullRequest_not_contains (request : List Nat) :
    ¬ containsBytes (unNullRequest request) nullLiteral := by
  refine unNullRequest_induct (fun _ out => ¬ containsBytes out nullLiteral) ?_ ?_ request
  · intro r h
    exact unNullStep_eq_none_iff.1 h
  · intro r r' _ ih
    exact ih

/-- A request without `: null` is returned as it is. -/
theorem unNullRequest_of_not_contains {request : List Nat}
    (h : ¬ containsBytes request nullLiteral) : unNullRequest request = request := by
  rw [unNullRequest_eq, unNullStep_eq_none_iff.2 h]

/-! ## Null stripping: the properties of the specification -/

/-- C1: null stripping is idempotent, `unNullRequest (unNullRequest x) = unNullRequest x`
for every request byte string `x`. -/
theorem unNullRequest_idempotent (x : List Nat) :
    unNullRequest (unNullRequest x) = unNullRequest x :=
  unNullRequest_of_not_contains (unNullRequest_not_contains x)

/-- C2: for every request byte string, the result of `unNullRequest` contains no
occurrence of the six-byte substring `: null`. -/
theorem unNullRequest_no_null_literal (request : List Nat) :
    nullLiteral = bytesOf ": null" ∧ nullLiteral.length = 6 ∧
      ¬ containsBytes (unNullRequest request) (bytesOf ": null") :=
  ⟨rfl, by decide, unNullRequest_not_contains request⟩

/-- C3, as stated, fails: on the request text `filter: {name: {contains: null}}` the
result has no `null` literal, but the `name` entry is still there (`name: {}`), so it
is false that both no `null` and no `name: {` entry remain. -/
theorem unNullRequest_s4_name_entry_remains :
    ¬ (¬ containsBytes (unNullRequest s4Request) (bytesOf "null") ∧
        ¬ containsBytes (unNullRequest s4Request) (bytesOf "name: \x7b")) := by
  decide

/-- C3, amended: on the request text `filter: {name: {contains: null}}` the result of
`unNullRequest` is `filter: {name: {}}`: it contains no `null` literal, the
`contains: null` entry is removed, and the `name` entry remains with an empty object. -/
theorem unNullRequest_s4_result :
    unNullRequest s4Request = bytesOf "filter: \x7bname: \x7b\x7d\x7d" ∧
      ¬ containsBytes (unNullRequest s4Request) (bytesOf "null") ∧
      ¬ containsBytes (unNullRequest s4Request) (bytesOf "contains") ∧
      containsBytes (unNullRequest s4Request) (bytesOf "name: \x7b\x7d") := by
  decide

/-- C4: `unNullRequest` only deletes bytes: its output is a subsequence of the input
(nothing is altered, inserted or reordered), and a request that contains no `: null`
is returned byte-for-byte unchanged. -/
theorem unNullRequest_only_deletes (request : List Nat) :
    (unNullRequest request).Sublist request ∧
      (¬ containsBytes request (bytesOf ": null") → unNullRequest request = request) := by
  constructor
  · refine unNullRequest_induct (fun r out => out.Sublist r) ?_ ?_ request
    · intro r _
      exact List.Sublist.refl r
    · intro r r' h ih
      exact ih.trans (unNullStep_sublist h)
  · intro h
    exact unNullRequest_of_not_contains h

/-- C4 at a request without `: null`: it comes back unchanged. -/
theorem unNullRequest_only_deletes_witness :
    ¬ containsBytes (bytesOf "\x7ba: 1\x7d") (bytesOf ": null") ∧
      unNullRequest (bytesOf "\x7ba: 1\x7d") = bytesOf "\x7ba: 1\x7d" :=
  ⟨by decide, (unNullRequest_only_deletes (bytesOf "\x7ba: 1\x7d")).2 (by decide)⟩

/-! ## Lemmas on the planner -/

theorem mapM_option_append {α β : Type} (f : α → Option β) (xs ys : List α) :
    (xs ++ ys).mapM f = (xs.mapM f).bind (fun a => (ys.mapM f).bind (fun b => some (a ++ b))) := by
  rw [List.mapM_append]
  rfl

/-- The entry of a variable depends on the planner through its configuration only. -/
theorem inlinedEntry_congr {p q : Planner} (v : Visitor) (h : q.config = p.config) (name : String) :
    q.inlinedEntry v name = p.inlinedEntry v name := by
  unfold Planner.inlinedEntry Planner.isJSONInput
  rw [h]

/-- The planner `p` with the entries `es` appended to its inlined variables. -/
theorem addEntries_nil (p : Planner) :
    { p with inlinedVariables := p.inlinedVariables ++ [] } = p := by
  simp

mutual
theorem addVariableDefinitionsRecursively_eq (v : Visitor) (a : String) (s : List String) :
    ∀ (p : Planner) (value : Value),
      Planner.addVariableDefinitionsRecursively v a s p value =
        ((variablesOf value).mapM (p.inlinedEntry v)).map
          (fun es => { p with inlinedVariables := p.inlinedVariables ++ es })
  | p, Value.Object fields => by
    rw [Planner.addVariableDefinitionsRecursively, variablesOf]
    exact addVariableDefinitionsFields_eq v a s p fields
  | p, Value.List values => by
    rw [Planner.addVariableDefinitionsRecursively, variablesOf]
    exact addVariableDefinitionsValues_eq v a s p values
  | p, Value.Variable name => by
    rw [Planner.addVariableDefinitionsRecursively, variablesOf]
    simp only [List.mapM_cons, List.mapM_nil, Planner.inlinedEntry]
    cases h1 : index v.Walker.Ancestors 0 with
    | none => simp
    | some operation =>
      cases h2 : v.Operation.VariableDefinitionByNameAndOperation operation.Ref name with
      | none => simp [h2]
      | some found =>
        cases h3 : index v.Operation.VariableDefinitions found.1 with
        | none => simp [h2, h3]
        | some definition =>
          cases h4 : v.Operation.ResolveTypeNameString definition.Type_ with
          | none => simp [h2, h3, h4]
          | some typeName => simp [h2, h3, h4]
  | p, Value.Scalar raw => by
    rw [Planner.addVariableDefinitionsRecursively, variablesOf, List.mapM_nil]
    simp [pure]
theorem addVariableDefinitionsFields_eq (v : Visitor) (a : String) (s : List String) :
    ∀ (p : Planner) (fields : List (String × Value)),
      Planner.addVariableDefinitionsFields v a s p fields =
        ((variablesOfFields fields).mapM (p.inlinedEntry v)).map
          (fun es => { p with inlinedVariables := p.inlinedVariables ++ es })
  | p, [] => by
    rw [Planner.addVariableDefinitionsFields, variablesOfFields, List.mapM_nil]
    simp [pure]
  | p, (name, value) :: rest => by
    rw [Planner.addVariableDefinitionsFields, variablesOfFields, mapM_option_append,
      addVariableDefinitionsRecursively_eq v a s p value]
    cases h : (variablesOf value).mapM (p.inlinedEntry v) with
    | none => rfl
    | some es =>
      simp only [Option.map_some', Option.bind_some]
      rw [addVariableDefinitionsFields_eq v a s _ rest]
      have hc : ∀ name, Planner.inlinedEntry
          { p with inlinedVariables := p.inlinedVariables ++ es } v name = p.inlinedEntry v name :=
        fun name => inlinedEntry_congr v rfl name
      rw [funext hc]
      cases (variablesOfFields rest).mapM (p.inlinedEntry v) with
      | none => rfl
      | some es' => simp [List.append_assoc]
theorem addVariableDefinitionsValues_eq (v : Visitor) (a : String) (s : List String) :
    ∀ (p : Planner) (values : List Value),
      Planner.addVariableDefinitionsValues v a s p values =
        ((variablesOfValues values).mapM (p.inlinedEntry v)).map
          (fun es => { p with inlinedVariables := p.inlinedVariables ++ es })
  | p, [] => by
    rw [Planner.addVariableDefinitionsValues, variablesOfValues, List.mapM_nil]
    simp [pure]
  | p, value :: rest => by
    rw [Planner.addVariableDefinitionsValues, variablesOfValues, mapM_option_append,
      addVariableDefinitionsRecursively_eq v a s p value]
    cases h : (variablesOf value).mapM (p.inlinedEntry v) with
    | none => rfl
    | some es =>
      simp only [Option.map_some', Option.bind_some]
      rw [addVariableDefinitionsValues_eq v a s _ rest]
      have hc : ∀ name, Planner.inlinedEntry
          { p with inlinedVariables := p.inlinedVariables ++ es } v name = p.inlinedEntry v name :=
        fun name => inlinedEntry_congr v rfl name
      rw [funext hc]
      cases (variablesOfValues rest).mapM (p.inlinedEntry v) with
      | none => rfl
      | some es' => simp [List.append_assoc]
end

theorem applyInlineFieldArgument_control {p p' : Planner} {v : Visitor} {u d : Int} {a : String}
    {s : List String} (h : p.applyInlineFieldArgument v u d a s = some p') :
    p'.control = p.control := by
  unfold Planner.applyInlineFieldArgument at h
  simp only [Option.bind_eq_bind, Option.bind_eq_some, addVariableDefinitionsRecursively_eq] at h
  obtain ⟨found, _, h⟩ := h
  split_ifs at h
  · cases h
    rfl
  · simp only [Option.bind_eq_some, Option.map_eq_some'] at h
    obtain ⟨value, _, upstream, _, upstream', _, es, _, rfl⟩ := h
    rfl

theorem configureFieldArgumentSource_control {p p' : Planner} {v : Visitor} {u d : Int}
    {a : String} {s : List String} (h : p.configureFieldArgumentSource v u d a s = some p') :
    p'.control = p.control := by
  unfold Planner.configureFieldArgumentSource at h
  simp only [Option.bind_eq_bind, Option.bind_eq_some] at h
  obtain ⟨found, _, h⟩ := h
  split_ifs at h
  · cases h
    rfl
  · simp only [Option.bind_eq_some] at h
    obtain ⟨value, _, h⟩ := h
    split at h
    · simp only [Option.bind_eq_bind, Option.bind_eq_some] at h
      obtain ⟨operation, _, found', _, h⟩ := h
      split_ifs at h
      · cases h
        rfl
      · simp only [Option.bind_eq_some] at h
        obtain ⟨definition, _, upstream, _, upstream', _, typeName, _, h⟩ := h
        cases h
        rfl
    · exact applyInlineFieldArgument_control h

theorem configureObjectFieldSource_control {lib : Library} {p p' : Planner} {v : Visitor}
    {u d : Int} {fc : FieldConfiguration} {ac : ArgumentConfiguration}
    (h : p.configureObjectFieldSource lib v u d fc ac = some p') : p'.control = p.control := by
  unfold Planner.configureObjectFieldSource at h
  split_ifs at h
  · cases h
    rfl
  · simp only [Option.bind_eq_bind, Option.bind_eq_some] at h
    obtain ⟨fieldName, _, h⟩ := h
    split_ifs at h
    · cases h
      rfl
    · cases h
      rfl
    · simp only [Option.bind_eq_some] at h
      obtain ⟨first, _, upstream, _, upstream', _, upstream'', _, h⟩ := h
      split at h
      · cases h
        rfl
      · split_ifs at h <;> cases h <;> rfl

theorem configureArgument_control {lib : Library} {p p' : Planner} {v : Visitor}
    {u d : Int} {fc : FieldConfiguration} {ac : ArgumentConfiguration}
    (h : p.configureArgument lib v u d fc ac = some p') : p'.control = p.control := by
  unfold Planner.configureArgument at h
  split at h
  · exact configureFieldArgumentSource_control h
  · exact configureObjectFieldSource_control h

theorem configureArguments_control {lib : Library} {v : Visitor} {u d : Int}
    {fc : FieldConfiguration} :
    ∀ (acs : List ArgumentConfiguration) {p p' : Planner},
      Planner.configureArguments lib v u d fc p acs = some p' → p'.control = p.control
  | [], p, p', h => by
    rw [Planner.configureArguments] at h
    cases h
    rfl
  | ac :: rest, p, p', h => by
    rw [Planner.configureArguments] at h
    split at h
    · next q hq =>
      rw [configureArguments_control rest h, configureArgument_control hq]
    · cases h

/-- What `addField` changes: the upstream operation, the root field name, and the
stack, on which one node of kind field is pushed. -/
theorem addField_spec {p p' : Planner} {v : Visitor} {ref : Int}
    (h : p.addField v ref = some p') :
    (∃ field : Node, field.Kind = NodeKind.Field ∧ p'.nodes = p.nodes ++ [field]) ∧
      p'.disallowSingleFlight = p.disallowSingleFlight ∧
      p'.insideJsonField = p.insideJsonField ∧ p'.jsonFieldRef = p.jsonFieldRef ∧
      p'.config = p.config ∧ p'.isNested = p.isNested ∧
      p'.inlinedVariables = p.inlinedVariables := by
  unfold Planner.addField at h
  simp only [Option.bind_eq_bind, Option.bind_eq_some] at h
  obtain ⟨fieldName, _, h⟩ := h
  split at h
  · by_cases hr : ref = p.rootFieldRef <;>
      (simp only [hr, if_true, if_false, Option.bind_eq_some] at h
       obtain ⟨upstream, _, top, _, upstream', _, h⟩ := h
       cases h
       exact ⟨⟨_, rfl, rfl⟩, rfl, rfl, rfl, rfl, rfl, rfl⟩)
  · simp only [Option.bind_eq_some] at h
    obtain ⟨upstream, _, top, _, upstream', _, h⟩ := h
    cases h
    exact ⟨⟨_, rfl, rfl⟩, rfl, rfl, rfl, rfl, rfl, rfl⟩

/-- The bookkeeping of the root field writes the root names and ref and the enclosing
type name only. -/
theorem storeRoot_control (p : Planner) (v : Visitor) (fieldName : String) (ref : Int) :
    (p.storeRoot v fieldName ref).disallowSingleFlight = p.disallowSingleFlight ∧
      (p.storeRoot v fieldName ref).nodes = p.nodes ∧
      (p.storeRoot v fieldName ref).upstreamOperation = p.upstreamOperation ∧
      (p.storeRoot v fieldName ref).insideJsonField = p.insideJsonField ∧
      (p.storeRoot v fieldName ref).inlinedVariables = p.inlinedVariables ∧
      (p.storeRoot v fieldName ref).config = p.config := by
  simp only [Planner.storeRoot]
  split_ifs <;> exact ⟨rfl, rfl, rfl, rfl, rfl, rfl⟩

theorem control_disallowSingleFlight {p q : Planner} (h : q.control = p.control) :
    q.disallowSingleFlight = p.disallowSingleFlight :=
  congrArg (fun c => c.2.2.2.1) h

theorem addJsonField_spec {p p' : Planner} {v : Visitor} {ref : Int}
    (h : p.addJsonField v ref = some p') :
    ∃ upstream, p' = { p with upstreamOperation := some upstream } := by
  unfold Planner.addJsonField at h
  simp only [Option.bind_eq_bind, Option.bind_eq_some] at h
  obtain ⟨fieldName, _, upstream, _, top, _, upstream', _, h⟩ := h
  cases h
  exact ⟨_, rfl⟩

theorem EnterField_disallowSingleFlight {lib : Library} {p p' : Planner} {v : Visitor} {ref : Int}
    (h : p.EnterField lib v ref = some p') :
    p'.disallowSingleFlight = p.disallowSingleFlight := by
  unfold Planner.EnterField at h
  by_cases hin : p.insideJsonField = true
  · rw [if_pos hin] at h
    cases h
    rfl
  · rw [if_neg hin] at h
    simp only [Option.bind_eq_bind, Option.bind_eq_some] at h
    obtain ⟨fieldName, _, h⟩ := h
    by_cases hjson : p.isJsonTypeField v.Walker.EnclosingTypeDefinition fieldName = true
    · rw [if_pos hjson] at h
      obtain ⟨upstream, rfl⟩ := addJsonField_spec h
      rfl
    · rw [if_neg hjson] at h
      simp only [Option.bind_eq_some] at h
      obtain ⟨q, hq, top, _, h⟩ := h
      have hq' := (addField_spec hq).2.1
      have hp : q.disallowSingleFlight = p.disallowSingleFlight := by
        rw [hq', (storeRoot_control p v fieldName ref).1]
      split at h
      · cases h
        exact hp
      · rw [control_disallowSingleFlight (configureArguments_control _ h), hp]

/-- Every callback but `EnterDocument` and `EnterOperationDefinition` leaves
`disallowSingleFlight` as it is. -/
theorem visit_disallowSingleFlight {lib : Library} {v : Visitor} {p p' : Planner} {w : Walker}
    {c : Callback} (hc : c.startsOperation = false) (h : p.visit lib v w c = some p') :
    p'.disallowSingleFlight = p.disallowSingleFlight := by
  cases c with
  | EnterDocument => simp [Callback.startsOperation] at hc
  | EnterOperationDefinition ref => simp [Callback.startsOperation] at hc
  | LeaveDocument =>
    simp only [Planner.visit, Planner.LeaveDocument, Option.some.injEq] at h
    rw [← h]
  | LeaveOperationDefinition ref =>
    simp only [Planner.visit, Planner.LeaveOperationDefinition, Option.bind_eq_bind,
      Option.bind_eq_some] at h
    obtain ⟨nodes, _, h⟩ := h
    cases h
    rfl
  | EnterSelectionSet ref =>
    simp only [Planner.visit, Planner.EnterSelectionSet] at h
    split_ifs at h
    · cases h
      rfl
    · simp only [Option.bind_eq_bind, Option.bind_eq_some] at h
      obtain ⟨parent, _, upstream, _, upstream', _, downstream, _, upstream'', _, h⟩ := h
      cases h
      rfl
  | LeaveSelectionSet ref =>
    simp only [Planner.visit, Planner.LeaveSelectionSet] at h
    split_ifs at h
    · cases h
      rfl
    · simp only [Option.bind_eq_bind, Option.bind_eq_some] at h
      obtain ⟨nodes, _, h⟩ := h
      cases h
      rfl
  | EnterInlineFragment ref =>
    simp only [Planner.visit, Planner.EnterInlineFragment] at h
    split_ifs at h
    · cases h
      rfl
    · simp only [Option.bind_eq_bind, Option.bind_eq_some] at h
      obtain ⟨typeCondition, _, h⟩ := h
      split at h
      · cases h
        rfl
      · simp only [Option.bind_eq_some] at h
        obtain ⟨upstream, _, top, _, upstream', _, upstream'', _, h⟩ := h
        cases h
        rfl
  | LeaveInlineFragment ref =>
    simp only [Planner.visit, Planner.LeaveInlineFragment] at h
    split_ifs at h
    · cases h
      rfl
    · simp only [Option.bind_eq_bind, Option.bind_eq_some] at h
      obtain ⟨top, _, h⟩ := h
      split_ifs at h
      · cases h
        rfl
      · simp only [Option.bind_eq_some] at h
        obtain ⟨nodes, _, h⟩ := h
        cases h
        rfl
  | EnterField ref => exact EnterField_disallowSingleFlight h
  | LeaveField ref =>
    simp only [Planner.visit, Planner.LeaveField] at h
    split_ifs at h
    · cases h
      rfl
    · cases h
      rfl
    · simp only [Option.bind_eq_bind, Option.bind_eq_some] at h
      obtain ⟨nodes, _, h⟩ := h
      cases h
      rfl
  | EnterArgument ref =>
    simp only [Planner.visit, Planner.EnterArgument] at h
    split_ifs at h <;> cases h <;> rfl

theorem walk_disallowSingleFlight {lib : Library} {v : Visitor} :
    ∀ (es : List (Walker × Callback)) {p p' : Planner},
      (∀ e ∈ es, e.2.startsOperation = false) → p.walk lib v es = some p' →
      p'.disallowSingleFlight = p.disallowSingleFlight
  | [], p, p', _, h => by
    rw [Planner.walk] at h
    cases h
    rfl
  | (w, c) :: rest, p, p', hes, h => by
    rw [Planner.walk] at h
    split at h
    · next q hq =>
      rw [walk_disallowSingleFlight rest (fun e he => hes e (List.mem_cons_of_mem _ he)) h]
      exact visit_disallowSingleFlight (hes (w, c) (List.mem_cons_self _ _)) hq
    · cases h

/-- While the planner is inside a JSON field, the callbacks below that field return
the planner state as it is. -/
theorem visit_below {lib : Library} {v : Visitor} {p : Planner} {w : Walker} {c : Callback}
    (hin : p.insideJsonField = true) (hc : c.below p.jsonFieldRef = true) :
    p.visit lib v w c = some p := by
  cases c with
  | EnterDocument => simp [Callback.below] at hc
  | LeaveDocument => simp [Callback.below] at hc
  | EnterOperationDefinition ref => simp [Callback.below] at hc
  | LeaveOperationDefinition ref => simp [Callback.below] at hc
  | EnterSelectionSet ref => simp [Planner.visit, Planner.EnterSelectionSet, hin]
  | LeaveSelectionSet ref => simp [Planner.visit, Planner.LeaveSelectionSet, hin]
  | EnterInlineFragment ref => simp [Planner.visit, Planner.EnterInlineFragment, hin]
  | LeaveInlineFragment ref => simp [Planner.visit, Planner.LeaveInlineFragment, hin]
  | EnterField ref => simp [Planner.visit, Planner.EnterField, hin]
  | LeaveField ref =>
    simp only [Callback.below, decide_eq_true_eq] at hc
    simp [Planner.visit, Planner.LeaveField, hin, Ne.symm hc]
  | EnterArgument ref => simp [Planner.visit, Planner.EnterArgument]

theorem walk_below {lib : Library} {v : Visitor} {p : Planner}
    (hin : p.insideJsonField = true) :
    ∀ (es : List (Walker × Callback)), (∀ e ∈ es, e.2.below p.jsonFieldRef = true) →
      p.walk lib v es = some p
  | [], _ => by rw [Planner.walk]
  | (w, c) :: rest, hes => by
    rw [Planner.walk, visit_below hin (hes (w, c) (List.mem_cons_self _ _))]
    exact walk_below hin rest (fun e he => hes e (List.mem_cons_of_mem _ he))

theorem walk_append {lib : Library} {v : Visitor} :
    ∀ (es fs : List (Walker × Callback)) (p : Planner),
      p.walk lib v (es ++ fs) = (p.walk lib v es).bind (fun q => q.walk lib v fs)
  | [], fs, p => by
    rw [List.nil_append, Planner.walk, Option.some_bind]
  | (w, c) :: rest, fs, p => by
    rw [List.cons_append, Planner.walk, Planner.walk]
    cases p.visit lib v w c with
    | none => rfl
    | some q => exact walk_append rest fs q

/-! ## The planner: the properties of the specification -/

/-- C5: after `EnterOperationDefinition`, `disallowSingleFlight` is true if and only if
the effective operation type is `Mutation`, the effective type being the type of the
downstream operation for a planner that is not nested and `Query` for a nested one (so
a nested planner never sets the flag); the callbacks that follow, up to the next
document or operation, keep the flag, and `ConfigureFetch` reports exactly this flag as
`DisallowSingleFlight`. -/
theorem disallowSingleFlight_iff_mutation (lib : Library) (p : Planner) (v : Visitor) (ref : Int)
    (upstream : Document) (downstream : OperationDefinition)
    (hup : p.upstreamOperation = some upstream)
    (hdown : index v.Operation.OperationDefinitions ref = some downstream) :
    ∃ p', p.EnterOperationDefinition v ref = some p' ∧
      (p'.disallowSingleFlight = true ↔
        (if p.isNested = true then OperationType.Query else downstream.OperationType) =
          OperationType.Mutation) ∧
      (p.isNested = true → p'.disallowSingleFlight = false) ∧
      ∀ (es : List (Walker × Callback)) (p'' : Planner) (f : LazyEngineFactory),
        (∀ e ∈ es, e.2.startsOperation = false) → p'.walk lib v es = some p'' →
        (p''.ConfigureFetch lib v f).1.DisallowSingleFlight = p'.disallowSingleFlight := by
  have henter : ∃ p', p.EnterOperationDefinition v ref = some p' ∧
      p'.disallowSingleFlight = decide ((if p.isNested = true then OperationType.Query
        else downstream.OperationType) = OperationType.Mutation) := by
    simp only [Planner.EnterOperationDefinition, hup, hdown, Option.bind_eq_bind, Option.some_bind]
    exact ⟨_, rfl, rfl⟩
  obtain ⟨p', hp', hflag⟩ := henter
  refine ⟨p', hp', ?_, ?_, ?_⟩
  · rw [hflag, decide_eq_true_eq]
  · intro hn
    rw [hflag, if_pos hn]
    rfl
  · intro es p'' f hes hwalk
    rw [← walk_disallowSingleFlight es hes hwalk]
    rfl

/-- C5 on the mutation of scenario S3, for a planner that is not nested. -/
theorem disallowSingleFlight_iff_mutation_witness :
    Factory.Planner.EnterDocument.upstreamOperation = some Document.empty ∧
    index mutationVisitor.Operation.OperationDefinitions 0 =
      some { OperationType := OperationType.Mutation, HasSelections := true } ∧
    ∃ p', Factory.Planner.EnterDocument.EnterOperationDefinition mutationVisitor 0 = some p' ∧
      (p'.disallowSingleFlight = true ↔
        (if Factory.Planner.EnterDocument.isNested = true then OperationType.Query
          else OperationType.Mutation) = OperationType.Mutation) ∧
      (Factory.Planner.EnterDocument.isNested = true → p'.disallowSingleFlight = false) ∧
      ∀ (es : List (Walker × Callback)) (p'' : Planner) (f : LazyEngineFactory),
        (∀ e ∈ es, e.2.startsOperation = false) →
        p'.walk exampleLibrary mutationVisitor es = some p'' →
        (p''.ConfigureFetch exampleLibrary mutationVisitor f).1.DisallowSingleFlight =
          p'.disallowSingleFlight :=
  ⟨rfl, rfl,
    disallowSingleFlight_iff_mutation exampleLibrary Factory.Planner.EnterDocument mutationVisitor 0
      Document.empty { OperationType := OperationType.Mutation, HasSelections := true } rfl rfl⟩

/-- C6, as stated, fails for a field that matches a configured `JsonTypeField` and lies
below another JSON field: in scenario S2 with `Meta.a` configured as a JSON type field,
`EnterField` on `a` inside the JSON field `meta` returns the planner as it is, and the
upstream fields are still `user`, `name` and `meta`: the field is not appended. -/
theorem nested_jsonField_not_appended :
    plannerInsideMeta.insideJsonField = true ∧
    userVisitor.Operation.FieldNameString 3 = some "a" ∧
    { TypeName := atMeta.EnclosingTypeDefinition, FieldName := "a" } ∈
      plannerInsideMeta.config.JsonTypeFields ∧
    (plannerInsideMeta.visit exampleLibrary userVisitor atMeta (Callback.EnterField 3)).map
        (fun p => p.upstreamOperation.map (fun u => u.Fields.map (fun f => f.Name))) =
      some (some ["user", "name", "meta"]) ∧
    (plannerInsideMeta.visit exampleLibrary userVisitor atMeta (Callback.EnterField 3)).map
        (fun p => p.upstreamOperation.map (fun u => u.Fields.length)) =
      some (plannerInsideMeta.upstreamOperation.map (fun u => u.Fields.length)) := by
  decide!

/-- C6, amended: for a field that matches a configured `JsonTypeField` and is entered
while the planner is not inside a JSON field, `EnterField` appends the field bare to the
upstream document (a name, no selection set, no arguments), selects it in the set on
top of the stack and does not push it; every callback between this `EnterField` and the
matching `LeaveField` leaves the planner, so the upstream document and the node stack,
unchanged; and `LeaveField` leaves the document and the stack unchanged: the upstream
document holds no descendants of the field. -/
theorem jsonField_has_no_descendants (lib : Library) (p : Planner) (v : Visitor) (w w' : Walker)
    (ref : Int) (upstream : Document) (top : Node) (set : SelectionSet) (fieldName : String)
    (hinside : p.insideJsonField = false)
    (hup : p.upstreamOperation = some upstream)
    (htop : p.nodes.getLast? = some top)
    (hset : index upstream.SelectionSets top.Ref = some set)
    (hname : v.Operation.FieldNameString ref = some fieldName)
    (hjson : { TypeName := w.EnclosingTypeDefinition, FieldName := fieldName } ∈
      p.config.JsonTypeFields) :
    ∃ p1 upstream1,
      p.visit lib v w (Callback.EnterField ref) = some p1 ∧
      p1.upstreamOperation = some upstream1 ∧
      upstream1.Fields = upstream.Fields ++
        [{ Alias := { IsDefined := false, Name := "" }, Name := fieldName, HasArguments := false,
           Arguments := [], HasSelections := false, SelectionSet := 0 }] ∧
      upstream1.Selections = upstream.Selections ++
        [{ Kind := SelectionKind.Field, Ref := upstream.Fields.length }] ∧
      index upstream1.SelectionSets top.Ref =
        some { SelectionRefs := set.SelectionRefs ++ [(upstream.Selections.length : Int)] } ∧
      upstream1.Arguments.length = upstream.Arguments.length ∧
      upstream1.SelectionSets.length = upstream.SelectionSets.length ∧
      p1.nodes = p.nodes ∧
      (∀ between : List (Walker × Callback), (∀ e ∈ between, e.2.below ref = true) →
        p1.walk lib v between = some p1) ∧
      ∃ p2, p1.visit lib v w' (Callback.LeaveField ref) = some p2 ∧
        p2.upstreamOperation = some upstream1 ∧ p2.nodes = p.nodes ∧
        p2.insideJsonField = false := by
  have hj : p.isJsonTypeField w.EnclosingTypeDefinition fieldName = true := by
    unfold Planner.isJsonTypeField
    rw [List.any_eq_true]
    exact ⟨_, hjson, by simp⟩
  have hidx : 0 ≤ top.Ref ∧ upstream.SelectionSets[top.Ref.toNat]? = some set := by
    unfold index at hset
    split_ifs at hset with hneg
    exact ⟨by omega, hset⟩
  obtain ⟨hnn, hget⟩ := hidx
  have hlt : top.Ref.toNat < upstream.SelectionSets.length := by
    by_contra hcon
    rw [List.getElem?_eq_none (by omega)] at hget
    cases hget
  have hmod : modifyAt (upstream.AddField { Name := fieldName }).1.SelectionSets top.Ref
      (fun s => { s with SelectionRefs := s.SelectionRefs ++
        [((upstream.AddField { Name := fieldName }).1.Selections.length : Int)] }) =
      some (upstream.SelectionSets.set top.Ref.toNat
        { SelectionRefs := set.SelectionRefs ++ [(upstream.Selections.length : Int)] }) := by
    simp only [modifyAt, Document.AddField, hset]
  have henter : p.visit lib v w (Callback.EnterField ref) =
      some { p with insideJsonField := true, jsonFieldRef := ref,
                    upstreamOperation := some
                      { upstream with
                        Fields := upstream.Fields ++ [{ Name := fieldName }],
                        Selections := upstream.Selections ++
                          [{ Kind := SelectionKind.Field, Ref := upstream.Fields.length }],
                        SelectionSets := upstream.SelectionSets.set top.Ref.toNat
                          { SelectionRefs := set.SelectionRefs ++
                              [(upstream.Selections.length : Int)] } } } := by
    simp only [Planner.visit, Planner.EnterField, hinside, Bool.false_eq_true, if_false,
      Option.bind_eq_bind, hname, Option.some_bind, hj, if_true, Planner.addJsonField, hup, htop,
      Document.AddSelection, hmod]
    rfl
  have hleave : ∀ q : Planner, q.insideJsonField = true → q.jsonFieldRef = ref →
      q.visit lib v w' (Callback.LeaveField ref) =
        some { q with insideJsonField := false, jsonFieldRef := 0 } := by
    intro q h1 h2
    simp [Planner.visit, Planner.LeaveField, h1, h2]
  refine ⟨_, _, henter, rfl, rfl, rfl, ?_, rfl, ?_, rfl, ?_, ?_⟩
  · simp only [index, not_lt.2 hnn, if_false]
    rw [List.getElem?_set_self hlt]
  · simp
  · intro between hb
    exact walk_below rfl between hb
  · exact ⟨_, hleave _ rfl rfl, rfl, rfl, rfl⟩

/-- C6, amended, on the field `meta` of scenario S2, with the callbacks of the selection
below it. -/
theorem jsonField_has_no_descendants_witness :
    (∀ e ∈ walkBelowMeta, e.2.below 2 = true) ∧
    ∃ p2, (plannerAtMeta.walk exampleLibrary userVisitor
        ((atUser, Callback.EnterField 2) :: walkBelowMeta ++ [(atUser, Callback.LeaveField 2)])) =
          some p2 ∧
      p2.nodes = plannerAtMeta.nodes ∧
      (p2.upstreamOperation.map (fun u => u.Fields)) =
        (plannerAtMeta.upstreamOperation.map (fun u => u.Fields ++ [{ Name := "meta" }])) := by
  have hb : ∀ e ∈ walkBelowMeta, e.2.below 2 = true := by decide
  obtain ⟨p1, upstream1, h1, h2, h3, -, -, -, -, h4, h5, p2, h6, h7, h8, -⟩ :=
    jsonField_has_no_descendants exampleLibrary plannerAtMeta userVisitor atUser atUser 2
      (plannerAtMeta.upstreamOperation.getD Document.empty)
      { Kind := NodeKind.SelectionSet, Ref := 1 } { SelectionRefs := [1] } "meta"
      rfl rfl rfl rfl rfl (by decide)
  refine ⟨hb, p2, ?_, h8, ?_⟩
  · rw [List.cons_append, Planner.walk, h1]
    simp only
    rw [walk_append, h5 walkBelowMeta hb, Option.some_bind, Planner.walk, h6]
    rfl
  · rw [h7, Option.map_some', h3]
    rfl

/-- C7, as stated, fails: in `query($id: Int!) { users(first: $id, ids: [$id, $id]) }` the
variable `id` is used by the arguments of `users`, and after `EnterField` the list of
inlined variables holds three entries for it, not exactly one. -/
theorem inlinedVariables_repeated_variable :
    (Factory.Planner.walk exampleLibrary repeatedVisitor repeatedWalk).map
        (fun p => p.inlinedVariables) =
      some [{ name := "id", typeRef := 1, isJSON := false },
            { name := "id", typeRef := 1, isJSON := false },
            { name := "id", typeRef := 1, isJSON := false }] ∧
    ¬ (Factory.Planner.walk exampleLibrary repeatedVisitor repeatedWalk).map
        (fun p => (p.inlinedVariables.filter (fun x => x.name = "id")).length) = some 1 := by
  decide!

theorem findVariableDefinition_found (d : Document) (name : String) :
    ∀ (refs : List Int) (i : Int) (ok : Bool),
      d.findVariableDefinition name refs = some (i, ok) →
      (index d.VariableDefinitions i).isSome = true → ok = true
  | [], i, ok, h, hi => by
    rw [Document.findVariableDefinition] at h
    cases h
    simp [index] at hi
  | r :: rest, i, ok, h, hi => by
    rw [Document.findVariableDefinition] at h
    split at h
    · cases h
    · split_ifs at h
      · cases h
        rfl
      · exact findVariableDefinition_found d name rest i ok h hi

/-- A variable definition that `VariableDefinitionByNameAndOperation` returns and that
is in the document was found (`exists` is true). -/
theorem VariableDefinitionByNameAndOperation_found {d : Document} {operation : Int}
    {name : String} (i : Int) (ok : Bool)
    (h : d.VariableDefinitionByNameAndOperation operation name = some (i, ok))
    (hi : (index d.VariableDefinitions i).isSome = true) : ok = true := by
  unfold Document.VariableDefinitionByNameAndOperation at h
  split at h
  · cases h
  · split_ifs at h
    · cases h
      simp [index] at hi
    · exact findVariableDefinition_found d name _ i ok h hi

theorem inlinedEntry_name {p : Planner} {v : Visitor} {name : String} {entry : inlinedVariable}
    (h : p.inlinedEntry v name = some entry) : entry.name = name := by
  unfold Planner.inlinedEntry at h
  simp only [Option.bind_eq_bind, Option.bind_eq_some] at h
  obtain ⟨operation, _, found, _, definition, _, typeName, _, h⟩ := h
  cases h
  rfl

/-- When every variable has an entry, the entries are made one per variable, in order. -/
theorem mapM_inlinedEntry (p : Planner) (v : Visitor) :
    ∀ names : List String, (∀ name ∈ names, (p.inlinedEntry v name).isSome = true) →
      ∃ entries, names.mapM (p.inlinedEntry v) = some entries ∧
        entries.map (fun entry => entry.name) = names
  | [], _ => ⟨[], by rw [List.mapM_nil]; rfl, rfl⟩
  | name :: rest, h => by
    obtain ⟨entries, he, hn⟩ :=
      mapM_inlinedEntry p v rest (fun x hx => h x (List.mem_cons_of_mem _ hx))
    have h1 := h name (List.mem_cons_self _ _)
    rw [Option.isSome_iff_exists] at h1
    obtain ⟨entry, hentry⟩ := h1
    refine ⟨entry :: entries, ?_, ?_⟩
    · rw [List.mapM_cons, hentry, he]
      rfl
    · rw [List.map_cons, hn, inlinedEntry_name hentry]

/-- C7, amended: for an argument that the planner takes from the field arguments, the
list of inlined variables gets one entry per occurrence of a downstream variable in the
value of the argument, in order of occurrence (one entry when the value is a variable,
one per occurrence inside a literal object or list): a variable that occurs several
times has several entries, which are not collapsed in the list. -/
theorem inlinedVariables_one_per_occurrence (p : Planner) (v : Visitor)
    (upstreamFieldRef downstreamFieldRef : Int) (argumentName : String) (sourcePath : List String)
    (fieldArgument : Int) (value : Value) (upstream : Document) (field : Field)
    (harg : v.Operation.FieldArgument downstreamFieldRef argumentName = some (fieldArgument, true))
    (hvalue : v.Operation.ArgumentValue fieldArgument = some value)
    (hup : p.upstreamOperation = some upstream)
    (hfield : index upstream.Fields upstreamFieldRef = some field)
    (hdefined : ∀ name ∈ variablesOf value, (p.inlinedEntry v name).isSome = true) :
    ∃ p' entries,
      p.configureFieldArgumentSource v upstreamFieldRef downstreamFieldRef argumentName sourcePath =
        some p' ∧
      p'.inlinedVariables = p.inlinedVariables ++ entries ∧
      entries.map (fun entry => entry.name) = variablesOf value ∧
      ∀ name, (entries.filter (fun entry => entry.name = name)).length =
        (variablesOf value).count name := by
  obtain ⟨entries, hentries, hnames⟩ := mapM_inlinedEntry p v (variablesOf value) hdefined
  have hcount : ∀ name, (entries.filter (fun entry => entry.name = name)).length =
      (variablesOf value).count name := by
    intro name
    rw [← hnames, List.count_eq_countP, List.countP_map, List.countP_eq_length_filter]
    congr 1
  have hadd : ∀ (d : Document) (argRef : Int),
      d.Fields = upstream.Fields → (d.AddArgumentToField upstreamFieldRef argRef).isSome = true := by
    intro d argRef hd
    simp [Document.AddArgumentToField, modifyAt, hd, hfield]
  have hcongr : ∀ q : Planner, q.config = p.config → q.inlinedEntry v = p.inlinedEntry v :=
    fun q h => funext (inlinedEntry_congr v h)
  unfold Planner.configureFieldArgumentSource
  simp only [Option.bind_eq_bind, harg, Option.some_bind, Bool.not_true, Bool.false_eq_true,
    if_false, hvalue]
  cases value with
  | Variable name =>
    simp only
    have hname : name ∈ variablesOf (Value.Variable name) := by
      rw [variablesOf]
      exact List.mem_singleton_self name
    have hsome := hdefined name hname
    rw [Option.isSome_iff_exists] at hsome
    obtain ⟨entry, hentry⟩ := hsome
    have hentry' := hentry
    unfold Planner.inlinedEntry at hentry
    simp only [Option.bind_eq_bind, Option.bind_eq_some] at hentry
    obtain ⟨operation, hop, found, hfound, definition, hdef, typeName, htype, hentry⟩ := hentry
    have hok : found.2 = true :=
      VariableDefinitionByNameAndOperation_found found.1 found.2 hfound
        (by rw [hdef]; rfl)
    obtain ⟨upstream', hupstream'⟩ := Option.isSome_iff_exists.1
      (hadd (upstream.AddVariableValueArgument argumentName name).1
        (upstream.AddVariableValueArgument argumentName name).2.2 rfl)
    rw [variablesOf, List.mapM_cons, hentry', List.mapM_nil] at hentries
    cases hentries
    refine ⟨{ p with upstreamOperation := some upstream',
                      inlinedVariables := p.inlinedVariables ++ [entry] }, [entry], ?_, rfl, hnames, hcount⟩
    simp only [hop, Option.some_bind, hfound, hok, Bool.not_true, Bool.false_eq_true, if_false,
      hdef, hup, hupstream', htype]
    cases hentry
    rfl
  | Object fields =>
    obtain ⟨upstream', hupstream'⟩ := Option.isSome_iff_exists.1
      (hadd (upstream.AddArgument { Name := argumentName, Value := Value.Object fields }).1
        (upstream.AddArgument { Name := argumentName, Value := Value.Object fields }).2 rfl)
    refine ⟨{ p with upstreamOperation := some upstream',
                      inlinedVariables := p.inlinedVariables ++ entries }, entries, ?_, rfl, hnames, hcount⟩
    simp only [Planner.applyInlineFieldArgument, Option.bind_eq_bind, harg, Option.some_bind,
      Bool.not_true, Bool.false_eq_true, if_false, hvalue, hup, hupstream',
      addVariableDefinitionsRecursively_eq]
    rw [hcongr { p with upstreamOperation := some upstream' } rfl, hentries]
    rfl
  | List values =>
    obtain ⟨upstream', hupstream'⟩ := Option.isSome_iff_exists.1
      (hadd (upstream.AddArgument { Name := argumentName, Value := Value.List values }).1
        (upstream.AddArgument { Name := argumentName, Value := Value.List values }).2 rfl)
    refine ⟨{ p with upstreamOperation := some upstream',
                      inlinedVariables := p.inlinedVariables ++ entries }, entries, ?_, rfl, hnames, hcount⟩
    simp only [Planner.applyInlineFieldArgument, Option.bind_eq_bind, harg, Option.some_bind,
      Bool.not_true, Bool.false_eq_true, if_false, hvalue, hup, hupstream',
      addVariableDefinitionsRecursively_eq]
    rw [hcongr { p with upstreamOperation := some upstream' } rfl, hentries]
    rfl
  | Scalar raw =>
    obtain ⟨upstream', hupstream'⟩ := Option.isSome_iff_exists.1
      (hadd (upstream.AddArgument { Name := argumentName, Value := Value.Scalar raw }).1
        (upstream.AddArgument { Name := argumentName, Value := Value.Scalar raw }).2 rfl)
    refine ⟨{ p with upstreamOperation := some upstream',
                      inlinedVariables := p.inlinedVariables ++ entries }, entries, ?_, rfl, hnames, hcount⟩
    simp only [Planner.applyInlineFieldArgument, Option.bind_eq_bind, harg, Option.some_bind,
      Bool.not_true, Bool.false_eq_true, if_false, hvalue, hup, hupstream',
      addVariableDefinitionsRecursively_eq]
    rw [hcongr { p with upstreamOperation := some upstream' } rfl, hentries]
    rfl

/-- C7, amended, on the argument `ids: [$id, $id]` of the field `users`: two entries. -/
theorem inlinedVariables_one_per_occurrence_witness :
    variablesOf (Value.List [Value.Variable "id", Value.Variable "id"]) = ["id", "id"] ∧
    ∃ p' entries,
      plannerInUsers.configureFieldArgumentSource repeatedVisitorAtQuery 0 0 "ids" [] = some p' ∧
      p'.inlinedVariables = plannerInUsers.inlinedVariables ++ entries ∧
      entries.map (fun entry => entry.name) =
        variablesOf (Value.List [Value.Variable "id", Value.Variable "id"]) ∧
      ∀ name, (entries.filter (fun entry => entry.name = name)).length =
        (variablesOf (Value.List [Value.Variable "id", Value.Variable "id"])).count name :=
  ⟨by decide,
    inlinedVariables_one_per_occurrence plannerInUsers repeatedVisitorAtQuery 0 0 "ids" [] 1
      (Value.List [Value.Variable "id", Value.Variable "id"])
      (plannerInUsers.upstreamOperation.getD Document.empty) { Name := "users" }
      rfl rfl rfl rfl (by decide!)⟩

/-- The loop of `DownstreamResponseFieldAlias` stops at the first configuration of the
type and field that has a one-element path. -/
theorem aliasLoop_eq (typeName fieldName : String) :
    ∀ fields : List FieldConfiguration,
      aliasLoop typeName fieldName fields =
        match fields.find? (fun c =>
            decide (c.TypeName = typeName ∧ c.FieldName = fieldName ∧ c.Path.length = 1)) with
        | some c => if c.Path[0]? ≠ some fieldName then (fieldName, true) else ("", false)
        | none => ("", false)
  | [] => by
    rw [aliasLoop]
    rfl
  | c :: rest => by
    rw [aliasLoop]
    by_cases h : c.TypeName = typeName ∧ c.FieldName = fieldName ∧ c.Path.length = 1
    · rw [if_pos h, List.find?_cons_of_pos _ (by simpa using h)]
    · rw [if_neg h, List.find?_cons_of_neg _ (by simpa using h)]
      exact aliasLoop_eq typeName fieldName rest

/-- C8: `DownstreamResponseFieldAlias` returns the downstream field name and `true`
exactly when the downstream field has no alias and the first field configuration that
matches the enclosing type name and the field name with a single-element path has a
path element different from the field name; in every other case (alias defined, no such
configuration, path element equal to the field name) it returns the empty string and
`false`. -/
theorem DownstreamResponseFieldAlias_spec (p : Planner) (v : Visitor) (downstreamFieldRef : Int)
    (field : Field) (hfield : index v.Operation.Fields downstreamFieldRef = some field) :
    ∃ result, p.DownstreamResponseFieldAlias v downstreamFieldRef = some result ∧
      (result = (field.Name, true) ↔
        field.Alias.IsDefined = false ∧
        ∃ c element,
          v.Fields.find? (fun c => decide (c.TypeName = v.Walker.EnclosingTypeDefinition ∧
              c.FieldName = field.Name ∧ c.Path.length = 1)) = some c ∧
          c.Path = [element] ∧ element ≠ field.Name) ∧
      (result ≠ (field.Name, true) → result = ("", false)) := by
  unfold Planner.DownstreamResponseFieldAlias Document.FieldNameString Document.FieldAliasIsDefined
  simp only [hfield, Option.map_some', Option.bind_eq_bind, Option.some_bind, aliasLoop_eq]
  by_cases halias : field.Alias.IsDefined = true
  · rw [if_pos halias]
    refine ⟨_, rfl, ?_, fun _ => rfl⟩
    constructor
    · intro h
      cases (Prod.mk.inj h).2
    · rintro ⟨h, -⟩
      rw [halias] at h
      cases h
  · rw [if_neg halias]
    have hfalse : field.Alias.IsDefined = false := by
      cases hd : field.Alias.IsDefined
      · rfl
      · exact absurd hd halias
    cases hfind : v.Fields.find? (fun c => decide (c.TypeName = v.Walker.EnclosingTypeDefinition ∧
        c.FieldName = field.Name ∧ c.Path.length = 1)) with
    | none =>
      refine ⟨_, rfl, ?_, fun _ => rfl⟩
      constructor
      · intro h
        cases (Prod.mk.inj h).2
      · rintro ⟨-, c, element, hc, -⟩
        cases hc
    | some c =>
      have hc := List.find?_some hfind
      simp only [decide_eq_true_eq] at hc
      obtain ⟨element, hpath⟩ : ∃ element, c.Path = [element] := List.length_eq_one.1 hc.2.2
      by_cases hel : element = field.Name
      · refine ⟨("", false), ?_, ?_, fun _ => rfl⟩
        · simp [hpath, hel]
        · constructor
          · intro h
            cases (Prod.mk.inj h).2
          · rintro ⟨-, c', element', hc', hpath', hne⟩
            cases hc'
            rw [hpath] at hpath'
            cases hpath'
            exact absurd hel hne
      · refine ⟨(field.Name, true), ?_, ?_, fun h => absurd rfl h⟩
        · simp [hpath, hel]
        · constructor
          · intro _
            exact ⟨hfalse, c, element, rfl, hpath, hel⟩
          · intro _
            rfl

/-- C8 on the field `user` of `query { user }`, whose path is configured as
`findFirstUser`: the alias is `user`. -/
theorem DownstreamResponseFieldAlias_spec_witness :
    index aliasVisitor.Operation.Fields 0 = some { Name := "user" } ∧
    Factory.Planner.DownstreamResponseFieldAlias aliasVisitor 0 = some ("user", true) ∧
    ∃ result, Factory.Planner.DownstreamResponseFieldAlias aliasVisitor 0 = some result ∧
      (result = ("user", true) ↔
        false = false ∧
        ∃ c element,
          aliasVisitor.Fields.find? (fun c =>
            decide (c.TypeName = aliasVisitor.Walker.EnclosingTypeDefinition ∧
              c.FieldName = "user" ∧ c.Path.length = 1)) = some c ∧
          c.Path = [element] ∧ element ≠ "user") ∧
      (result ≠ ("user", true) → result = ("", false)) :=
  ⟨rfl, by decide,
    DownstreamResponseFieldAlias_spec Factory.Planner aliasVisitor 0 { Name := "user" } rfl⟩

/-! ## Registration and the engine registry -/

/-- C10: `Register` fails exactly when the configuration blob is malformed (the decoder
of `json.Unmarshal` rejects it); when it succeeds on a planner made by the factory,
`CloseTimeoutSeconds` is 10 if the configured value was 0 or absent and the configured
value otherwise, so it is never 0 after a successful `Register`. -/
theorem Register_spec (decode : List Nat → Except String ConfigurationJSON) (custom : List Nat)
    (isNested : Bool) :
    ((∃ err, Factory.Planner.Register decode custom isNested = Except.error err) ↔
      ∃ err, decode custom = Except.error err) ∧
    ∀ members, decode custom = Except.ok members →
      ∃ p, Factory.Planner.Register decode custom isNested = Except.ok p ∧
        p.config.CloseTimeoutSeconds =
          (match members.CloseTimeoutSeconds with
           | none => 10
           | some configured => if configured = 0 then 10 else configured) ∧
        p.config.CloseTimeoutSeconds ≠ 0 ∧ p.isNested = isNested := by
  unfold Planner.Register Unmarshal
  cases hd : decode custom with
  | error err =>
    refine ⟨⟨fun _ => ⟨err, rfl⟩, fun _ => ⟨err, rfl⟩⟩, ?_⟩
    intro members h
    cases h
  | ok members =>
    refine ⟨⟨?_, ?_⟩, ?_⟩
    · rintro ⟨err, h⟩
      cases h
    · rintro ⟨err, h⟩
      cases h
    · intro members' h
      cases h
      refine ⟨_, rfl, ?_, ?_, rfl⟩
      · cases hc : members.CloseTimeoutSeconds with
        | none => simp [Factory.Planner]
        | some configured =>
          by_cases h0 : configured = 0
          · simp [h0]
          · simp [h0]
      · simp only
        split_ifs with h0
        · simp
        · exact h0

/-- C10 on three blobs: a malformed one, an object without `CloseTimeoutSeconds`, and an
object that sets it to 30. -/
theorem Register_spec_witness :
    exampleDecode (bytesOf "\x7b\x7d") = Except.ok {} ∧
    (Factory.Planner.Register exampleDecode (bytesOf "\x7b") false).toOption.isNone = true ∧
    ((Factory.Planner.Register exampleDecode
        (bytesOf "\x7b\"CloseTimeoutSeconds\":30\x7d") false).toOption.map
      (fun p => p.config.CloseTimeoutSeconds)) = some 30 ∧
    ∃ p, Factory.Planner.Register exampleDecode (bytesOf "\x7b\x7d") false = Except.ok p ∧
      p.config.CloseTimeoutSeconds = 10 ∧ p.config.CloseTimeoutSeconds ≠ 0 ∧
      p.isNested = false :=
  ⟨rfl, by decide, by decide,
    (Register_spec exampleDecode (bytesOf "\x7b\x7d") false).2 {} rfl⟩

/-- The engine that the registry holds for a schema. -/
theorem lookup_cons_ne {k k' : String} {e : Nat} (l : List (String × Nat)) (h : k' ≠ k) :
    List.lookup k' ((k, e) :: l) = List.lookup k' l := by
  rw [List.lookup_cons]
  have : (k' == k) = false := by simpa using h
  rw [this]

theorem Engine_hit {f : LazyEngineFactory} {s : String} {e : Nat} (h : f.lookup s = some e)
    (w : String) (t : Int) : f.Engine s w t = (f, e) := by
  unfold LazyEngineFactory.lookup at h
  cases hm : f.engines with
  | none =>
    rw [hm] at h
    simp at h
  | some m =>
    rw [hm] at h
    simp only [Option.getD_some] at h
    simp [LazyEngineFactory.Engine, hm, h]

theorem Engine_miss {f : LazyEngineFactory} {s : String} (h : f.lookup s = none)
    (w : String) (t : Int) :
    f.Engine s w t =
      ({ engines := some ((s, f.heap.length) :: f.engines.getD []),
         heap := f.heap ++ [{ prismaSchema := s, wundergraphDir := w, closeTimeoutSeconds := t }],
         supervisors := f.supervisors ++ [f.heap.length] }, f.heap.length) := by
  unfold LazyEngineFactory.lookup at h
  cases hm : f.engines with
  | none => simp [LazyEngineFactory.Engine, hm]
  | some m =>
    rw [hm] at h
    simp only [Option.getD_some] at h
    simp [LazyEngineFactory.Engine, hm, h]

/-- One call of `Engine` keeps the invariant and the entries of the map, and returns
the entry of the schema in the map after the call. -/
theorem Engine_step {f : LazyEngineFactory} (hf : f.WellFormed) (s w : String) (t : Int) :
    (f.Engine s w t).1.WellFormed ∧
      (∀ s' e, f.lookup s' = some e → (f.Engine s w t).1.lookup s' = some e) ∧
      (f.Engine s w t).1.lookup s = some (f.Engine s w t).2 := by
  obtain ⟨hA, hB, hC⟩ := hf
  cases hl : f.lookup s with
  | some e =>
    rw [Engine_hit hl]
    exact ⟨⟨hA, hB, hC⟩, fun _ _ h => h, hl⟩
  | none =>
    rw [Engine_miss hl]
    have hlook : ∀ s', LazyEngineFactory.lookup
        { engines := some ((s, f.heap.length) :: f.engines.getD []),
          heap := f.heap ++ [{ prismaSchema := s, wundergraphDir := w, closeTimeoutSeconds := t }],
          supervisors := f.supervisors ++ [f.heap.length] } s' =
        if s' = s then some f.heap.length else f.lookup s' := by
      intro s'
      unfold LazyEngineFactory.lookup
      simp only [Option.getD_some]
      by_cases hs : s' = s
      · subst hs
        simp [List.lookup_cons]
      · rw [if_neg hs, lookup_cons_ne _ hs]
    have hschema : ∀ e, LazyEngineFactory.schemaOf
        { engines := some ((s, f.heap.length) :: f.engines.getD []),
          heap := f.heap ++ [{ prismaSchema := s, wundergraphDir := w, closeTimeoutSeconds := t }],
          supervisors := f.supervisors ++ [f.heap.length] } e =
        if e < f.heap.length then f.schemaOf e
        else if e = f.heap.length then some s else none := by
      intro e
      unfold LazyEngineFactory.schemaOf
      simp only
      by_cases h1 : e < f.heap.length
      · rw [if_pos h1, List.getElem?_append_left h1]
      · rw [if_neg h1]
        by_cases h2 : e = f.heap.length
        · rw [if_pos h2, h2, List.getElem?_append_right (le_refl _)]
          simp
        · rw [if_neg h2, List.getElem?_eq_none]
          · rfl
          · simp only [List.length_append, List.length_singleton]
            omega
    have hlt : ∀ s' e, f.lookup s' = some e → e < f.heap.length := by
      intro s' e h
      have h1 := hB s' e h
      unfold LazyEngineFactory.schemaOf at h1
      by_contra hcon
      rw [List.getElem?_eq_none (by omega)] at h1
      cases h1
    refine ⟨⟨?_, ?_, ?_⟩, ?_, ?_⟩
    · simp only [List.length_append, List.length_singleton]
      rw [List.range_succ, hA]
    · intro s' e h
      rw [hlook] at h
      rw [hschema]
      by_cases hs : s' = s
      · rw [if_pos hs] at h
        cases h
        simp [hs]
      · rw [if_neg hs] at h
        rw [if_pos (hlt s' e h)]
        exact hB s' e h
    · intro e he
      simp only [List.length_append, List.length_singleton] at he
      by_cases h1 : e < f.heap.length
      · obtain ⟨s', hs1, hs2⟩ := hC e h1
        refine ⟨s', ?_, ?_⟩
        · rw [hschema, if_pos h1]
          exact hs1
        · rw [hlook]
          have hne : s' ≠ s := by
            intro heq
            rw [heq, hl] at hs2
            cases hs2
          rw [if_neg hne]
          exact hs2
      · have h2 : e = f.heap.length := by omega
        refine ⟨s, ?_, ?_⟩
        · rw [hschema, if_neg h1, if_pos h2]
        · rw [hlook, if_pos rfl, h2]
    · intro s' e h
      rw [hlook]
      have hne : s' ≠ s := by
        intro heq
        rw [heq, hl] at h
        cases h
      rw [if_neg hne]
      exact h
    · rw [hlook, if_pos rfl]

/-- A sequence of `Engine` calls keeps the invariant and the entries of the map, and
every call returns the entry of its schema in the map after the calls. -/
theorem EngineCalls_spec :
    ∀ (calls : List (String × String × Int)) (f : LazyEngineFactory), f.WellFormed →
      (LazyEngineFactory.EngineCalls f calls).1.WellFormed ∧
      (∀ s e, f.lookup s = some e → (LazyEngineFactory.EngineCalls f calls).1.lookup s = some e) ∧
      (LazyEngineFactory.EngineCalls f calls).2.length = calls.length ∧
      ∀ c e, (c, e) ∈ calls.zip (LazyEngineFactory.EngineCalls f calls).2 →
        (LazyEngineFactory.EngineCalls f calls).1.lookup c.1 = some e
  | [], f, hf => by
    rw [LazyEngineFactory.EngineCalls]
    exact ⟨hf, fun _ _ h => h, rfl, fun c e h => by simp at h⟩
  | (s, w, t) :: rest, f, hf => by
    obtain ⟨h1, h2, h3⟩ := Engine_step hf s w t
    obtain ⟨r1, r2, r3, r4⟩ := EngineCalls_spec rest (f.Engine s w t).1 h1
    rw [LazyEngineFactory.EngineCalls]
    refine ⟨r1, fun s' e h => r2 s' e (h2 s' e h), by simp [r3], ?_⟩
    intro c e hc
    simp only [List.zip_cons_cons, List.mem_cons] at hc
    rcases hc with hc | hc
    · cases hc
      exact r2 s _ h3
    · exact r4 c e hc

theorem wellFormed_empty : LazyEngineFactory.WellFormed {} := by
  refine ⟨rfl, ?_, ?_⟩
  · intro s e h
    simp [LazyEngineFactory.lookup] at h
  · intro e he
    simp at he

/-- C9: the engine registry holds exactly one supervisor per distinct schema string. For
every sequence of `Engine` calls on a new factory, two calls return the same engine if
and only if they have the same schema; no supervisor is started twice, and for every
schema that was asked for there is exactly one supervisor, on the engine of that schema;
a further call with a schema already asked for returns its engine again and leaves the
factory as it is (no entry, no engine, no supervisor is added), whatever
`wundergraphDir` and `closeTimeoutSeconds` it passes. -/
theorem Engine_one_supervisor_per_schema (calls : List (String × String × Int)) :
    (LazyEngineFactory.EngineCalls {} calls).2.length = calls.length ∧
    (∀ c1 e1 c2 e2, (c1, e1) ∈ calls.zip (LazyEngineFactory.EngineCalls {} calls).2 →
      (c2, e2) ∈ calls.zip (LazyEngineFactory.EngineCalls {} calls).2 →
      (c1.1 = c2.1 ↔ e1 = e2)) ∧
    (LazyEngineFactory.EngineCalls {} calls).1.supervisors.Nodup ∧
    (∀ c ∈ calls, ∃! e, e ∈ (LazyEngineFactory.EngineCalls {} calls).1.supervisors ∧
      (LazyEngineFactory.EngineCalls {} calls).1.schemaOf e = some c.1) ∧
    (∀ c e, (c, e) ∈ calls.zip (LazyEngineFactory.EngineCalls {} calls).2 →
      ∀ (wundergraphDir : String) (closeTimeoutSeconds : Int),
        (LazyEngineFactory.EngineCalls {} calls).1.Engine c.1 wundergraphDir closeTimeoutSeconds =
          ((LazyEngineFactory.EngineCalls {} calls).1, e)) := by
  obtain ⟨⟨hA, hB, hC⟩, -, hlen, hzip⟩ := EngineCalls_spec calls {} wellFormed_empty
  have hlt : ∀ s e, (LazyEngineFactory.EngineCalls {} calls).1.lookup s = some e →
      e < (LazyEngineFactory.EngineCalls {} calls).1.heap.length := by
    intro s e h
    have h1 := hB s e h
    unfold LazyEngineFactory.schemaOf at h1
    by_contra hcon
    rw [List.getElem?_eq_none (by omega)] at h1
    cases h1
  refine ⟨hlen, ?_, ?_, ?_, ?_⟩
  · intro c1 e1 c2 e2 h1 h2
    have l1 := hzip c1 e1 h1
    have l2 := hzip c2 e2 h2
    constructor
    · intro hs
      rw [hs, l2] at l1
      exact (Option.some.inj l1).symm
    · intro he
      have s1 := hB _ _ l1
      have s2 := hB _ _ l2
      rw [he, s2] at s1
      exact (Option.some.inj s1).symm
  · rw [hA]
    exact List.nodup_range _
  · intro c hc
    obtain ⟨i, hi, hci⟩ := List.getElem_of_mem hc
    have hi' : i < (LazyEngineFactory.EngineCalls {} calls).2.length := by omega
    have hmem : (c, (LazyEngineFactory.EngineCalls {} calls).2[i]) ∈
        calls.zip (LazyEngineFactory.EngineCalls {} calls).2 := by
      rw [List.mem_iff_getElem]
      refine ⟨i, by simp [List.length_zip, hlen, hi], ?_⟩
      rw [List.getElem_zip, hci]
    have hl := hzip _ _ hmem
    refine ⟨_, ⟨?_, hB _ _ hl⟩, ?_⟩
    · rw [hA, List.mem_range]
      exact hlt _ _ hl
    · rintro e' ⟨he1, he2⟩
      rw [hA, List.mem_range] at he1
      obtain ⟨s, hs1, hs2⟩ := hC e' he1
      rw [he2] at hs1
      cases hs1
      rw [hl] at hs2
      exact (Option.some.inj hs2).symm
  · intro c e hc w t
    exact Engine_hit (hzip c e hc) w t

/-- C9 on three calls, the third with the schema of the first: it returns the engine of
the first call, and two engines and two supervisors are made. -/
theorem Engine_one_supervisor_per_schema_witness :
    (LazyEngineFactory.EngineCalls {} exampleCalls).2 = [0, 1, 0] ∧
    (LazyEngineFactory.EngineCalls {} exampleCalls).1.supervisors = [0, 1] ∧
    ((LazyEngineFactory.EngineCalls {} exampleCalls).1.heap.map (fun e => e.prismaSchema)) =
      ["schema a", "schema b"] ∧
    (("schema a", "dir 1", 10), 0) ∈
      exampleCalls.zip (LazyEngineFactory.EngineCalls {} exampleCalls).2 ∧
    (("schema a", "dir 2", 20), 0) ∈
      exampleCalls.zip (LazyEngineFactory.EngineCalls {} exampleCalls).2 ∧
    (("schema a" : String) = "schema a" ↔ (0 : Nat) = 0) :=
  ⟨by decide, by decide, by decide, by decide, by decide,
    (Engine_one_supervisor_per_schema exampleCalls).2.1
      ("schema a", "dir 1", 10) 0 ("schema a", "dir 2", 20) 0 (by decide) (by decide)⟩

/-! ## One stripping step -/

theorem occurrences_pairwise (s sep : List Nat) :
    (occurrences s sep).Pairwise (fun a b => a < b) :=
  (List.pairwise_lt_range _).filter _

theorem head_le_of_pairwise {l : List Nat} {a : Nat} (hl : l.Pairwise (fun a b => a < b))
    (h : l.head? = some a) : ∀ x ∈ l, a ≤ x := by
  obtain ⟨ys, rfl⟩ := List.head?_eq_some_iff.1 h
  intro x hx
  rcases List.mem_cons.1 hx with hx | hx
  · omega
  · exact Nat.le_of_lt (List.rel_of_pairwise_cons hl hx)

theorem le_getLast_of_pairwise {l : List Nat} {a : Nat} (hl : l.Pairwise (fun a b => a < b))
    (h : l.getLast? = some a) : ∀ x ∈ l, x ≤ a := by
  obtain ⟨ys, rfl⟩ := List.getLast?_eq_some_iff.1 h
  intro x hx
  rcases List.mem_append.1 hx with hx | hx
  · exact Nat.le_of_lt ((List.pairwise_append.1 hl).2.2 x hx a (List.mem_singleton_self a))
  · rw [List.mem_singleton] at hx
    omega

/-- `bytes.Index` is the index of the first occurrence. -/
theorem bytesIndex_first {s sep : List Nat} {e : Nat} (he : e ∈ occurrences s sep)
    (hfirst : ∀ i, i < e → i ∉ occurrences s sep) : bytesIndex s sep = (e : Int) := by
  unfold bytesIndex
  cases h : (occurrences s sep).head? with
  | none =>
    rw [List.head?_eq_none_iff] at h
    rw [h] at he
    cases he
  | some a =>
    have ha : a ∈ occurrences s sep := List.mem_of_mem_head? h
    have hle := head_le_of_pairwise (occurrences_pairwise s sep) h e he
    have hge : ¬ a < e := fun hlt => hfirst a hlt ha
    have : a = e := by omega
    rw [this]

/-- An occurrence of a one-byte separator is an index that holds the byte. -/
theorem mem_occurrences_singleton {t : List Nat} {c i : Nat} :
    i ∈ occurrences t [c] ↔ t[i]? = some c := by
  rw [mem_occurrences]
  constructor
  · rintro ⟨-, rest, hrest⟩
    have h1 : (t.drop i)[0]? = some c := by
      rw [← hrest]
      simp
    rw [List.getElem?_drop] at h1
    exact h1
  · intro h
    have hlt : i < t.length := by
      by_contra hcon
      rw [List.getElem?_eq_none (by omega)] at h
      cases h
    refine ⟨by omega, ?_⟩
    have h1 : t.drop i = c :: t.drop (i + 1) := by
      rw [List.drop_eq_getElem_cons hlt]
      congr 1
      rw [List.getElem?_eq_getElem hlt] at h
      exact Option.some.inj h
    rw [h1]
    exact ⟨t.drop (i + 1), rfl⟩

/-- `bytes.LastIndex` on a one-byte separator is the greatest index that holds the byte,
or `-1`. -/
theorem bytesLastIndex_greatest (t : List Nat) (c : Nat) :
    (bytesLastIndex t [c] = -1 ∨ ∃ a : Nat, bytesLastIndex t [c] = (a : Int) ∧ t[a]? = some c) ∧
    ∀ i : Nat, t[i]? = some c → (i : Int) ≤ bytesLastIndex t [c] := by
  unfold bytesLastIndex
  cases h : (occurrences t [c]).getLast? with
  | none =>
    refine ⟨Or.inl rfl, ?_⟩
    intro i hi
    rw [List.getLast?_eq_none_iff] at h
    have := mem_occurrences_singleton.2 hi
    rw [h] at this
    cases this
  | some a =>
    refine ⟨Or.inr ⟨a, rfl, mem_occurrences_singleton.1 (List.mem_of_mem_getLast? h)⟩, ?_⟩
    intro i hi
    have := le_getLast_of_pairwise (occurrences_pairwise t [c]) h i
      (mem_occurrences_singleton.2 hi)
    simp only
    omega

theorem le_max (a b c d : Int) :
    a ≤ max a b c d ∧ b ≤ max a b c d ∧ c ≤ max a b c d ∧ d ≤ max a b c d := by
  unfold max
  split_ifs <;> omega

theorem delimiters_eq : delimiters = [123, 40, 44, 32] := by decide

/-- The index `start` of the source is the greatest index below `end` that holds a
delimiter, or `-1`. -/
theorem unNullStart_greatest {request : List Nat} {e : Nat} {s : Int}
    (hs : greatestDelimiterBelow request e s) : unNullStart request e = s := by
  obtain ⟨hs1, hs2⟩ := hs
  unfold unNullStart
  simp only [Int.toNat_ofNat, bytesOf_brace, bytesOf_paren, bytesOf_comma, bytesOf_space]
  have htake : ∀ i c, (request.take e)[i]? = some c → i < e ∧ request[i]? = some c := by
    intro i c h
    rw [List.getElem?_take] at h
    split_ifs at h with hlt
    exact ⟨hlt, h⟩
  have hupper : ∀ c, c ∈ delimiters → bytesLastIndex (request.take e) [c] ≤ s := by
    intro c hc
    rcases (bytesLastIndex_greatest (request.take e) c).1 with h | ⟨a, h, ha⟩
    · rw [h]
      rcases hs1 with h1 | ⟨i, h1, -, -⟩ <;> omega
    · rw [h]
      obtain ⟨hlt, hreq⟩ := htake a c ha
      by_contra hcon
      exact hs2 a hlt (by omega) ⟨c, hc, hreq⟩
  have hmem : ∀ c, c ∈ delimiters ↔ c = 123 ∨ c = 40 ∨ c = 44 ∨ c = 32 := by
    intro c
    rw [delimiters_eq]
    simp
  have h1 := hupper 123 ((hmem 123).2 (by simp))
  have h2 := hupper 40 ((hmem 40).2 (by simp))
  have h3 := hupper 44 ((hmem 44).2 (by simp))
  have h4 := hupper 32 ((hmem 32).2 (by simp))
  have hle := le_max (bytesLastIndex (request.take e) [123]) (bytesLastIndex (request.take e) [40])
    (bytesLastIndex (request.take e) [44]) (bytesLastIndex (request.take e) [32])
  have hup : max (bytesLastIndex (request.take e) [123]) (bytesLastIndex (request.take e) [40])
      (bytesLastIndex (request.take e) [44]) (bytesLastIndex (request.take e) [32]) ≤ s := by
    rcases max_cases (bytesLastIndex (request.take e) [123]) (bytesLastIndex (request.take e) [40])
      (bytesLastIndex (request.take e) [44]) (bytesLastIndex (request.take e) [32])
      with h | h | h | h <;> rw [h] <;> assumption
  have hlow : s ≤ max (bytesLastIndex (request.take e) [123]) (bytesLastIndex (request.take e) [40])
      (bytesLastIndex (request.take e) [44]) (bytesLastIndex (request.take e) [32]) := by
    rcases hs1 with h | ⟨i, hi, hlt, c, hc, hreq⟩
    · have := (bytesLastIndex_range (request.take e) 123).1
      omega
    · have hget : (request.take e)[i]? = some c := by
        rw [List.getElem?_take, if_pos hlt]
        exact hreq
      have hge := (bytesLastIndex_greatest (request.take e) c).2 i hget
      rcases (hmem c).1 hc with rfl | rfl | rfl | rfl <;> omega
  omega

/-- What one step does on the first occurrence of `: null`. -/
theorem unNullStep_of_first {request : List Nat} {e : Nat} {s : Int}
    (he : firstNullAt request e) (hs : greatestDelimiterBelow request e s) :
    unNullStep request = some (request.take (s + 1).toNat ++ request.drop (e + 6)) := by
  obtain ⟨hocc, hfirst⟩ := he
  have hlen : e ≤ request.length := by
    by_contra hcon
    rw [List.drop_eq_nil_of_le (by omega)] at hocc
    have := hocc.length_le
    rw [nullLiteral_eq] at this
    simp at this
  have hidx : bytesIndex request nullLiteral = (e : Int) := by
    apply bytesIndex_first (mem_occurrences.2 ⟨hlen, hocc⟩)
    intro i hi hmem
    exact hfirst i hi (mem_occurrences.1 hmem).2
  unfold unNullStep
  simp only [hidx]
  rw [if_pos (by omega), unNullStart_greatest hs]
  have h6 : ((e : Int) + 6).toNat = e + 6 := by omega
  rw [h6]

/-- C16: one stripping step. For every request whose first `: null` occurrence starts at
index `e`, with `s` the greatest index below `e` that holds one of the four delimiters
(`-1` when there is none), `unNullRequest` continues on `request[0..s] ++ request[e+6..]`:
it deletes exactly the bytes from the delimiter plus one through the end of the `null`
literal, keeps the delimiter and keeps every byte after the literal. -/
theorem unNullRequest_one_step (request : List Nat) (e : Nat) (s : Int)
    (he : firstNullAt request e) (hs : greatestDelimiterBelow request e s) :
    unNullStep request = some (request.take (s + 1).toNat ++ request.drop (e + 6)) ∧
    unNullRequest request =
      unNullRequest (request.take (s + 1).toNat ++ request.drop (e + 6)) ∧
    -1 ≤ s ∧ s + 1 ≤ (e : Int) ∧ e + 6 ≤ request.length ∧
    (request.take (s + 1).toNat ++ request.drop (e + 6)).length + (e + 6 - (s + 1).toNat) =
      request.length := by
  have hstep := unNullStep_of_first he hs
  have hs1 : -1 ≤ s ∧ s + 1 ≤ (e : Int) := by
    rcases hs.1 with h | ⟨i, h, hlt, -⟩ <;> omega
  have hlen : e + 6 ≤ request.length := by
    have h1 := he.1.length_le
    rw [nullLiteral_eq, List.length_drop] at h1
    simp only [List.length_cons, List.length_nil] at h1
    by_contra hcon
    omega
  refine ⟨hstep, ?_, hs1.1, hs1.2, hlen, ?_⟩
  · rw [unNullRequest_eq request, hstep]
  · simp only [List.length_append, List.length_take, List.length_drop]
    omega

/-- C16 on the request of scenario S4: the first `: null` starts at index 24, the nearest
delimiter before it is the brace at index 15, and the step keeps bytes 0 to 15 and the
two closing braces. -/
theorem unNullRequest_one_step_witness :
    firstNullAt s4Request 24 ∧ greatestDelimiterBelow s4Request 24 15 ∧
    unNullStep s4Request = some (bytesOf "filter: \x7bname: \x7b\x7d\x7d") ∧
    unNullStep s4Request = some (s4Request.take ((15 : Int) + 1).toNat ++ s4Request.drop (24 + 6)) :=
  ⟨by unfold firstNullAt; decide,
   ⟨Or.inr ⟨15, rfl, by decide, by unfold delimiterAt; decide⟩,
    by unfold delimiterAt; decide⟩,
   by decide,
   (unNullRequest_one_step s4Request 24 15 (by unfold firstNullAt; decide)
     ⟨Or.inr ⟨15, rfl, by decide, by unfold delimiterAt; decide⟩,
      by unfold delimiterAt; decide⟩).1⟩

/-! ## The execution source and the printer: the properties of the specification -/

/-- The loop of `Load` goes through the calls that fail while the context is not done. -/
theorem loadLoop_retries (request : List Nat) :
    ∀ (failed rest : List Attempt) (calls : Nat),
      (∀ x ∈ failed, x.err ≠ none ∧ x.ctxDone = false) →
      Source.loadLoop request (failed ++ rest) calls =
        Source.loadLoop request rest (calls + failed.length)
  | [], rest, calls, _ => by simp
  | x :: failed, rest, calls, h => by
    obtain ⟨h1, h2⟩ := h x (List.mem_cons_self _ _)
    rw [List.cons_append, Source.loadLoop]
    cases hx : x.err with
    | none => exact absurd hx h1
    | some err =>
      simp only [h2, Bool.false_eq_true, if_false]
      rw [loadLoop_retries request failed rest (calls + 1)
        (fun y hy => h y (List.mem_cons_of_mem _ hy)), List.length_cons]
      congr 1
      omega

/-- C14, as stated, fails: when the first `Engine.Execute` call returns the error
`engine closed` and the context is not done, `Load` does not return that error: it makes
a second call, and returns without error when that one succeeds. -/
theorem Load_retries_engine_closed :
    ((closedThenOk.head?).map (fun attempt => (attempt.err, attempt.ctxDone))) =
      some (some "engine closed", false) ∧
    (Source.Load (LoadInput.object inputWithVariables) closedThenOk).map (fun r => (r.calls, r.err)) =
      some (2, none) ∧
    ¬ (Source.Load (LoadInput.object inputWithVariables) closedThenOk).map (fun r => (r.calls, r.err)) =
      some (1, some "engine closed") := by
  decide

/-- C14, amended: `Source.Load` calls `Engine.Execute` again after every error, whatever
the error is (also `engine closed` and a cold-start error), as long as its context is
not done after the failed call; it returns at the first call that either succeeds (no
error, the output is written) or fails with the context done (that error is returned).
So an error is returned to the caller only when the context is done. -/
theorem Load_retries_until_done (input : LoadInput) (failed : List Attempt)
    (last : Attempt) (rest : List Attempt)
    (hfailed : ∀ x ∈ failed, x.err ≠ none ∧ x.ctxDone = false)
    (hlast : last.err = none ∨ last.ctxDone = true) :
    Source.Load input (failed ++ last :: rest) =
      some { request := Source.request input,
             calls := failed.length + 1,
             err := last.err,
             written := if last.err = none then last.output else [] } ∧
    (∀ r, Source.Load input (failed ++ last :: rest) = some r → r.err ≠ none →
      last.ctxDone = true) := by
  have hload : Source.Load input (failed ++ last :: rest) =
      some { request := Source.request input,
             calls := failed.length + 1,
             err := last.err,
             written := if last.err = none then last.output else [] } := by
    unfold Source.Load
    rw [loadLoop_retries _ failed _ 0 hfailed, Source.loadLoop, Nat.zero_add]
    cases hl : last.err with
    | none => simp
    | some err =>
      rcases hlast with h | h
      · rw [hl] at h
        cases h
      · simp [h]
  refine ⟨hload, ?_⟩
  intro r hr hne
  rw [hload] at hr
  cases hr
  rcases hlast with h | h
  · exact absurd h hne
  · exact h

/-- C14, amended, on three calls: `engine closed` and a cold-start error with the context
not done, then a transport error with the context done, which is the one returned. -/
theorem Load_retries_until_done_witness :
    Source.Load (LoadInput.object inputWithVariables)
        ([{ err := some "engine closed" }, { err := some "cold start failed" }] ++
          { err := some "connection refused", ctxDone := true } :: []) =
      some { request := Source.request (LoadInput.object inputWithVariables),
             calls := 3,
             err := some "connection refused",
             written := [] } :=
  (Load_retries_until_done (LoadInput.object inputWithVariables)
    [{ err := some "engine closed" }, { err := some "cold start failed" }]
    { err := some "connection refused", ctxDone := true } [] (by decide) (by decide)).1

theorem lookup_jsonparserSet (setValue : List Nat) (key : String) :
    ∀ data : List (String × List Nat),
      (jsonparserSet data setValue key).lookup key = some setValue
  | [] => by simp [jsonparserSet, List.lookup]
  | member :: rest => by
    rw [jsonparserSet]
    by_cases h : member.1 = key
    · rw [if_pos h]
      simp [List.lookup]
    · rw [if_neg h]
      have hb : (key == member.1) = false := by simpa using Ne.symm h
      rw [List.lookup.eq_2, hb]
      exact lookup_jsonparserSet setValue key rest

theorem lookup_jsonparserSet_other (setValue : List Nat) (key other : String) (h : other ≠ key) :
    ∀ data : List (String × List Nat),
      (jsonparserSet data setValue key).lookup other = data.lookup other
  | [] => by
    have hb : (other == key) = false := by simpa using h
    simp [jsonparserSet, List.lookup, hb]
  | member :: rest => by
    rw [jsonparserSet]
    by_cases hm : member.1 = key
    · rw [if_pos hm]
      have hb : (other == key) = false := by simpa using h
      have hb' : (other == member.1) = false := by simpa [hm] using h
      rw [List.lookup.eq_2, List.lookup.eq_2, hb, hb']
    · rw [if_neg hm, List.lookup.eq_2, List.lookup.eq_2,
        lookup_jsonparserSet_other setValue key other h rest]

/-- C15, as stated, fails: for an input that carries the value `{"a":1}` for `variables`,
the request made by `Load` before null stripping carries `{}`, not that value. -/
theorem Load_overwrites_variables :
    inputWithVariables.lookup "variables" = some (bytesOf "\x7b\"a\":1\x7d") ∧
    (jsonparserSet inputWithVariables (bytesOf "\x7b\x7d") "variables").lookup "variables" =
      some (bytesOf "\x7b\x7d") ∧
    ¬ (jsonparserSet inputWithVariables (bytesOf "\x7b\x7d") "variables").lookup "variables" =
      inputWithVariables.lookup "variables" ∧
    objectBytes (jsonparserSet inputWithVariables (bytesOf "\x7b\x7d") "variables") =
      bytesOf "\x7b\"query\":\"query($a: Int)\x7buser(id: $a)\x7bname\x7d\x7d\",\"variables\":\x7b\x7d\x7d" := by
  decide

/-- The request of the result of `Load` is the request made from the input. -/
theorem loadLoop_request :
    ∀ (attempts : List Attempt) (calls : Nat) (r : LoadResult) (request : List Nat),
      Source.loadLoop request attempts calls = some r → r.request = request
  | [], _, _, _, h => by cases h
  | a :: rest, calls, r, request, h => by
    rw [Source.loadLoop] at h
    cases ha : a.err with
    | none =>
      rw [ha] at h
      cases h
      rfl
    | some err =>
      rw [ha] at h
      by_cases hd : a.ctxDone = true
      · simp only [hd, if_true] at h
        cases h
        rfl
      · simp only [hd, if_false] at h
        exact loadLoop_request rest _ r request h

/-- C15, amended: `Source.Load` sets the member `variables` of the request to `{}`
unconditionally. For every input that is a JSON object, whether it carries a value for
`variables` or not, the request handed to `Engine.Execute` is, before null stripping, the
input with `variables` equal to `{}` and every other member as it was. For every input on
which `jsonparser.Set` fails (it is no JSON object), `Load` drops the error and the
request handed to `Engine.Execute` is empty. -/
theorem Load_sets_variables :
    (∀ members : List (String × List Nat),
      (jsonparserSet members (bytesOf "\x7b\x7d") "variables").lookup "variables" =
        some (bytesOf "\x7b\x7d") ∧
      (∀ other, other ≠ "variables" →
        (jsonparserSet members (bytesOf "\x7b\x7d") "variables").lookup other =
          members.lookup other) ∧
      Source.request (LoadInput.object members) =
        unNullRequest
          (objectBytes (jsonparserSet members (bytesOf "\x7b\x7d") "variables"))) ∧
    (∀ bytes : List Nat,
      ((LoadInput.other bytes).Set (bytesOf "\x7b\x7d") "variables").2.isSome = true ∧
      Source.request (LoadInput.other bytes) = []) ∧
    (∀ (input : LoadInput) (attempts : List Attempt) (r : LoadResult),
      Source.Load input attempts = some r → r.request = Source.request input) := by
  refine ⟨fun members => ⟨lookup_jsonparserSet _ _ members,
    fun other h => lookup_jsonparserSet_other _ _ other h members, rfl⟩,
    fun bytes => ⟨rfl, rfl⟩, ?_⟩
  intro input attempts r hr
  exact loadLoop_request attempts 0 r _ hr

/-- C15, amended, on the input that carries a value for `variables` and on an input that
is no JSON object. -/
theorem Load_sets_variables_witness :
    Source.Load (LoadInput.object inputWithVariables) closedThenOk =
      some { request := Source.request (LoadInput.object inputWithVariables), calls := 2,
             err := none, written := bytesOf "\x7b\"data\":1\x7d" } ∧
    Source.request (LoadInput.object inputWithVariables) =
      unNullRequest
        (objectBytes (jsonparserSet inputWithVariables (bytesOf "\x7b\x7d") "variables")) ∧
    (Source.Load arrayInput closedThenOk).map (fun r => (r.request, r.calls)) =
      some ([], 2) ∧
    Source.request arrayInput = [] :=
  ⟨by decide, (Load_sets_variables.1 inputWithVariables).2.2, by decide,
    (Load_sets_variables.2.1 (bytesOf "[1,2]")).2⟩

/-- The query type declares a field of the name: the check of `replaceQueryType`. -/
theorem FieldDefinitionsContainField_iff (d : Document) (definitions : List Int) (field : String) :
    d.FieldDefinitionsContainField definitions field = true ↔
      ∃ ref definition, ref ∈ definitions ∧ index d.FieldDefinitions ref = some definition ∧
        definition.Name = field := by
  unfold Document.FieldDefinitionsContainField
  rw [List.any_eq_true]
  constructor
  · rintro ⟨ref, href, h⟩
    cases hi : index d.FieldDefinitions ref with
    | none =>
      rw [hi] at h
      cases h
    | some definition =>
      rw [hi] at h
      exact ⟨ref, definition, href, hi, by simpa using h⟩
  · rintro ⟨ref, definition, href, hi, hname⟩
    refine ⟨ref, href, ?_⟩
    rw [hi]
    simpa using hname

/-- C18: on a definition whose index holds the query type as an object type,
`replaceQueryType` rewrites the definition (removes the query object type and retargets
the root operation `query` to `rootTypeName`) if the planner is nested and the query type
does not declare a field named `rootFieldName`, and in every other case it leaves the
definition unchanged. -/
theorem replaceQueryType_spec (lib : Library) (p : Planner) (definition : Document)
    (queryNode : Node) (queryType : ObjectTypeDefinition)
    (hnode : definition.Index.FirstNodeByNameBytes definition.Index.QueryTypeName =
      (queryNode, true))
    (hkind : queryNode.Kind = NodeKind.ObjectTypeDefinition)
    (htype : index definition.ObjectTypeDefinitions queryNode.Ref = some queryType) :
    ((p.isNested = true ∧
        ¬ ∃ ref field, ref ∈ queryType.FieldsDefinition ∧
          index definition.FieldDefinitions ref = some field ∧ field.Name = p.rootFieldName) →
      p.replaceQueryType lib definition =
        lib.ReplaceRootOperationTypeDefinition
          (lib.RemoveObjectTypeDefinition definition definition.Index.QueryTypeName)
          p.rootTypeName OperationType.Query) ∧
    (¬ (p.isNested = true ∧
        ¬ ∃ ref field, ref ∈ queryType.FieldsDefinition ∧
          index definition.FieldDefinitions ref = some field ∧ field.Name = p.rootFieldName) →
      p.replaceQueryType lib definition = definition) := by
  rw [← FieldDefinitionsContainField_iff]
  unfold Planner.replaceQueryType
  simp only [hnode, hkind, htype]
  constructor
  · rintro ⟨h1, h2⟩
    simp [h1, h2]
  · intro h
    by_cases h1 : p.isNested = true
    · have h2 : definition.FieldDefinitionsContainField queryType.FieldsDefinition
          p.rootFieldName = true := by
        by_contra hcon
        exact h ⟨h1, hcon⟩
      simp [h1, h2]
    · simp [h1]

/-- C18 on scenario S6: the nested planner with root field `countries`, which `Query`
does not declare, gets the query type retargeted to `ServiceOneResponse`; the planner
that is not nested keeps the definition. -/
theorem replaceQueryType_spec_witness :
    (nestedPlanner.replaceQueryType schemaLibrary nestedSchema).Index =
      { QueryTypeName := "ServiceOneResponse",
        nodes := [("ServiceOneResponse", { Kind := NodeKind.ObjectTypeDefinition, Ref := 1 })] } ∧
    (Factory.Planner.replaceQueryType schemaLibrary nestedSchema).Index = nestedSchema.Index ∧
    nestedPlanner.replaceQueryType schemaLibrary nestedSchema =
      schemaLibrary.ReplaceRootOperationTypeDefinition
        (schemaLibrary.RemoveObjectTypeDefinition nestedSchema nestedSchema.Index.QueryTypeName)
        nestedPlanner.rootTypeName OperationType.Query :=
  ⟨by decide, by decide,
    (replaceQueryType_spec schemaLibrary nestedPlanner nestedSchema
      { Kind := NodeKind.ObjectTypeDefinition, Ref := 0 }
      { Name := "Query", FieldsDefinition := [0, 1] } rfl rfl rfl).1
      ⟨rfl, by
        rintro ⟨ref, field, href, hfield, hname⟩
        have h := (FieldDefinitionsContainField_iff nestedSchema [0, 1] "countries").2
          ⟨ref, field, href, hfield, hname⟩
        revert h
        decide⟩⟩

/-- After a first print that succeeds, every failure of `printOperation` stops the walker
with an internal error and gives the `nil` query. -/
theorem printOperation_stops_after_first_print (lib : Library) (p : Planner) (v : Visitor)
    (upstream : Document) (rawQuery : String)
    (hup : p.upstreamOperation = some upstream)
    (hprint : lib.Print upstream none = some rawQuery)
    (hnil : (p.printOperation lib v).2 = none) :
    ∃ msg, (p.printOperation lib v).1 = v.Walker.StopWithInternalErr msg := by
  unfold Planner.printOperation at hnil ⊢
  simp only [hup, Option.some_bind, hprint] at hnil ⊢
  cases h1 : lib.Parse rawQuery with
  | none => exact ⟨_, rfl⟩
  | some operation =>
    simp only [h1] at hnil ⊢
    cases h2 : lib.Parse p.config.GraphqlSchema with
    | none => exact ⟨_, rfl⟩
    | some definition =>
      simp only [h2] at hnil ⊢
      cases h3 : lib.MergeDefinitionWithBaseSchema definition with
      | none => exact ⟨_, rfl⟩
      | some merged =>
        simp only [h3] at hnil ⊢
        cases h4 : Planner.normalizeOperation lib operation (p.replaceQueryType lib merged) with
        | none => exact ⟨_, rfl⟩
        | some normalized =>
          simp only [h4] at hnil ⊢
          cases h5 : lib.Print normalized (some v.Definition) with
          | none => exact ⟨_, rfl⟩
          | some query =>
            simp only [h5] at hnil
            cases hnil

/-- When the first print fails, `printOperation` gives the `nil` query and leaves the
walker as it is. -/
theorem printOperation_first_print_fails (lib : Library) (p : Planner) (v : Visitor)
    (upstream : Document) (hup : p.upstreamOperation = some upstream)
    (hprint : lib.Print upstream none = none) :
    p.printOperation lib v = (v.Walker, none) := by
  unfold Planner.printOperation
  simp only [hup, Option.some_bind, hprint]

/-- Claim C20, the failing case: when the first print fails, `printOperation` returns the
`nil` query and the walker is not stopped, whatever the library does. It fails on the
planner that the factory returns, on which no document has been entered
(`p.upstreamOperation` is `nil`), and on every planner without an upstream document: the
walker after the call is the walker before it, with no internal error added. Every other
failure, after a first print that succeeds, does stop the walker with an internal
error. -/
theorem printOperation_nil_document_not_stopped (lib : Library) (v : Visitor) :
    Factory.Planner.upstreamOperation = none ∧
    Factory.Planner.printOperation lib v = (v.Walker, none) ∧
    (∀ p : Planner, p.upstreamOperation = none →
      (p.printOperation lib v).2 = none ∧
      (p.printOperation lib v).1 = v.Walker ∧
      (p.printOperation lib v).1.stopped = v.Walker.stopped ∧
      ∀ msg, (p.printOperation lib v).1 ≠ stopWithError v.Walker msg) ∧
    (∀ (p : Planner) (upstream : Document) (rawQuery : String),
      p.upstreamOperation = some upstream → lib.Print upstream none = some rawQuery →
      (p.printOperation lib v).2 = none →
      ∃ msg, (p.printOperation lib v).1 = stopWithError v.Walker msg) := by
  have hnil : ∀ p : Planner, p.upstreamOperation = none →
      p.printOperation lib v = (v.Walker, none) := by
    intro p hp
    unfold Planner.printOperation
    simp only [hp, Option.none_bind]
  refine ⟨rfl, hnil _ rfl, ?_, ?_⟩
  · intro p hp
    rw [hnil p hp]
    refine ⟨rfl, rfl, rfl, ?_⟩
    intro msg h
    have hlen := congrArg (fun w => w.stopped.length) h
    simp [stopWithError, Walker.StopWithInternalErr] at hlen
  · intro p upstream rawQuery hup hprint hq
    exact printOperation_stops_after_first_print lib p v upstream rawQuery hup hprint hq

/-! ## The lazy engine supervisor: lemmas -/

theorem closeEngine_closed (s : EngineState) : s.closeEngine.closed = s.closed := by
  unfold EngineState.closeEngine
  split <;> rfl

theorem closeEngine_timer (s : EngineState) : s.closeEngine.timer = s.timer := by
  unfold EngineState.closeEngine
  split <;> rfl

theorem NewHybridEngine_closed (s : EngineState) (err : Option String) :
    (s.NewHybridEngine err).closed = s.closed := by
  unfold EngineState.NewHybridEngine
  split <;> rfl

theorem NewHybridEngine_timer (s : EngineState) (err : Option String) :
    (s.NewHybridEngine err).timer = s.timer := by
  unfold EngineState.NewHybridEngine
  split <;> rfl

/-- No step resets `closed`. -/
theorem step_closed_stable {s s' : EngineState} {a : Action} (hs : s.closed = true)
    (h : s.step a = some s') : s'.closed = true := by
  cases a <;> simp only [EngineState.step] at h <;> (repeat' split at h) <;>
    simp only [Option.some.injEq, reduceCtorEq] at h <;> subst h <;>
    simp [EngineState.goto, closeEngine_closed, NewHybridEngine_closed, hs]

/-- Only the receipt of a signal arms the timer. -/
theorem step_timer_unarmed {s s' : EngineState} {a : Action} (hs : s.timer = none)
    (ha : a.isSignal = false) (h : s.step a = some s') : s'.timer = none := by
  cases a <;> simp only [EngineState.step] at h <;> (repeat' split at h) <;>
    simp only [Option.some.injEq, reduceCtorEq] at h <;> (try subst h) <;>
    (try simp [EngineState.goto, closeEngine_timer, NewHybridEngine_timer, hs])
  cases ha

theorem run_timer_unarmed :
    ∀ (actions : List Action) (s s' : EngineState), s.timer = none →
      (∀ a ∈ actions, a.isSignal = false) → s.run actions = some s' → s'.timer = none
  | [], s, s', hs, _, h => by
    rw [EngineState.run] at h
    cases h
    exact hs
  | a :: rest, s, s', hs, ha, h => by
    rw [EngineState.run] at h
    split at h
    · next s1 h1 =>
      exact run_timer_unarmed rest s1 s'
        (step_timer_unarmed hs (ha a (List.mem_cons_self _ _)) h1)
        (fun b hb => ha b (List.mem_cons_of_mem _ hb)) h
    · cases h

/-! ## The lazy engine supervisor: the properties of the specification -/

/-- Where no call holds the write lock, `Execute` on a supervisor whose `closed` flag is
set fails with the error `engine closed`: it takes the read lock, checks the flag,
releases the lock and returns, without a call of the subprocess, without a new
subprocess, without a signal on `requestWasProcessed` and with the state of the
supervisor as it was. The flag stays set whatever the other goroutines do between the two
steps. -/
theorem Execute_on_closed (s : EngineState) (i : Nat)
    (hclosed : s.closed = true) (hstart : s.requests[i]? = some RequestPC.start)
    (hlock : s.writer = false) :
    (∃ s1 s2, s.step (Action.rlock i) = some s1 ∧ s1.step (Action.check i) = some s2 ∧
      s2 = s.goto i (RequestPC.done (some "engine closed"))) ∧
    (∀ s1 : EngineState, s1.closed = true → s1.requests[i]? = some RequestPC.readLocked →
      ∃ s2, s1.step (Action.check i) = some s2 ∧
        s2.requests[i]? = some (RequestPC.done (some "engine closed")) ∧
        s2.engine = s1.engine ∧ s2.closed = true ∧ s2.started = s1.started ∧
        s2.live = s1.live ∧ s2.signals = s1.signals ∧ s2.calls = s1.calls ∧
        s2.timer = s1.timer ∧ s2.supervisor = s1.supervisor ∧ s2.writer = s1.writer ∧
        s2.readers = s1.readers - 1) ∧
    (∀ (s1 s2 : EngineState) (a : Action), s1.closed = true → s1.step a = some s2 →
      s2.closed = true) := by
  have hlen : i < s.requests.length := by
    by_contra hcon
    rw [List.getElem?_eq_none (by omega)] at hstart
    cases hstart
  have h1 : s.step (Action.rlock i) =
      some ({ s with readers := s.readers + 1 }.goto i RequestPC.readLocked) := by
    simp [EngineState.step, hstart, hlock]
  have h2 : ({ s with readers := s.readers + 1 }.goto i RequestPC.readLocked).step
      (Action.check i) = some (s.goto i (RequestPC.done (some "engine closed"))) := by
    simp [EngineState.step, EngineState.goto, hlen, hclosed]
  refine ⟨⟨_, _, h1, h2, rfl⟩, ?_, ?_⟩
  · intro s1 h1 hpc
    have hlen1 : i < s1.requests.length := by
      by_contra hcon
      rw [List.getElem?_eq_none (by omega)] at hpc
      cases hpc
    have hstep : s1.step (Action.check i) =
        some ({ s1 with readers := s1.readers - 1 }.goto i
          (RequestPC.done (some "engine closed"))) := by
      simp [EngineState.step, hpc, h1]
    refine ⟨_, hstep, ?_⟩
    simp [EngineState.goto, hlen1, h1]
  · intro s1 s2 a h1 h2
    exact step_closed_stable h1 h2

/-- The state after the supervisor has closed and a call has begun, with the lock free. -/
theorem Execute_on_closed_witness :
    ((EngineState.fresh 10).run
        [Action.make, Action.cancel, Action.takeClose, Action.close, Action.call,
         Action.rlock 0, Action.check 0]).map (fun s => (s.requests, s.calls, s.started, s.signals)) =
      some ([RequestPC.done (some "engine closed")], 0, 0, 0) ∧
    ∃ s1 s2,
      EngineState.step
        { closed := true, closer := true, supervisor := SupervisorPC.returned,
          requests := [RequestPC.start] } (Action.rlock 0) = some s1 ∧
      s1.step (Action.check 0) = some s2 ∧
      s2 = EngineState.goto
        { closed := true, closer := true, supervisor := SupervisorPC.returned,
          requests := [RequestPC.start] } 0 (RequestPC.done (some "engine closed")) :=
  ⟨by decide,
    (Execute_on_closed
      { closed := true, closer := true, supervisor := SupervisorPC.returned,
        requests := [RequestPC.start] } 0 rfl rfl rfl).1⟩

/-- C12, the failing run: two calls of `Execute` find the engine cold and reach
`initEngineAndExecute`; the first takes the write lock, starts subprocess 0, executes
and returns; the second then takes the write lock and, with the handle set, starts
subprocess 1: two subprocesses are started and none is closed. -/
theorem two_cold_calls_start_two_subprocesses :
    ((EngineState.fresh 10).run (twoColdCalls.take 7)).map
        (fun s => (s.requests, s.engine)) =
      some ([RequestPC.cold, RequestPC.cold], none) ∧
    ((EngineState.fresh 10).run (twoColdCalls.take 14)).map
        (fun s => (s.requests, s.engine, s.writer)) =
      some ([RequestPC.done none, RequestPC.writeLocked], some 0, true) ∧
    ((EngineState.fresh 10).run twoColdCalls).map
        (fun s => (s.started, s.live, s.engine)) =
      some (2, [0, 1], some 1) := by
  decide

/-- C19, the failing run: a call of `Execute` finds the engine cold and not closed and
releases the read lock; the supervisor takes the closer case, sets `closed` and returns;
the call then takes the write lock in `initEngineAndExecute` and starts a subprocess: the
state reached has `closed` set and a handle in `engine`. -/
theorem closed_with_engine_reachable :
    ((EngineState.fresh 10).run coldCallAfterClose).map
        (fun s => (s.closed, s.engine, s.supervisor)) =
      some (true, some 0, SupervisorPC.returned) ∧
    ∃ s : EngineState, s.Reachable ∧ s.closed = true ∧ s.engine = some 0 := by
  refine ⟨by decide, ?_⟩
  cases h : (EngineState.fresh 10).run coldCallAfterClose with
  | none =>
    have h1 : ((EngineState.fresh 10).run coldCallAfterClose).isSome = true := by decide
    rw [h] at h1
    cases h1
  | some s =>
    refine ⟨s, ⟨10, coldCallAfterClose, h⟩, ?_, ?_⟩
    · have h1 : ((EngineState.fresh 10).run coldCallAfterClose).map (fun s => s.closed) =
          some true := by decide
      rw [h] at h1
      exact Option.some.inj h1
    · have h1 : ((EngineState.fresh 10).run coldCallAfterClose).map (fun s => s.engine) =
          some (some 0) := by decide
      rw [h] at h1
      exact Option.some.inj h1

/-- Idle reaping in the supervisor loop, where the lock is free when the timer fires. The
timer is not armed before the first signal on `requestWasProcessed`, and every such
signal arms it again with the duration made from `closeTimeoutSeconds`; when it fires
and no call holds the lock, the supervisor closes the live subprocess and sets the handle
to `nil`, and `closed` stays false; the next `Execute` finds the engine cold, goes through
`initEngineAndExecute`, and the handle is set again. -/
theorem idle_reaping :
    (∀ (t : Int) (actions : List Action) (s : EngineState),
      (∀ a ∈ actions, a.isSignal = false) →
      (EngineState.fresh t).run actions = some s → s.timer = none) ∧
    (∀ (s s' : EngineState) (i : Nat), s.step (Action.signal i) = some s' →
      s'.timer = some (closeTimeout s.closeTimeoutSeconds)) ∧
    (∀ (s : EngineState) (handle : Nat),
      s.supervisor = SupervisorPC.selecting → s.timer.isSome = true →
      s.engine = some handle → s.closed = false → s.writer = false → s.readers = 0 →
      ∃ s1 s2, s.step Action.timerFires = some s1 ∧ s1.step Action.expire = some s2 ∧
        s2.engine = none ∧ s2.closed = false ∧ s2.live = s.live.erase handle ∧
        s2.timer = none ∧ s2.supervisor = SupervisorPC.selecting ∧
        ∃ s3, s2.run [Action.call, Action.rlock s.requests.length,
            Action.check s.requests.length] = some s3 ∧
          s3.requests[s.requests.length]? = some RequestPC.cold ∧
          ∃ s4, s3.run [Action.lock s.requests.length,
              Action.newEngine s.requests.length none] = some s4 ∧
            s4.engine = some s.started ∧ s4.closed = false) := by
  refine ⟨?_, ?_, ?_⟩
  · intro t actions s ha hrun
    exact run_timer_unarmed actions _ s rfl ha hrun
  · intro s s' i h
    simp only [EngineState.step] at h
    split at h
    · split_ifs at h
      cases h
      rfl
    · cases h
  · intro s handle hsup htimer hengine hclosed hwriter hreaders
    have h1 : s.step Action.timerFires =
        some { s with supervisor := SupervisorPC.expiring, timer := none } := by
      simp [EngineState.step, hsup, htimer]
    have h2 : EngineState.step { s with supervisor := SupervisorPC.expiring, timer := none }
        Action.expire =
        some { s with supervisor := SupervisorPC.selecting, timer := none, engine := none,
                      live := s.live.erase handle } := by
      simp [EngineState.step, EngineState.closeEngine, hwriter, hreaders, hengine]
    refine ⟨_, _, h1, h2, rfl, hclosed, rfl, rfl, rfl, ?_⟩
    have h3 : EngineState.run
        { s with supervisor := SupervisorPC.selecting, timer := none, engine := none,
                 live := s.live.erase handle }
        [Action.call, Action.rlock s.requests.length, Action.check s.requests.length] =
        some { s with supervisor := SupervisorPC.selecting, timer := none, engine := none,
                      live := s.live.erase handle,
                      requests := s.requests ++ [RequestPC.cold] } := by
      simp [EngineState.run, EngineState.step, EngineState.goto, hwriter, hclosed]
    refine ⟨_, h3, by simp, ?_⟩
    have h4 : EngineState.run
        { s with supervisor := SupervisorPC.selecting, timer := none, engine := none,
                 live := s.live.erase handle,
                 requests := s.requests ++ [RequestPC.cold] }
        [Action.lock s.requests.length, Action.newEngine s.requests.length none] =
        some { s with supervisor := SupervisorPC.selecting, timer := none,
                      engine := some s.started, started := s.started + 1,
                      live := s.live.erase handle ++ [s.started], writer := true,
                      requests := s.requests ++ [RequestPC.waiting] } := by
      simp [EngineState.run, EngineState.step, EngineState.goto, EngineState.NewHybridEngine,
        hwriter, hreaders]
    exact ⟨_, h4, rfl, hclosed⟩

/-- Idle reaping on a run: a call starts subprocess 0 and signals; the timer fires and the
supervisor closes the subprocess; the next call starts subprocess 1. -/
theorem idle_reaping_witness :
    (EngineState.fresh 10).run (idleReapThenCall.take 10) = some warmIdleState ∧
    ((EngineState.fresh 10).run idleReapThenCall).map
        (fun s => (s.engine, s.closed, s.live)) = some (some 1, false, [1]) ∧
    ∃ s1 s2, warmIdleState.step Action.timerFires = some s1 ∧
      s1.step Action.expire = some s2 ∧
      s2.engine = none ∧ s2.closed = false ∧ s2.live = warmIdleState.live.erase 0 ∧
      s2.timer = none ∧ s2.supervisor = SupervisorPC.selecting ∧
      ∃ s3, s2.run [Action.call, Action.rlock warmIdleState.requests.length,
          Action.check warmIdleState.requests.length] = some s3 ∧
        s3.requests[warmIdleState.requests.length]? = some RequestPC.cold ∧
        ∃ s4, s3.run [Action.lock warmIdleState.requests.length,
            Action.newEngine warmIdleState.requests.length none] = some s4 ∧
          s4.engine = some warmIdleState.started ∧ s4.closed = false :=
  ⟨by decide, by decide, idle_reaping.2.2 warmIdleState 0 rfl rfl rfl rfl rfl rfl⟩

/-! ## The node stack along a well-nested walk -/

theorem dropLast?_append_singleton {α : Type} (xs : List α) (x : α) :
    dropLast? (xs ++ [x]) = some xs := by
  simp [dropLast?]

theorem EnterOperationDefinition_nodes {p q : Planner} {v : Visitor} {ref : Int}
    (h : p.EnterOperationDefinition v ref = some q) :
    q.insideJsonField = p.insideJsonField ∧ ∃ n : Node, q.nodes = p.nodes ++ [n] := by
  unfold Planner.EnterOperationDefinition at h
  simp only [Option.bind_eq_bind, Option.bind_eq_some] at h
  obtain ⟨downstream, _, upstream, _, h⟩ := h
  cases h
  exact ⟨rfl, _, rfl⟩

theorem EnterSelectionSet_nodes {p q : Planner} {v : Visitor} {ref : Int}
    (hin : p.insideJsonField = false) (h : p.EnterSelectionSet v ref = some q) :
    q.insideJsonField = false ∧
      ∃ set : Node, set.Kind = NodeKind.SelectionSet ∧ q.nodes = p.nodes ++ [set] := by
  unfold Planner.EnterSelectionSet at h
  rw [hin] at h
  simp only [Bool.false_eq_true, if_false, Option.bind_eq_bind, Option.bind_eq_some] at h
  obtain ⟨parent, _, upstream, _, upstream', _, downstream, _, upstream'', _, h⟩ := h
  cases h
  exact ⟨rfl, _, rfl, rfl⟩

theorem EnterInlineFragment_nodes {p q : Planner} {v : Visitor} {ref : Int}
    (hin : p.insideJsonField = false) (h : p.EnterInlineFragment v ref = some q) :
    q.insideJsonField = false ∧
      (q.nodes = p.nodes ∨
        ∃ n : Node, n.Kind = NodeKind.InlineFragment ∧ q.nodes = p.nodes ++ [n]) := by
  unfold Planner.EnterInlineFragment at h
  rw [hin] at h
  simp only [Bool.false_eq_true, if_false, Option.bind_eq_bind, Option.bind_eq_some] at h
  obtain ⟨typeCondition, _, h⟩ := h
  cases typeCondition with
  | none =>
    cases h
    exact ⟨hin, Or.inl rfl⟩
  | some typeCondition =>
    simp only [Option.bind_eq_some] at h
    obtain ⟨upstream, _, top, _, upstream', _, upstream'', _, h⟩ := h
    cases h
    exact ⟨rfl, Or.inr ⟨_, rfl, rfl⟩⟩

theorem EnterField_nodes {lib : Library} {p q : Planner} {v : Visitor} {ref : Int}
    (hin : p.insideJsonField = false) (h : p.EnterField lib v ref = some q) :
    (q.insideJsonField = true ∧ q.jsonFieldRef = ref ∧ q.nodes = p.nodes) ∨
      (q.insideJsonField = false ∧
        ∃ n : Node, n.Kind = NodeKind.Field ∧ q.nodes = p.nodes ++ [n]) := by
  unfold Planner.EnterField at h
  rw [hin] at h
  simp only [Bool.false_eq_true, if_false, Option.bind_eq_bind, Option.bind_eq_some] at h
  obtain ⟨fieldName, _, h⟩ := h
  by_cases hj : p.isJsonTypeField v.Walker.EnclosingTypeDefinition fieldName = true
  · rw [if_pos hj] at h
    obtain ⟨upstream, hq⟩ := addJsonField_spec h
    subst hq
    exact Or.inl ⟨rfl, rfl, rfl⟩
  · rw [if_neg hj] at h
    simp only [Option.bind_eq_some] at h
    obtain ⟨p1, hadd, top, _, h⟩ := h
    obtain ⟨⟨field, hkind, hnodes⟩, _, hinside, _⟩ := addField_spec hadd
    have hstore := storeRoot_control p v fieldName ref
    have h1 : p1.insideJsonField = false := by rw [hinside, hstore.2.2.2.1, hin]
    have h2 : p1.nodes = p.nodes ++ [field] := by rw [hnodes, hstore.2.1]
    split at h
    · cases h
      exact Or.inr ⟨h1, field, hkind, h2⟩
    · have hc := configureArguments_control _ h
      have hn : q.nodes = p1.nodes := congrArg (fun c => c.2.1) hc
      have hi : q.insideJsonField = p1.insideJsonField := congrArg (fun c => c.2.2.2.2.2.2.2.2.1) hc
      exact Or.inr ⟨by rw [hi, h1], field, hkind, by rw [hn, h2]⟩

theorem stackSafe_cons (lib : Library) (v : Visitor) (p : Planner) (w : Walker) (c : Callback)
    (rest : List (Walker × Callback)) :
    stackSafe lib v p ((w, c) :: rest) ↔
      ((c.isLeave = true → (p.visit lib v w c).isSome = true) ∧
        ∀ q, p.visit lib v w c = some q →
          (c.isLeaveOperation = true → q.nodes = []) ∧ stackSafe lib v q rest) :=
  Iff.rfl

/-- A callback that is no `Leave` callback is safe if the rest is safe from every
planner that it returns. -/
theorem stackSafe_enter {lib : Library} {v : Visitor} {p : Planner} {w : Walker} {c : Callback}
    {rest : List (Walker × Callback)} (hc : c.isLeave = false)
    (h : ∀ q, p.visit lib v w c = some q → stackSafe lib v q rest) :
    stackSafe lib v p ((w, c) :: rest) := by
  rw [stackSafe_cons]
  refine ⟨fun hl => ?_, fun q hq => ⟨fun ho => ?_, h q hq⟩⟩
  · rw [hc] at hl
    cases hl
  · cases c <;> simp [Callback.isLeaveOperation, Callback.isLeave] at ho hc

/-- A `Leave` callback below an operation that returns `q` is safe if the rest is safe
from `q`. -/
theorem stackSafe_leave {lib : Library} {v : Visitor} {p q : Planner} {w : Walker} {c : Callback}
    {rest : List (Walker × Callback)} (hc : c.isLeaveOperation = false)
    (hq : p.visit lib v w c = some q) (h : stackSafe lib v q rest) :
    stackSafe lib v p ((w, c) :: rest) := by
  rw [stackSafe_cons]
  refine ⟨fun _ => by rw [hq]; rfl, fun q' hq' => ⟨fun ho => ?_, ?_⟩⟩
  · rw [hc] at ho
    cases ho
  · rw [hq] at hq'
    cases hq'
    exact h

/-- Inside a JSON field the callbacks below the field are safe: they leave the planner
as it is. -/
theorem stackSafe_below {lib : Library} {v : Visitor} {p : Planner}
    (hin : p.insideJsonField = true) (rest : List (Walker × Callback))
    (h : stackSafe lib v p rest) :
    ∀ (es : List (Walker × Callback)), (∀ e ∈ es, e.2.below p.jsonFieldRef = true) →
      stackSafe lib v p (es ++ rest)
  | [], _ => h
  | (w, c) :: es, hes => by
    have hc : c.below p.jsonFieldRef = true := hes (w, c) (List.mem_cons_self _ _)
    have hlo : c.isLeaveOperation = false := by
      cases c <;> simp [Callback.below, Callback.isLeaveOperation] at hc ⊢
    rw [List.cons_append]
    exact stackSafe_leave hlo (visit_below hin hc)
      (stackSafe_below hin rest h es (fun e he => hes e (List.mem_cons_of_mem _ he)))

/-- The `EnterArgument` callbacks are safe: they leave the planner as it is. -/
theorem stackSafe_arguments {lib : Library} {v : Visitor} {p : Planner}
    (rest : List (Walker × Callback)) (h : stackSafe lib v p rest) :
    ∀ (arguments : List (Walker × Int)), stackSafe lib v p (argumentCallbacks arguments ++ rest)
  | [] => h
  | (w, ref) :: arguments => by
    have hv : p.visit lib v w (Callback.EnterArgument ref) = some p := by
      simp [Planner.visit, Planner.EnterArgument]
    exact stackSafe_leave rfl hv (stackSafe_arguments rest h arguments)

theorem argumentCallbacks_below (ref : Int) (arguments : List (Walker × Int)) :
    ∀ e ∈ argumentCallbacks arguments, e.2.below ref = true := by
  intro e he
  simp only [argumentCallbacks, List.mem_map] at he
  obtain ⟨a, _, rfl⟩ := he
  rfl

mutual
/-- The callbacks of a selection are callbacks below every field that is none of its
fields. -/
theorem selection_callbacks_below (r : Int) :
    ∀ (t : WalkSelection), r ∉ t.fieldRefs → ∀ e ∈ t.callbacks, e.2.below r = true
  | WalkSelection.leaf ref enter leave arguments, hr, e, he => by
    simp only [WalkSelection.fieldRefs, List.mem_singleton] at hr
    simp only [WalkSelection.callbacks, List.mem_cons, List.mem_append, List.mem_singleton,
      List.not_mem_nil, or_false] at he
    rcases he with rfl | he | rfl
    · simp [Callback.below, Ne.symm hr]
    · exact argumentCallbacks_below r arguments e he
    · simp [Callback.below, Ne.symm hr]
  | WalkSelection.field ref enter leave arguments set, hr, e, he => by
    simp only [WalkSelection.fieldRefs, List.mem_cons, not_or] at hr
    simp only [WalkSelection.callbacks, List.mem_cons, List.mem_append, List.mem_singleton,
      List.not_mem_nil, or_false] at he
    rcases he with rfl | he | he | rfl
    · simp [Callback.below, Ne.symm hr.1]
    · exact argumentCallbacks_below r arguments e he
    · exact set_callbacks_below r set hr.2 e he
    · simp [Callback.below, Ne.symm hr.1]
  | WalkSelection.inlineFragment ref enter leave set, hr, e, he => by
    simp only [WalkSelection.fieldRefs] at hr
    simp only [WalkSelection.callbacks, List.mem_cons, List.mem_append, List.mem_singleton,
      List.not_mem_nil, or_false] at he
    rcases he with rfl | he | rfl
    · rfl
    · exact set_callbacks_below r set hr e he
    · rfl
/-- The callbacks of a selection set are callbacks below every field that is none of
its fields. -/
theorem set_callbacks_below (r : Int) :
    ∀ (t : WalkSet), r ∉ t.fieldRefs → ∀ e ∈ t.callbacks, e.2.below r = true
  | WalkSet.mk ref enter leave selections, hr, e, he => by
    simp only [WalkSet.fieldRefs] at hr
    simp only [WalkSet.callbacks, List.mem_cons, List.mem_append, List.mem_singleton,
      List.not_mem_nil, or_false] at he
    rcases he with rfl | he | rfl
    · rfl
    · exact selections_callbacks_below r selections hr e he
    · rfl
/-- The callbacks of selections are callbacks below every field that is none of their
fields. -/
theorem selections_callbacks_below (r : Int) :
    ∀ (t : WalkSelections), r ∉ t.fieldRefs → ∀ e ∈ t.callbacks, e.2.below r = true
  | WalkSelections.nil, _, e, he => by
    simp [WalkSelections.callbacks] at he
  | WalkSelections.cons selection rest, hr, e, he => by
    simp only [WalkSelections.fieldRefs, List.mem_append, not_or] at hr
    simp only [WalkSelections.callbacks, List.mem_append] at he
    rcases he with he | he
    · exact selection_callbacks_below r selection hr.1 e he
    · exact selections_callbacks_below r rest hr.2 e he
end

/-- The `LeaveField` of a JSON field: the planner leaves the JSON field and the stack
is as it was. -/
theorem stackSafe_leaveField_json {lib : Library} {v : Visitor} {q : Planner} {xs : List Node}
    {ref : Int} (leave : Walker) {rest : List (Walker × Callback)}
    (hin : q.insideJsonField = true) (href : q.jsonFieldRef = ref) (hn : q.nodes = xs)
    (hK : ∀ q' : Planner, q'.nodes = xs → q'.insideJsonField = false → stackSafe lib v q' rest) :
    stackSafe lib v q ((leave, Callback.LeaveField ref) :: rest) := by
  have hv : q.visit lib v leave (Callback.LeaveField ref) =
      some { q with insideJsonField := false, jsonFieldRef := 0 } := by
    simp [Planner.visit, Planner.LeaveField, hin, href]
  exact stackSafe_leave rfl hv (hK _ hn rfl)

/-- The `LeaveField` of a field that was pushed: the node is taken from the stack. -/
theorem stackSafe_leaveField_pop {lib : Library} {v : Visitor} {q : Planner} {xs : List Node}
    {n : Node} (ref : Int) (leave : Walker) {rest : List (Walker × Callback)}
    (hin : q.insideJsonField = false) (hn : q.nodes = xs ++ [n])
    (hK : ∀ q' : Planner, q'.nodes = xs → q'.insideJsonField = false → stackSafe lib v q' rest) :
    stackSafe lib v q ((leave, Callback.LeaveField ref) :: rest) := by
  have hv : q.visit lib v leave (Callback.LeaveField ref) = some { q with nodes := xs } := by
    simp [Planner.visit, Planner.LeaveField, hin, hn, dropLast?_append_singleton]
  exact stackSafe_leave rfl hv (hK _ rfl hin)

/-- The `LeaveSelectionSet` of a set that was pushed: the node is taken from the stack. -/
theorem stackSafe_leaveSelectionSet {lib : Library} {v : Visitor} {q : Planner} {xs : List Node}
    {n : Node} (ref : Int) (leave : Walker) {rest : List (Walker × Callback)}
    (hin : q.insideJsonField = false) (hn : q.nodes = xs ++ [n])
    (hK : ∀ q' : Planner, q'.nodes = xs → q'.insideJsonField = false → stackSafe lib v q' rest) :
    stackSafe lib v q ((leave, Callback.LeaveSelectionSet ref) :: rest) := by
  have hv : q.visit lib v leave (Callback.LeaveSelectionSet ref) = some { q with nodes := xs } := by
    simp [Planner.visit, Planner.LeaveSelectionSet, hin, hn, dropLast?_append_singleton]
  exact stackSafe_leave rfl hv (hK _ rfl hin)

/-- The `LeaveInlineFragment` of a fragment that was pushed: the node is taken from the
stack. -/
theorem stackSafe_leaveInlineFragment_pop {lib : Library} {v : Visitor} {q : Planner}
    {xs : List Node} {n : Node} (ref : Int) (leave : Walker) {rest : List (Walker × Callback)}
    (hin : q.insideJsonField = false) (hkind : n.Kind = NodeKind.InlineFragment)
    (hn : q.nodes = xs ++ [n])
    (hK : ∀ q' : Planner, q'.nodes = xs → q'.insideJsonField = false → stackSafe lib v q' rest) :
    stackSafe lib v q ((leave, Callback.LeaveInlineFragment ref) :: rest) := by
  have hv : q.visit lib v leave (Callback.LeaveInlineFragment ref) =
      some { q with nodes := xs } := by
    simp [Planner.visit, Planner.LeaveInlineFragment, hin, hn, hkind, dropLast?_append_singleton]
  exact stackSafe_leave rfl hv (hK _ rfl hin)

/-- The `LeaveInlineFragment` of a fragment without type condition, which was not
pushed: the selection set on top of the stack stays. -/
theorem stackSafe_leaveInlineFragment_keep {lib : Library} {v : Visitor} {q : Planner}
    {xs : List Node} {top : Node} (ref : Int) (leave : Walker) {rest : List (Walker × Callback)}
    (hin : q.insideJsonField = false) (htop : xs.getLast? = some top)
    (hkind : top.Kind = NodeKind.SelectionSet) (hn : q.nodes = xs)
    (hK : ∀ q' : Planner, q'.nodes = xs → q'.insideJsonField = false → stackSafe lib v q' rest) :
    stackSafe lib v q ((leave, Callback.LeaveInlineFragment ref) :: rest) := by
  have hv : q.visit lib v leave (Callback.LeaveInlineFragment ref) = some q := by
    simp [Planner.visit, Planner.LeaveInlineFragment, hin, hn, htop, hkind]
  exact stackSafe_leave rfl hv (hK _ hn hin)

mutual
/-- A selection is safe below a selection set, and the stack after it is the stack
before it. -/
theorem selection_safe (lib : Library) (v : Visitor) :
    ∀ (t : WalkSelection), t.distinct = true →
      ∀ (p : Planner) (rest : List (Walker × Callback)), p.insideJsonField = false →
        (∃ top, p.nodes.getLast? = some top ∧ top.Kind = NodeKind.SelectionSet) →
        (∀ q : Planner, q.nodes = p.nodes → q.insideJsonField = false →
          stackSafe lib v q rest) →
        stackSafe lib v p (t.callbacks ++ rest)
  | WalkSelection.leaf ref enter leave arguments, _, p, rest, hin, _, hK => by
    simp only [WalkSelection.callbacks, List.cons_append, List.append_assoc, List.nil_append]
    refine stackSafe_enter rfl (fun q hq => ?_)
    refine stackSafe_arguments _ ?_ arguments
    rcases EnterField_nodes hin hq with ⟨h1, h2, h3⟩ | ⟨h1, n, _, h3⟩
    · exact stackSafe_leaveField_json leave h1 h2 h3 hK
    · exact stackSafe_leaveField_pop ref leave h1 h3 hK
  | WalkSelection.field ref enter leave arguments set, hd, p, rest, hin, _, hK => by
    simp only [WalkSelection.distinct, Bool.and_eq_true, Bool.not_eq_true'] at hd
    have hr : ref ∉ set.fieldRefs := by
      intro hmem
      have hc : set.fieldRefs.contains ref = true := by simpa using hmem
      rw [hd.1] at hc
      cases hc
    simp only [WalkSelection.callbacks, List.cons_append, List.append_assoc, List.nil_append]
    refine stackSafe_enter rfl (fun q hq => ?_)
    rcases EnterField_nodes hin hq with ⟨h1, h2, h3⟩ | ⟨h1, n, _, h3⟩
    · rw [← List.append_assoc]
      refine stackSafe_below h1 _ (stackSafe_leaveField_json leave h1 h2 h3 hK) _ ?_
      intro e he
      rw [h2]
      rcases List.mem_append.1 he with he | he
      · exact argumentCallbacks_below ref arguments e he
      · exact set_callbacks_below ref set hr e he
    · refine stackSafe_arguments _ ?_ arguments
      exact set_safe lib v set hd.2 q _ h1
        (fun q' hn' hin' => stackSafe_leaveField_pop ref leave hin' (hn'.trans h3) hK)
  | WalkSelection.inlineFragment ref enter leave set, hd, p, rest, hin, htop, hK => by
    simp only [WalkSelection.distinct] at hd
    simp only [WalkSelection.callbacks, List.cons_append, List.append_assoc, List.nil_append]
    refine stackSafe_enter rfl (fun q hq => ?_)
    obtain ⟨top, htop, hkind⟩ := htop
    rcases EnterInlineFragment_nodes hin hq with ⟨h1, h3 | ⟨n, hn, h3⟩⟩
    · exact set_safe lib v set hd q _ h1
        (fun q' hn' hin' =>
          stackSafe_leaveInlineFragment_keep ref leave hin' htop hkind (hn'.trans h3) hK)
    · exact set_safe lib v set hd q _ h1
        (fun q' hn' hin' =>
          stackSafe_leaveInlineFragment_pop ref leave hin' hn (hn'.trans h3) hK)
/-- A selection set is safe, and the stack after it is the stack before it. -/
theorem set_safe (lib : Library) (v : Visitor) :
    ∀ (t : WalkSet), t.distinct = true →
      ∀ (p : Planner) (rest : List (Walker × Callback)), p.insideJsonField = false →
        (∀ q : Planner, q.nodes = p.nodes → q.insideJsonField = false →
          stackSafe lib v q rest) →
        stackSafe lib v p (t.callbacks ++ rest)
  | WalkSet.mk ref enter leave selections, hd, p, rest, hin, hK => by
    simp only [WalkSet.distinct] at hd
    simp only [WalkSet.callbacks, List.cons_append, List.append_assoc, List.nil_append]
    refine stackSafe_enter rfl (fun q hq => ?_)
    obtain ⟨h1, n, hkind, h3⟩ := EnterSelectionSet_nodes hin hq
    exact selections_safe lib v selections hd q _ h1
      ⟨n, by rw [h3, List.getLast?_append, List.getLast?_singleton]; rfl, hkind⟩
      (fun q' hn' hin' => stackSafe_leaveSelectionSet ref leave hin' (hn'.trans h3) hK)
/-- The selections of a selection set are safe below the set, and the stack after them
is the stack before them. -/
theorem selections_safe (lib : Library) (v : Visitor) :
    ∀ (t : WalkSelections), t.distinct = true →
      ∀ (p : Planner) (rest : List (Walker × Callback)), p.insideJsonField = false →
        (∃ top, p.nodes.getLast? = some top ∧ top.Kind = NodeKind.SelectionSet) →
        (∀ q : Planner, q.nodes = p.nodes → q.insideJsonField = false →
          stackSafe lib v q rest) →
        stackSafe lib v p (t.callbacks ++ rest)
  | WalkSelections.nil, _, p, rest, hin, _, hK => by
    simp only [WalkSelections.callbacks, List.nil_append]
    exact hK p rfl hin
  | WalkSelections.cons selection others, hd, p, rest, hin, htop, hK => by
    simp only [WalkSelections.distinct, Bool.and_eq_true] at hd
    simp only [WalkSelections.callbacks, List.append_assoc]
    exact selection_safe lib v selection hd.1 p _ hin htop
      (fun q hn hq => selections_safe lib v others hd.2 q rest hq (by rw [hn]; exact htop)
        (fun q' hn' hq' => hK q' (hn'.trans hn) hq'))
end

/-- The operations of a document are safe from an empty stack, and the stack is empty
after each of them. -/
theorem operationCallbacks_safe (lib : Library) (v : Visitor) (rest : List (Walker × Callback)) :
    ∀ (operations : List WalkOperation),
      (∀ operation ∈ operations, operation.set.distinct = true) →
      ∀ (p : Planner), p.nodes = [] → p.insideJsonField = false →
        (∀ q : Planner, q.nodes = [] → q.insideJsonField = false → stackSafe lib v q rest) →
        stackSafe lib v p (operationCallbacks operations ++ rest)
  | [], _, p, hn, hin, hK => hK p hn hin
  | operation :: operations, hd, p, hn, hin, hK => by
    simp only [operationCallbacks, WalkOperation.callbacks, List.cons_append, List.append_assoc,
      List.nil_append]
    refine stackSafe_enter rfl (fun q hq => ?_)
    obtain ⟨h1, n, h3⟩ := EnterOperationDefinition_nodes hq
    rw [hn, List.nil_append] at h3
    rw [hin] at h1
    refine set_safe lib v operation.set (hd operation (List.mem_cons_self _ _)) q _ h1 ?_
    intro q' hn' hin'
    have hv : q'.visit lib v operation.leave (Callback.LeaveOperationDefinition operation.ref) =
        some { q' with nodes := [] } := by
      simp [Planner.visit, Planner.LeaveOperationDefinition, hn', h3, dropLast?]
    rw [stackSafe_cons]
    refine ⟨fun _ => by rw [hv]; rfl, fun q'' hq'' => ?_⟩
    rw [hv] at hq''
    cases hq''
    exact ⟨fun _ => rfl, operationCallbacks_safe lib v rest operations
      (fun o ho => hd o (List.mem_cons_of_mem _ ho)) _ rfl hin' hK⟩

/-- Claim C17: along the callbacks of the walk of a document (`EnterDocument`, per
operation `EnterOperationDefinition`, the nested `Enter` and `Leave` callbacks of its
selection sets, fields with their arguments and inline fragments with or without type
condition, JSON-typed fields among them, then `LeaveOperationDefinition`, and at the end
`LeaveDocument`), from a planner that is not inside a JSON field, as the planner of the
factory is: no `Leave` callback pops an empty stack, and after every
`LeaveOperationDefinition` the node stack is empty. The walker states, the refs, the
visitor and the library are arbitrary; the fields below a field are other fields. -/
theorem walk_stack_safe (lib : Library) (v : Visitor) (document : WalkDocument)
    (hd : document.distinct = true) (p : Planner) (hp : p.insideJsonField = false) :
    stackSafe lib v p document.callbacks := by
  simp only [WalkDocument.callbacks]
  refine stackSafe_enter rfl (fun q hq => ?_)
  simp only [Planner.visit, Option.some.injEq] at hq
  subst hq
  refine operationCallbacks_safe lib v _ document.operations ?_ _ rfl hp ?_
  · intro operation ho
    simp only [WalkDocument.distinct, List.all_eq_true] at hd
    exact hd operation ho
  · intro q _ _
    exact stackSafe_enter rfl (fun _ _ => trivial)

/-- The walk of the operation of scenario S2, with the JSON-typed field `meta`, from
the planner of the factory with its configuration: it is safe, and it runs to the end
with an empty stack. -/
theorem walk_stack_safe_witness :
    userDocument.distinct = true ∧ userPlanner.insideJsonField = false ∧
      stackSafe exampleLibrary userVisitor userPlanner userDocument.callbacks ∧
      (userPlanner.walk exampleLibrary userVisitor userDocument.callbacks).map
        (fun q => (q.nodes, q.insideJsonField)) = some ([], false) :=
  ⟨by decide, by decide,
   walk_stack_safe exampleLibrary userVisitor userDocument (by decide) userPlanner (by decide),
   by decide!⟩

/-! ## Termination of `unNullRequest` -/

/-- More fuel than the length of the request does not change the count of the calls. -/
theorem unNullRequestCallsFuel_stable (extra : Nat) :
    ∀ (fuel : Nat) (request : List Nat), request.length ≤ fuel →
      unNullRequestCallsFuel (fuel + extra) request = unNullRequestCallsFuel fuel request
  | 0, request, hlen => by
    cases extra with
    | zero => rfl
    | succ n =>
      show (match unNullStep request with
        | some request' => unNullRequestCallsFuel (0 + n) request' + 1
        | none => 0) = 0
      cases h : unNullStep request with
      | none => rfl
      | some r' =>
        have := unNullStep_length h
        omega
  | fuel + 1, request, hlen => by
    rw [Nat.add_right_comm]
    show (match unNullStep request with
      | some request' => unNullRequestCallsFuel (fuel + extra) request' + 1
      | none => 0) = (match unNullStep request with
      | some request' => unNullRequestCallsFuel fuel request' + 1
      | none => 0)
    cases h : unNullStep request with
    | none => rfl
    | some r' =>
      have := unNullStep_length h
      show unNullRequestCallsFuel (fuel + extra) r' + 1 = unNullRequestCallsFuel fuel r' + 1
      rw [unNullRequestCallsFuel_stable extra fuel r' (by omega)]

/-- The count of the calls along the recursion of the Go function: none when the request
has no `: null`, and otherwise one more than on the request of the recursive call. -/
theorem unNullRequestCalls_eq (request : List Nat) :
    unNullRequestCalls request =
      match unNullStep request with
      | some request' => unNullRequestCalls request' + 1
      | none => 0 := by
  cases h : unNullStep request with
  | none =>
    unfold unNullRequestCalls
    cases hl : request.length with
    | zero => rfl
    | succ n =>
      show (match unNullStep request with
        | some request' => unNullRequestCallsFuel n request' + 1
        | none => 0) = 0
      rw [h]
  | some r' =>
    have hlen := unNullStep_length h
    obtain ⟨n, hn⟩ : ∃ n, request.length = n + 1 := ⟨request.length - 1, by omega⟩
    show unNullRequestCalls request = unNullRequestCalls r' + 1
    have h1 : unNullRequestCalls request = unNullRequestCallsFuel n r' + 1 := by
      unfold unNullRequestCalls
      rw [hn]
      show (match unNullStep request with
        | some request' => unNullRequestCallsFuel n request' + 1
        | none => 0) = _
      rw [h]
    obtain ⟨x, hx⟩ : ∃ x, n = r'.length + x := ⟨n - r'.length, by omega⟩
    rw [h1, hx, unNullRequestCallsFuel_stable x r'.length r' (Nat.le_refl _)]
    rfl

/-- Every call takes at least six bytes from the request, and the recursion returns after
the counted number of calls. -/
theorem unNullRequestCalls_spec (request : List Nat) :
    6 * unNullRequestCalls request + (unNullRequest request).length ≤ request.length ∧
      unNullRequestFuel (unNullRequestCalls request) request = unNullRequest request := by
  obtain ⟨n, hn⟩ : ∃ n, request.length = n := ⟨_, rfl⟩
  induction n using Nat.strong_induction_on generalizing request with
  | _ n ih =>
    rw [unNullRequest_eq, unNullRequestCalls_eq]
    cases h : unNullStep request with
    | none => exact ⟨by simp, rfl⟩
    | some r' =>
      have hlen := unNullStep_length h
      obtain ⟨h1, h2⟩ := ih r'.length (by omega) r' rfl
      refine ⟨?_, ?_⟩
      · show 6 * (unNullRequestCalls r' + 1) + (unNullRequest r').length ≤ request.length
        omega
      · show unNullRequestFuel (unNullRequestCalls r' + 1) request = unNullRequest r'
        rw [← h2]
        show (match unNullStep request with
          | some request' => unNullRequestFuel (unNullRequestCalls r') request'
          | none => request) = _
        rw [h]

/-- The slice bounds of one pass: `end` is an index of the request with the six bytes of
the literal after it, and `start` is `-1` or an index below `end`. -/
theorem unNullStep_bounds (request : List Nat) (h : bytesIndex request nullLiteral ≠ -1) :
    0 ≤ bytesIndex request nullLiteral ∧
      bytesIndex request nullLiteral + 6 ≤ (request.length : Int) ∧
      -1 ≤ unNullStart request (bytesIndex request nullLiteral) ∧
      unNullStart request (bytesIndex request nullLiteral) + 1 ≤
        bytesIndex request nullLiteral := by
  obtain ⟨e, he, hocc⟩ := bytesIndex_spec h
  have hb := occurrence_bound hocc
  rw [nullLiteral_eq] at hb
  simp only [List.length_cons, List.length_nil] at hb
  rw [he]
  have hr := unNullStart_range request e (by omega)
  exact ⟨by omega, by omega, hr.1, hr.2⟩

/-- Claim C22: `unNullRequest` terminates on every input. The recursion returns with
every bound on the calls that is at least the length of the request, and what it returns
has no `: null` left, so it is the return of the Go function and not the end of the
bound; each recursive call is on a request shorter by at least the six bytes of `: null`;
the number of calls is at most `len(request)/6`, with that number of calls the recursion
has returned, and the output is not longer than the input; when a `: null` is found, the
slice bounds satisfy `0 <= start+1 <= end` and `end+6 <= len(request)`, where `start` is
`-1` when no delimiter precedes the occurrence. -/
theorem unNullRequest_terminates (request : List Nat) :
    (∀ fuel, request.length ≤ fuel → unNullRequestFuel fuel request = unNullRequest request) ∧
    unNullStep (unNullRequest request) = none ∧
    (∀ request', unNullStep request = some request' →
      request'.length + 6 ≤ request.length) ∧
    unNullRequestCalls request ≤ request.length / 6 ∧
    unNullRequestFuel (unNullRequestCalls request) request = unNullRequest request ∧
    (unNullRequest request).length ≤ request.length ∧
    (bytesIndex request nullLiteral ≠ -1 →
      0 ≤ bytesIndex request nullLiteral ∧
      bytesIndex request nullLiteral + 6 ≤ (request.length : Int) ∧
      -1 ≤ unNullStart request (bytesIndex request nullLiteral) ∧
      unNullStart request (bytesIndex request nullLiteral) + 1 ≤
        bytesIndex request nullLiteral ∧
      unNullStep request =
        some (request.take (unNullStart request (bytesIndex request nullLiteral) + 1).toNat ++
          request.drop (bytesIndex request nullLiteral + 6).toNat)) := by
  have hcalls := unNullRequestCalls_spec request
  refine ⟨?_, ?_, ?_, ?_, hcalls.2, by omega, ?_⟩
  · intro fuel hfuel
    obtain ⟨x, hx⟩ : ∃ x, fuel = request.length + x := ⟨fuel - request.length, by omega⟩
    rw [hx]
    exact unNullRequestFuel_enough request x
  · exact unNullStep_eq_none_iff.2 (unNullRequest_not_contains request)
  · intro request' h
    exact unNullStep_length h
  · rw [Nat.le_div_iff_mul_le (by decide)]
    omega
  · intro h
    obtain ⟨h1, h2, h3, h4⟩ := unNullStep_bounds request h
    refine ⟨h1, h2, h3, h4, ?_⟩
    unfold unNullStep
    simp only [h, ne_eq, not_false_eq_true, if_true]

/-- Claim C22 on a request in which no delimiter precedes the `: null`: `start` is `-1`,
the slices are `request[:0]` and `request[7:]`, and the one recursive call is on the empty
request. -/
theorem unNullRequest_terminates_witness :
    bytesIndex bareRequest nullLiteral = 1 ∧
    unNullStart bareRequest (bytesIndex bareRequest nullLiteral) = -1 ∧
    unNullRequestCalls bareRequest = 1 ∧ unNullRequest bareRequest = [] ∧
    unNullRequestCalls bareRequest ≤ bareRequest.length / 6 ∧
    unNullStep bareRequest =
      some (bareRequest.take (unNullStart bareRequest (bytesIndex bareRequest nullLiteral)
          + 1).toNat ++
        bareRequest.drop (bytesIndex bareRequest nullLiteral + 6).toNat) :=
  ⟨by decide, by decide, by decide, by decide,
   (unNullRequest_terminates bareRequest).2.2.2.1,
   ((unNullRequest_terminates bareRequest).2.2.2.2.2.2 (by decide)).2.2.2.2⟩

/-! ## Completions and the supervisor: lemmas -/

theorem countP_set_add {α : Type} (f : α → Bool) :
    ∀ (l : List α) (i : Nat) (x y : α), l[i]? = some x →
      (l.set i y).countP f + (f x).toNat = l.countP f + (f y).toNat
  | [], i, x, y, h => by simp at h
  | a :: l, 0, x, y, h => by
    simp only [List.getElem?_cons_zero, Option.some.injEq] at h
    subst h
    simp only [List.set_cons_zero, List.countP_cons]
    cases f a <;> cases f y <;> simp
  | a :: l, i + 1, x, y, h => by
    simp only [List.getElem?_cons_succ] at h
    have ih := countP_set_add f l i x y h
    simp only [List.set_cons_succ, List.countP_cons]
    omega

theorem toNat_le_countP {α : Type} (f : α → Bool) :
    ∀ (l : List α) (i : Nat) (x : α), l[i]? = some x → (f x).toNat ≤ l.countP f
  | [], i, x, h => by simp at h
  | a :: l, 0, x, h => by
    simp only [List.getElem?_cons_zero, Option.some.injEq] at h
    subst h
    simp only [List.countP_cons]
    cases f a <;> simp
  | a :: l, i + 1, x, h => by
    simp only [List.getElem?_cons_succ] at h
    have ih := toNat_le_countP f l i x h
    simp only [List.countP_cons]
    omega

/-- What a step does to the calls, the lock and the supervisor: a new call begins; or
the supervisor or the environment moves, and the supervisor leaves the timer case or the
closer case only with the lock free; or one call moves from a point `pc` to a point `pc'`,
with the lock counted as the two points hold it, taking the write lock only when it is
free, leaving its send only when the supervisor is in its `select`, and leaving its start
only when no call holds the write lock. -/
theorem step_shape {s s' : EngineState} {a : Action} (h : s.step a = some s') :
    (s'.requests = s.requests ++ [RequestPC.start] ∧ s'.supervisor = s.supervisor ∧
      s'.readers = s.readers ∧ s'.writer = s.writer) ∨
    (s'.requests = s.requests ∧ s'.readers = s.readers ∧ s'.writer = s.writer ∧
      (s'.supervisor = s.supervisor ∨ s.supervisor.notSelecting = false ∨
        (s.writer = false ∧ s.readers = 0))) ∨
    (∃ j pc pc', s.requests[j]? = some pc ∧ s'.requests = s.requests.set j pc' ∧
      s'.supervisor = s.supervisor ∧
      s'.readers = s.readers + pc'.holdsRead.toNat - pc.holdsRead.toNat ∧
      s'.writer = (if pc.holdsWrite = pc'.holdsWrite then s.writer else pc'.holdsWrite) ∧
      (pc.holdsWrite = false → pc'.holdsWrite = true → s.writer = false) ∧
      (pc.isSending = true → s.supervisor = SupervisorPC.selecting) ∧
      (pc = RequestPC.start → s.writer = false)) := by
  cases a with
  | call =>
    simp only [EngineState.step, Option.some.injEq] at h
    subst h
    exact Or.inl ⟨rfl, rfl, rfl, rfl⟩
  | make =>
    simp only [EngineState.step] at h
    split_ifs at h with hc
    cases h
    exact Or.inr (Or.inl ⟨rfl, rfl, rfl, Or.inr (Or.inl (by rw [hc]; rfl))⟩)
  | cancel =>
    simp only [EngineState.step, Option.some.injEq] at h
    subst h
    exact Or.inr (Or.inl ⟨rfl, rfl, rfl, Or.inl rfl⟩)
  | timerFires =>
    simp only [EngineState.step] at h
    split_ifs at h with hc
    cases h
    exact Or.inr (Or.inl ⟨rfl, rfl, rfl, Or.inr (Or.inl (by rw [hc.1]; rfl))⟩)
  | expire =>
    simp only [EngineState.step] at h
    split_ifs at h with hc
    cases h
    refine Or.inr (Or.inl ⟨?_, ?_, ?_, Or.inr (Or.inr ⟨hc.2.1, hc.2.2⟩)⟩) <;>
      (unfold EngineState.closeEngine; split <;> rfl)
  | takeClose =>
    simp only [EngineState.step] at h
    split_ifs at h with hc
    cases h
    exact Or.inr (Or.inl ⟨rfl, rfl, rfl, Or.inr (Or.inl (by rw [hc.1]; rfl))⟩)
  | close =>
    simp only [EngineState.step] at h
    split_ifs at h with hc
    cases h
    refine Or.inr (Or.inl ⟨?_, ?_, ?_, Or.inr (Or.inr ⟨hc.2.1, hc.2.2⟩)⟩) <;>
      (unfold EngineState.closeEngine; split <;> rfl)
  | rlock i =>
    simp only [EngineState.step] at h
    split_ifs at h with hc
    cases h
    exact Or.inr (Or.inr ⟨i, _, _, hc.1, rfl, rfl, rfl, rfl, fun _ _ => hc.2,
      fun hs => (by cases hs), fun _ => hc.2⟩)
  | check i =>
    simp only [EngineState.step] at h
    split_ifs at h with hc hclosed hengine <;> cases h
    · exact Or.inr (Or.inr ⟨i, _, _, hc, rfl, rfl, rfl, rfl, fun _ hw => (by cases hw),
        fun hs => (by cases hs), fun hp => (by cases hp)⟩)
    · exact Or.inr (Or.inr ⟨i, _, _, hc, rfl, rfl, rfl, rfl, fun _ hw => (by cases hw),
        fun hs => (by cases hs), fun hp => (by cases hp)⟩)
    · exact Or.inr (Or.inr ⟨i, _, _, hc, rfl, rfl, rfl, rfl, fun _ hw => (by cases hw),
        fun hs => (by cases hs), fun hp => (by cases hp)⟩)
  | lock i =>
    simp only [EngineState.step] at h
    split_ifs at h with hc
    cases h
    exact Or.inr (Or.inr ⟨i, _, _, hc.1, rfl, rfl, rfl, rfl, fun _ _ => hc.2.1,
      fun hs => (by cases hs), fun hp => (by cases hp)⟩)
  | newEngine i err =>
    simp only [EngineState.step] at h
    split_ifs at h with hc
    cases err with
    | some e =>
      simp only [Option.some.injEq] at h
      subst h
      exact Or.inr (Or.inr ⟨i, _, _, hc, rfl, rfl, rfl, rfl, fun _ hw => (by cases hw),
        fun hs => (by cases hs), fun hp => (by cases hp)⟩)
    | none =>
      simp only [Option.some.injEq] at h
      subst h
      exact Or.inr (Or.inr ⟨i, _, _, hc, rfl, rfl, rfl, rfl, fun hw _ => (by cases hw),
        fun hs => (by cases hs), fun hp => (by cases hp)⟩)
  | ready i err =>
    simp only [EngineState.step] at h
    split_ifs at h with hc
    cases err with
    | some e =>
      simp only [Option.some.injEq] at h
      subst h
      exact Or.inr (Or.inr ⟨i, _, _, hc, rfl, rfl, rfl, rfl, fun _ hw => (by cases hw),
        fun hs => (by cases hs), fun hp => (by cases hp)⟩)
    | none =>
      simp only [Option.some.injEq] at h
      subst h
      exact Or.inr (Or.inr ⟨i, _, _, hc, rfl, rfl, rfl, rfl, fun hw _ => (by cases hw),
        fun hs => (by cases hs), fun hp => (by cases hp)⟩)
  | executed i err =>
    simp only [EngineState.step] at h
    split at h
    · next write hc =>
      split_ifs at h <;> cases h <;>
        exact Or.inr (Or.inr ⟨i, _, _, hc, rfl, rfl, (by cases write <;> rfl),
          (by cases write <;> rfl), fun h1 h2 => (by cases write <;> simp [RequestPC.holdsWrite] at h1 h2),
          fun hs => (by cases hs), fun hp => (by cases hp)⟩)
    · cases h
  | signal i =>
    simp only [EngineState.step] at h
    split at h
    · next write err hc =>
      split_ifs at h with hsel
      cases h
      exact Or.inr (Or.inr ⟨i, _, _, hc, rfl, rfl, (by cases write <;> rfl),
        (by cases write <;> rfl), fun h1 h2 => (by cases write <;> simp [RequestPC.holdsWrite] at h1 h2),
        fun _ => hsel, fun hp => (by cases hp)⟩)
    · cases h
  | unlock i =>
    simp only [EngineState.step] at h
    split at h
    · next write err hc =>
      cases write with
      | true =>
        simp only [if_true, Option.some.injEq] at h
        subst h
        exact Or.inr (Or.inr ⟨i, _, _, hc, rfl, rfl, rfl, rfl, fun hw _ => (by cases hw),
          fun hs => (by cases hs), fun hp => (by cases hp)⟩)
      | false =>
        simp only [Bool.false_eq_true, if_false, Option.some.injEq] at h
        subst h
        exact Or.inr (Or.inr ⟨i, _, _, hc, rfl, rfl, rfl, rfl, fun _ hw => (by cases hw),
          fun hs => (by cases hs), fun hp => (by cases hp)⟩)
    · cases h

/-- Every step keeps the count of the holders of the lock. -/
theorem step_accounted {s s' : EngineState} {a : Action} (hA : s.Accounted)
    (h : s.step a = some s') : s'.Accounted := by
  obtain ⟨hR, hW⟩ := hA
  rcases step_shape h with ⟨h1, _, h3, h4⟩ | ⟨h1, h2, h3, _⟩ |
    ⟨j, pc, pc', hpc, h1, _, h3, h4, h5, _⟩
  · refine ⟨?_, ?_⟩
    · rw [h1, h3, hR, List.countP_append]
      simp [RequestPC.holdsRead]
    · rw [h1, h4, hW, List.countP_append]
      simp [RequestPC.holdsWrite]
  · exact ⟨by rw [h1, h2, hR], by rw [h1, h3, hW]⟩
  · have hcR := countP_set_add RequestPC.holdsRead s.requests j pc pc' hpc
    have hcW := countP_set_add RequestPC.holdsWrite s.requests j pc pc' hpc
    refine ⟨?_, ?_⟩
    · rw [h1, h3]
      omega
    · rw [h1, h4]
      have hb : s.writer.toNat ≤ 1 := Bool.toNat_le s.writer
      cases h6 : pc.holdsWrite <;> cases h7 : pc'.holdsWrite <;>
        simp only [h6, h7, Bool.toNat_false, Bool.toNat_true, if_true, if_false,
          Bool.false_eq_true, Bool.true_eq_false, reduceCtorEq] at hcW ⊢
      · omega
      · have := h5 h6 h7
        rw [this] at hW
        simp only [Bool.toNat_false] at hW
        omega
      · omega
      · omega

theorem run_accounted :
    ∀ (actions : List Action) (s s' : EngineState), s.Accounted →
      s.run actions = some s' → s'.Accounted
  | [], s, s', hA, h => by
    rw [EngineState.run] at h
    cases h
    exact hA
  | a :: rest, s, s', hA, h => by
    rw [EngineState.run] at h
    split at h
    · next s1 h1 => exact run_accounted rest s1 s' (step_accounted hA h1) h
    · cases h

/-- In every reachable state the lock counts its holders. -/
theorem reachable_accounted {s : EngineState} (h : s.Reachable) : s.Accounted := by
  obtain ⟨t, actions, hrun⟩ := h
  exact run_accounted actions _ s
    (show (EngineState.fresh t).Accounted from ⟨rfl, rfl⟩) hrun

/-- While a call is held up on its send with the supervisor out of its `select`, no step
moves the call or the supervisor: the supervisor cannot take the lock that the call
holds, and nothing else receives the signal. -/
theorem step_blocked_same {s s' : EngineState} {a : Action} {i : Nat} (hA : s.Accounted)
    (hb : s.blocked i = true) (h : s.step a = some s') :
    s'.requests[i]? = s.requests[i]? ∧ s'.supervisor = s.supervisor := by
  simp only [EngineState.blocked, Bool.and_eq_true] at hb
  obtain ⟨hsend, hsup⟩ := hb
  cases hi : s.requests[i]? with
  | none =>
    rw [hi] at hsend
    cases hsend
  | some pci =>
    rw [hi] at hsend
    have hpci : pci.isSending = true := hsend
    have hlt : i < s.requests.length := by
      by_contra hcon
      rw [List.getElem?_eq_none (by omega)] at hi
      cases hi
    rcases step_shape h with ⟨h1, h2, _, _⟩ | ⟨h1, h2, h3, h4⟩ |
      ⟨j, pc, pc', hpc, h1, h2, _, _, _, h6, _⟩
    · refine ⟨?_, h2⟩
      rw [h1, List.getElem?_append_left hlt, hi]
    · refine ⟨by rw [h1, hi], ?_⟩
      rcases h4 with h4 | h4 | ⟨h4, h5⟩
      · exact h4
      · rw [h4] at hsup
        cases hsup
      · exfalso
        obtain ⟨hR, hW⟩ := hA
        have hcR := toNat_le_countP RequestPC.holdsRead s.requests i pci hi
        have hcW := toNat_le_countP RequestPC.holdsWrite s.requests i pci hi
        rw [← hR, h5] at hcR
        rw [← hW, h4] at hcW
        cases pci with
        | sending write err =>
          cases write <;>
            simp [RequestPC.holdsRead, RequestPC.holdsWrite] at hcR hcW
        | _ => cases hpci
    · refine ⟨?_, h2⟩
      by_cases hji : j = i
      · subst hji
        rw [hi] at hpc
        cases hpc
        rw [h6 hpci] at hsup
        cases hsup
      · rw [h1, List.getElem?_set_ne hji, hi]

/-- A call that is held up on its send with the supervisor out of its `select` stays so
after every step. -/
theorem step_blocked {s s' : EngineState} {a : Action} {i : Nat} (hA : s.Accounted)
    (hb : s.blocked i = true) (h : s.step a = some s') : s'.blocked i = true := by
  obtain ⟨h1, h2⟩ := step_blocked_same hA hb h
  unfold EngineState.blocked at hb ⊢
  rw [h1, h2]
  exact hb

theorem run_blocked {i : Nat} :
    ∀ (actions : List Action) (s s' : EngineState), s.Accounted → s.blocked i = true →
      s.run actions = some s' → s'.blocked i = true
  | [], s, s', _, hb, h => by
    rw [EngineState.run] at h
    cases h
    exact hb
  | a :: rest, s, s', hA, hb, h => by
    rw [EngineState.run] at h
    split at h
    · next s1 h1 =>
      exact run_blocked rest s1 s' (step_accounted hA h1) (step_blocked hA hb h1) h
    · cases h

/-! ## Completions and the supervisor: the property of the specification -/

/-- Claim C21, the failing runs: states are reachable in which a call is held up on its
send on `requestWasProcessed` with its lock held while the supervisor is out of its
`select`. In the first run a call is in the subprocess under the read lock when the idle
timer fires: the supervisor waits for the write lock and the call waits for the
supervisor. In the second run the same happens with the closer case. In the third run a
call that found the engine cold starts a subprocess after the supervisor has returned,
and sends under the write lock. From every such reachable state, every run leaves the
call held up and the supervisor where it is: the two wait for each other for ever. -/
theorem completion_blocked_forever :
    ((EngineState.fresh 10).run completionDuringExpiry).map
        (fun s => (s.supervisor, s.requests, s.readers, s.writer, s.blocked 1)) =
      some (SupervisorPC.expiring, [RequestPC.done none, RequestPC.sending false none],
        1, false, true) ∧
    ((EngineState.fresh 10).run completionDuringClose).map
        (fun s => (s.supervisor, s.requests, s.readers, s.writer, s.blocked 1)) =
      some (SupervisorPC.closing, [RequestPC.done none, RequestPC.sending false none],
        1, false, true) ∧
    ((EngineState.fresh 10).run completionAfterClose).map
        (fun s => (s.supervisor, s.requests, s.readers, s.writer, s.blocked 0)) =
      some (SupervisorPC.returned, [RequestPC.sending true none], 0, true, true) ∧
    (∃ s : EngineState, s.Reachable ∧ s.blocked 1 = true) ∧
    (∀ (s : EngineState) (i : Nat), s.Reachable → s.blocked i = true →
      ∀ (actions : List Action) (s' : EngineState), s.run actions = some s' →
        s'.blocked i = true) := by
  refine ⟨by decide, by decide, by decide, ?_, ?_⟩
  · cases h : (EngineState.fresh 10).run completionDuringExpiry with
    | none =>
      have h1 : ((EngineState.fresh 10).run completionDuringExpiry).isSome = true := by decide
      rw [h] at h1
      cases h1
    | some s =>
      refine ⟨s, ⟨10, completionDuringExpiry, h⟩, ?_⟩
      have h1 : ((EngineState.fresh 10).run completionDuringExpiry).map
          (fun s => s.blocked 1) = some true := by decide
      rw [h] at h1
      exact Option.some.inj h1
  · intro s i hs hb actions s' hrun
    exact run_blocked actions s s' (reachable_accounted hs) hb hrun

/-! ## Calls on a supervisor that cannot finish: lemmas -/

/-- A call that holds the write lock has the writer flag set. -/
theorem writer_of_holdsWrite {s : EngineState} {i : Nat} {pc : RequestPC} (hA : s.Accounted)
    (hi : s.requests[i]? = some pc) (hpc : pc.holdsWrite = true) : s.writer = true := by
  have h := toNat_le_countP RequestPC.holdsWrite s.requests i pc hi
  rw [← hA.2, hpc] at h
  cases hw : s.writer with
  | true => rfl
  | false =>
    rw [hw] at h
    simp at h

/-- A call that holds the read lock is counted among the readers. -/
theorem readers_of_holdsRead {s : EngineState} {i : Nat} {pc : RequestPC} (hA : s.Accounted)
    (hi : s.requests[i]? = some pc) (hpc : pc.holdsRead = true) : 1 ≤ s.readers := by
  have h := toNat_le_countP RequestPC.holdsRead s.requests i pc hi
  rw [← hA.1, hpc] at h
  simpa using h

/-- A subprocess that is live stays live, unless the supervisor closes it, which it does
with the lock free. -/
theorem step_live {s s' : EngineState} {a : Action} (h : s.step a = some s') :
    (∀ x ∈ s.live, x ∈ s'.live) ∨ (s.writer = false ∧ s.readers = 0) := by
  cases a with
  | expire =>
    simp only [EngineState.step] at h
    split_ifs at h with hc
    exact Or.inr hc.2
  | close =>
    simp only [EngineState.step] at h
    split_ifs at h with hc
    exact Or.inr hc.2
  | newEngine i err =>
    simp only [EngineState.step] at h
    split_ifs at h with hc
    cases err with
    | some e =>
      simp only [Option.some.injEq] at h
      subst h
      exact Or.inl (fun x hx => hx)
    | none =>
      simp only [Option.some.injEq] at h
      subst h
      exact Or.inl (fun x hx => List.mem_append_left _ hx)
  | _ =>
    left
    simp only [EngineState.step] at h
    (repeat' split at h) <;> simp only [Option.some.injEq, reduceCtorEq] at h <;>
      subst h <;> exact fun x hx => hx

theorem run_closed_stable :
    ∀ (actions : List Action) (s s' : EngineState), s.closed = true →
      s.run actions = some s' → s'.closed = true
  | [], s, s', hs, h => by
    rw [EngineState.run] at h
    cases h
    exact hs
  | a :: rest, s, s', hs, h => by
    rw [EngineState.run] at h
    split at h
    · next s1 h1 => exact run_closed_stable rest s1 s' (step_closed_stable hs h1) h
    · cases h

/-- While a call is held up on its send with the supervisor out of its `select`, every
run leaves the call and the supervisor where they are, and closes no subprocess. -/
theorem run_stuck {i : Nat} :
    ∀ (actions : List Action) (s s' : EngineState), s.Accounted → s.blocked i = true →
      s.run actions = some s' →
      s'.Accounted ∧ s'.requests[i]? = s.requests[i]? ∧ s'.supervisor = s.supervisor ∧
        ∀ x ∈ s.live, x ∈ s'.live
  | [], s, s', hA, _, h => by
    rw [EngineState.run] at h
    cases h
    exact ⟨hA, rfl, rfl, fun x hx => hx⟩
  | a :: rest, s, s', hA, hb, h => by
    rw [EngineState.run] at h
    split at h
    · next s1 h1 =>
      obtain ⟨hreq, hsup⟩ := step_blocked_same hA hb h1
      obtain ⟨hA', hreq', hsup', hlive'⟩ :=
        run_stuck rest s1 s' (step_accounted hA h1) (step_blocked hA hb h1) h
      refine ⟨hA', hreq'.trans hreq, hsup'.trans hsup, ?_⟩
      rcases step_live h1 with hl | ⟨hw, hr⟩
      · exact fun x hx => hlive' x (hl x hx)
      · exfalso
        simp only [EngineState.blocked, Bool.and_eq_true] at hb
        cases hi : s.requests[i]? with
        | none =>
          rw [hi] at hb
          cases hb.1
        | some pci =>
          rw [hi] at hb
          cases pci with
          | sending write err =>
            cases write with
            | true =>
              have := writer_of_holdsWrite hA hi rfl
              rw [hw] at this
              cases this
            | false =>
              have := readers_of_holdsRead hA hi rfl
              omega
          | _ => cases hb.1
    · cases h

/-- While a call holds the write lock, a call at its start stays at its start. -/
theorem step_start_stays {s s' : EngineState} {a : Action} {i j : Nat} {pc : RequestPC}
    (hA : s.Accounted) (hi : s.requests[i]? = some pc) (hpc : pc.holdsWrite = true)
    (hj : s.requests[j]? = some RequestPC.start) (h : s.step a = some s') :
    s'.requests[j]? = some RequestPC.start := by
  have hlt : j < s.requests.length := by
    by_contra hcon
    rw [List.getElem?_eq_none (by omega)] at hj
    cases hj
  rcases step_shape h with ⟨h1, _, _, _⟩ | ⟨h1, _, _, _⟩ |
    ⟨k, pck, pck', hk, h1, _, _, _, _, _, hstart⟩
  · rw [h1, List.getElem?_append_left hlt, hj]
  · rw [h1, hj]
  · by_cases hkj : k = j
    · subst hkj
      rw [hj] at hk
      cases hk
      have hw := writer_of_holdsWrite hA hi hpc
      rw [hstart rfl] at hw
      cases hw
    · rw [h1, List.getElem?_set_ne hkj, hj]

theorem run_start_stays {i j : Nat} {err : Option String} :
    ∀ (actions : List Action) (s s' : EngineState), s.Accounted → s.blocked i = true →
      s.requests[i]? = some (RequestPC.sending true err) →
      s.requests[j]? = some RequestPC.start → s.run actions = some s' →
      s'.requests[j]? = some RequestPC.start
  | [], s, s', _, _, _, hj, h => by
    rw [EngineState.run] at h
    cases h
    exact hj
  | a :: rest, s, s', hA, hb, hi, hj, h => by
    rw [EngineState.run] at h
    split at h
    · next s1 h1 =>
      exact run_start_stays rest s1 s' (step_accounted hA h1) (step_blocked hA hb h1)
        ((step_blocked_same hA hb h1).1.trans hi) (step_start_stays hA hi rfl hj h1) h
    · cases h

/-- In its range the duration of the timer is `closeTimeoutSeconds` seconds. -/
theorem closeTimeout_in_range (c : Int) (h1 : -9223372036 ≤ c) (h2 : c ≤ 9223372036) :
    closeTimeout c = 1000000000 * c := by
  unfold closeTimeout wrapInt64
  omega

/-! ## Calls on a supervisor that cannot finish: the properties of the specification -/

/-- Claim C11, the failing run: a call that found the engine cold before the supervisor
closed starts a subprocess afterwards and is held up on its send for ever, with the
write lock held. A call of `Execute` that begins then, on the supervisor whose `closed`
flag is set, cannot take the read lock: it stays at its start after every run, so it
never returns the error `engine closed`. This holds from every reachable state with the
flag set, the supervisor returned and a call that sends under the write lock. -/
theorem closed_Execute_never_returns :
    ((EngineState.fresh 10).run callOnClosed).map
        (fun s => (s.closed, s.supervisor, s.writer, s.requests)) =
      some (true, SupervisorPC.returned, true,
        [RequestPC.sending true none, RequestPC.start]) ∧
    (∃ s : EngineState, s.Reachable ∧ s.closed = true ∧
      s.supervisor = SupervisorPC.returned ∧
      s.requests[0]? = some (RequestPC.sending true none) ∧
      s.requests[1]? = some RequestPC.start) ∧
    (∀ (s : EngineState) (i j : Nat) (err : Option String), s.Reachable →
      s.closed = true → s.supervisor = SupervisorPC.returned →
      s.requests[i]? = some (RequestPC.sending true err) →
      s.requests[j]? = some RequestPC.start →
      ∀ (actions : List Action) (s' : EngineState), s.run actions = some s' →
        s'.closed = true ∧ s'.requests[j]? = some RequestPC.start ∧
        s'.step (Action.rlock j) = none) := by
  refine ⟨by decide, ?_, ?_⟩
  · cases h : (EngineState.fresh 10).run callOnClosed with
    | none =>
      have h1 : ((EngineState.fresh 10).run callOnClosed).isSome = true := by decide
      rw [h] at h1
      cases h1
    | some s =>
      have h1 : ((EngineState.fresh 10).run callOnClosed).map
          (fun s => (s.closed, s.supervisor, s.requests[0]?, s.requests[1]?)) =
          some (true, SupervisorPC.returned, some (RequestPC.sending true none),
            some RequestPC.start) := by decide
      rw [h] at h1
      have h2 := Option.some.inj h1
      simp only [Prod.mk.injEq] at h2
      exact ⟨s, ⟨10, callOnClosed, h⟩, h2.1, h2.2.1, h2.2.2.1, h2.2.2.2⟩
  · intro s i j err hs hclosed hsup hi hj actions s' hrun
    have hA := reachable_accounted hs
    have hb : s.blocked i = true := by
      simp [EngineState.blocked, hi, hsup, RequestPC.isSending, SupervisorPC.notSelecting]
    obtain ⟨hA', hreq, _, _⟩ := run_stuck actions s s' hA hb hrun
    have hj' := run_start_stays actions s s' hA hb hi hj hrun
    have hw : s'.writer = true := writer_of_holdsWrite hA' (hreq.trans hi) rfl
    refine ⟨run_closed_stable actions s s' hclosed hrun, hj', ?_⟩
    simp [EngineState.step, hj', hw]

/-- Claim C13, the failing run: a call is in the subprocess under the read lock when the
idle timer fires. The supervisor takes the timer case and waits for the write lock, the
call waits on its send for the supervisor, and the live subprocess is never closed: after
every run the supervisor is still before `e.m.Lock()`, its critical section cannot be
taken, and the subprocess is still live. This holds from every reachable state with the
supervisor in the timer case and a call that sends under the read lock. Besides, the
timer is armed with `time.Second * time.Duration(closeTimeoutSeconds)` in `int64`, which
is `closeTimeoutSeconds` seconds only in its range: for 9223372037 seconds the duration
is negative. -/
theorem expiry_never_closes_subprocess :
    ((EngineState.fresh 10).run completionDuringExpiry).map
        (fun s => (s.supervisor, s.timer, s.requests)) =
      some (SupervisorPC.expiring, none,
        [RequestPC.done none, RequestPC.sending false none]) ∧
    ((EngineState.fresh 10).run completionDuringExpiry).map
        (fun s => (s.engine, s.live, s.closed, s.readers)) =
      some (some 0, [0], false, 1) ∧
    (∃ s : EngineState, s.Reachable ∧ s.supervisor = SupervisorPC.expiring ∧
      s.requests[1]? = some (RequestPC.sending false none) ∧ 0 ∈ s.live) ∧
    (∀ (s : EngineState) (i handle : Nat) (err : Option String), s.Reachable →
      s.supervisor = SupervisorPC.expiring →
      s.requests[i]? = some (RequestPC.sending false err) → handle ∈ s.live →
      ∀ (actions : List Action) (s' : EngineState), s.run actions = some s' →
        s'.supervisor = SupervisorPC.expiring ∧ s'.step Action.expire = none ∧
        handle ∈ s'.live ∧ s'.requests[i]? = some (RequestPC.sending false err)) ∧
    closeTimeout longTimeoutSeconds = -9223372036709551616 ∧
    ((EngineState.fresh longTimeoutSeconds).run (completionDuringExpiry.take 9)).map
        (fun s => (s.signals, s.timer)) = some (1, some (-9223372036709551616)) ∧
    (∀ (s s' : EngineState) (i : Nat), s.step (Action.signal i) = some s' →
      -9223372036 ≤ s.closeTimeoutSeconds → s.closeTimeoutSeconds ≤ 9223372036 →
      s'.timer = some (1000000000 * s.closeTimeoutSeconds)) := by
  refine ⟨by decide, by decide, ?_, ?_, by decide, by decide, ?_⟩
  · cases h : (EngineState.fresh 10).run completionDuringExpiry with
    | none =>
      have h1 : ((EngineState.fresh 10).run completionDuringExpiry).isSome = true := by
        decide
      rw [h] at h1
      cases h1
    | some s =>
      have h1 : ((EngineState.fresh 10).run completionDuringExpiry).map
          (fun s => (s.supervisor, s.requests[1]?, s.live)) =
          some (SupervisorPC.expiring, some (RequestPC.sending false none), [0]) := by
        decide
      rw [h] at h1
      have h2 := Option.some.inj h1
      simp only [Prod.mk.injEq] at h2
      exact ⟨s, ⟨10, completionDuringExpiry, h⟩, h2.1, h2.2.1, by rw [h2.2.2]; simp⟩
  · intro s i handle err hs hsup hi hlive actions s' hrun
    have hA := reachable_accounted hs
    have hb : s.blocked i = true := by
      simp [EngineState.blocked, hi, hsup, RequestPC.isSending, SupervisorPC.notSelecting]
    obtain ⟨hA', hreq, hsup', hlive'⟩ := run_stuck actions s s' hA hb hrun
    have hr : 1 ≤ s'.readers := readers_of_holdsRead hA' (hreq.trans hi) rfl
    refine ⟨hsup'.trans hsup, ?_, hlive' handle hlive, hreq.trans hi⟩
    have hne : s'.readers ≠ 0 := by omega
    simp [EngineState.step, hne]
  · intro s s' i h h1 h2
    rw [← closeTimeout_in_range _ h1 h2]
    exact idle_reaping.2.1 s s' i h

end Database
